import Mathlib

/-!
# CalibrationTool: the custom checkerboard detector

A shallow embedding of `src/core/detectors/custom_checkerboard_detector.cpp`, of the corner
detection of `src/core/calib/calib_board.cpp` that calls it, of the rotation conversions of
`src/core/calib/transformation_utils.cpp` and of the parameter validation of
`src/core/depth_processing/sgbm_processor.h`.

Modelling conventions

* `float` and `double` values are exact rationals (`ℚ`): rounding, NaN and infinities are
  outside the model; `static_cast<float>` and `convertTo(CV_32F)` are the identity.
* `int` values are `Int`, container sizes and matrix dimensions are `Nat`; C integer division
  is `Int.tdiv` (truncation toward zero).
* A `cv::Mat` is its size, depth, channel count and a total pixel function; reads outside
  `rows × cols` never happen on the paths modelled.
* OpenCV and libc routines whose numerics are not part of this repository (Gaussian and box
  blur, Sobel, Laplacian, connected components, line drawing, the FLANN index, `sqrt`, `sin`,
  `cos`, `std::sort` on candidates) are fields of the records `ImgOps` and `GridOps`; simple
  OpenCV routines with a fixed meaning (`minMaxLoc`, `filter2D`, `flip`, `sum`, element-wise
  arithmetic, `Rect` intersection) are written out.
* A function that contains a loop whose trip count is not bounded by its input takes a `fuel`
  argument and returns `Option`; `none` means that no result is returned (the loop does not
  finish within the fuel, the C++ has no defined behaviour on that path, or an OpenCV
  assertion throws a `cv::Exception` that nothing catches).
-/

/-! ## Data model -/

/-- The `cv::Point2f` of OpenCV: a point with two `float` coordinates. -/
structure Point2f where
  x : ℚ
  y : ℚ
deriving DecidableEq

/-- The `cv::Point` of OpenCV: a point with two `int` coordinates. -/
structure Point where
  x : Int
  y : Int
deriving DecidableEq

/-- The `cv::Size` of OpenCV, with `int` fields. -/
structure Size where
  width : Int
  height : Int
deriving DecidableEq

/-- The `cv::Rect` of OpenCV, with `int` fields. -/
structure Rect where
  x : Int
  y : Int
  width : Int
  height : Int
deriving DecidableEq

/-- The `core::detectors::CornerCandidate` of the header: a position and a score. -/
structure CornerCandidate where
  point : Point2f
  score : ℚ
deriving DecidableEq

/-- Element depth of a matrix (the depths this repository uses). -/
inductive Depth where
  | CV_8U
  | CV_32F
  | CV_64F
deriving DecidableEq

/-- A `cv::Mat`: dimensions, depth, channel count, and the pixel values (of the first plane). -/
structure Mat where
  rows : Nat
  cols : Nat
  depth : Depth
  channels : Nat
  data : Nat → Nat → ℚ

namespace Point2f

/-- Component-wise sum, `operator+` on `cv::Point2f`. -/
def add (p q : Point2f) : Point2f := ⟨p.x + q.x, p.y + q.y⟩

/-- Component-wise difference, `operator-` on `cv::Point2f`. -/
def sub (p q : Point2f) : Point2f := ⟨p.x - q.x, p.y - q.y⟩

/-- Scaling by a scalar, `operator*` on `cv::Point2f`. -/
def smul (k : ℚ) (p : Point2f) : Point2f := ⟨k * p.x, k * p.y⟩

/-- Dot product, `cv::Point2f::dot`. -/
def dot (p q : Point2f) : ℚ := p.x * q.x + p.y * q.y

end Point2f

namespace Mat

/-- The test `cv::Mat::empty()`. -/
def empty (m : Mat) : Bool := m.rows == 0 || m.cols == 0

/-- The test `m.type() == CV_32F` (single channel, 32-bit float). -/
def isCV_32F (m : Mat) : Bool := m.depth == Depth.CV_32F && m.channels == 1

/-- The test `m.type() == CV_64F`. -/
def isCV_64F (m : Mat) : Bool := m.depth == Depth.CV_64F && m.channels == 1

/-- The test `m.type() == CV_8U`. -/
def isCV_8U (m : Mat) : Bool := m.depth == Depth.CV_8U && m.channels == 1

/-- The matrix `cv::Mat::zeros(rows, cols, CV_32F)`. -/
def zeros (rows cols : Nat) (d : Depth) : Mat := ⟨rows, cols, d, 1, fun _ _ => 0⟩

/-- Same header, new pixel values: the result of an element-wise OpenCV expression. -/
def withData (m : Mat) (f : Nat → Nat → ℚ) : Mat := { m with data := f }

/-- Element-wise map. -/
def map (f : ℚ → ℚ) (m : Mat) : Mat := m.withData (fun r c => f (m.data r c))

/-- Element-wise combination of two matrices of the same size (header of the first). -/
def zipWith (f : ℚ → ℚ → ℚ) (a b : Mat) : Mat := a.withData (fun r c => f (a.data r c) (b.data r c))

/-- The sub-matrix `m(rect)`; the rectangle is assumed to lie inside `m`. -/
def roi (m : Mat) (rect : Rect) : Mat :=
  { m with rows := rect.height.toNat, cols := rect.width.toNat,
           data := fun r c => m.data (r + rect.y.toNat) (c + rect.x.toNat) }

/-- The condition that `cv::Mat::operator()(const cv::Rect&)` asserts with `CV_Assert`: the
rectangle lies inside the matrix. When it fails the call throws a `cv::Exception`. -/
def roi_inside (m : Mat) (rect : Rect) : Bool :=
  decide (0 ≤ rect.x) && decide (0 ≤ rect.width) && decide (rect.x + rect.width ≤ m.cols) &&
  decide (0 ≤ rect.y) && decide (0 ≤ rect.height) && decide (rect.y + rect.height ≤ m.rows)

/-- All pixel positions `(row, col)` in row-major scan order. -/
def positions (m : Mat) : List (Nat × Nat) :=
  (List.range m.rows).flatMap (fun r => (List.range m.cols).map (fun c => (r, c)))

/-- The value `cv::sum(m)[0]`. -/
def sum (m : Mat) : ℚ := (m.positions.map (fun p => m.data p.1 p.2)).sum

end Mat

/-- Squared distance as computed in the suppression loop: `dx * dx + dy * dy`. -/
def dist_sq (a b : Point2f) : ℚ :=
  (a.x - b.x) * (a.x - b.x) + (a.y - b.y) * (a.y - b.y)

/-! ## Non-maximum suppression (`non_maximum_suppression_custom`) -/

/-- The contract of `std::sort(candidates.rbegin(), candidates.rend())` with the header's
`operator<` on scores: the result is a permutation of the input in non-increasing score order.
The order of equal scores is unspecified by the C++ standard, so the routine is a parameter. -/
structure StdSortDesc where
  sort : List CornerCandidate → List CornerCandidate
  perm : ∀ l, List.Perm (sort l) l
  sorted : ∀ l, List.Sorted (fun a b => b.score ≤ a.score) (sort l)

/-- The inner `for j` loop: flag every not yet suppressed later candidate closer than
`min_dist_sq` to the accepted candidate `ci`. -/
def nms_mark (ci : CornerCandidate) (min_dist_sq : ℚ)
    (rest : List CornerCandidate) (is_suppressed : List Bool) : List Bool :=
  List.zipWith (fun cj s => s || decide (dist_sq ci.point cj.point < min_dist_sq)) rest is_suppressed

/-- The outer `for i` loop over the sorted candidates, with the `is_suppressed` flags of the
candidates still to be visited. -/
def nms_loop (min_dist_sq : ℚ) : List CornerCandidate → List Bool → List CornerCandidate
  | [], _ => []
  | ci :: rest, is_suppressed =>
    if is_suppressed.headD false then nms_loop min_dist_sq rest is_suppressed.tail
    else ci :: nms_loop min_dist_sq rest (nms_mark ci min_dist_sq rest is_suppressed.tail)

/-- The function `non_maximum_suppression_custom`. -/
def non_maximum_suppression_custom (S : StdSortDesc) (candidates : List CornerCandidate)
    (min_dist_sq : ℚ) : List CornerCandidate :=
  if candidates.isEmpty then []
  else nms_loop min_dist_sq (S.sort candidates) (List.replicate candidates.length false)

/-- Insertion sort by non-increasing score: one routine meeting the `std::sort` contract. -/
def insertionSortDesc : StdSortDesc where
  sort := List.insertionSort (fun a b => b.score ≤ a.score)
  perm := List.perm_insertionSort _
  sorted := by
    intro l
    haveI : IsTotal CornerCandidate (fun a b => b.score ≤ a.score) := ⟨fun a b => le_total _ _⟩
    haveI : IsTrans CornerCandidate (fun a b => b.score ≤ a.score) :=
      ⟨fun a b c hab hbc => le_trans hbc hab⟩
    exact List.sorted_insertionSort _ l

/-! ## External routines -/

/-- Statistics row of `cv::connectedComponentsWithStats` (`CC_STAT_LEFT`, `CC_STAT_TOP`,
`CC_STAT_WIDTH`, `CC_STAT_HEIGHT`, `CC_STAT_AREA`). -/
structure CCStat where
  left : Int
  top : Int
  width : Int
  height : Int
  area : Int
deriving DecidableEq

/-- Library routines used by the image stages (normalisation, templates, responses, candidate
extraction, trimming). Image filters return the pixel values of their result; size and type of
the result are fixed by the caller as OpenCV documents them. -/
structure ImgOps where
  /-- The libc `std::sqrt`. -/
  sqrt : ℚ → ℚ
  /-- The libc `std::sin`. -/
  sin : ℚ → ℚ
  /-- The libc `std::cos`. -/
  cos : ℚ → ℚ
  /-- The `std::sort` call of the suppression stage. -/
  sortDesc : StdSortDesc
  /-- Pixel values of `cv::cvtColor(img, gray, cv::COLOR_BGR2GRAY)`. -/
  cvtColor : Mat → Nat → Nat → ℚ
  /-- Pixel values of `cv::GaussianBlur(src, dst, Size(k, k), sigma)`. -/
  GaussianBlur : Mat → Int → ℚ → Nat → Nat → ℚ
  /-- Pixel values of `cv::blur(src, dst, Size(k, k))`. -/
  blur : Mat → Int → Nat → Nat → ℚ
  /-- Pixel values of `src.convertTo(dst, CV_8U, alpha, beta)`. -/
  convertTo8U : Mat → ℚ → ℚ → Nat → Nat → ℚ
  /-- Pixel values of `cv::Laplacian(src, dst, CV_64F)` followed by `cv::convertScaleAbs`. -/
  LaplacianAbs : Mat → Nat → Nat → ℚ
  /-- Statistics rows of `cv::connectedComponentsWithStats`, label 0 (background) first. -/
  connectedComponentsWithStats : Mat → List CCStat

/-- Library routines used by refinement and grid reconstruction. -/
structure GridOps where
  /-- Pixel values of `cv::Sobel(src, dst, ddepth, dx, dy, 3)`. -/
  Sobel : Mat → Nat → Nat → Nat → Nat → Nat → ℚ
  /-- Pixel values (0 or 255) of `cv::line` drawn on a zero mask of the given size. -/
  line : Nat → Nat → Point → Point → Int → Nat → Nat → ℚ
  /-- The call `flann_index.knnSearch(query, indices, dists, k)` on the index built over the
  given points: the `k` returned (index, distance) pairs. -/
  knnSearch : List Point2f → Point2f → Nat → List (Int × ℚ)

/-- The value `cv::norm(p)` of a point: `sqrt(x*x + y*y)`. -/
def norm2f (sqrt : ℚ → ℚ) (p : Point2f) : ℚ := sqrt (p.x * p.x + p.y * p.y)

/-- Conversion `static_cast<int>` of a floating value: truncation toward zero. -/
def c_trunc (q : ℚ) : Int := if 0 ≤ q then ⌊q⌋ else -⌊-q⌋

/-- The libc `std::round` followed by `static_cast<int>`: nearest integer, halves away from
zero. -/
def c_round (q : ℚ) : Int := if 0 ≤ q then ⌊q + 1/2⌋ else -⌊-q + 1/2⌋

/-- Absolute value, `std::abs`. -/
def c_abs (q : ℚ) : ℚ := if q < 0 then -q else q

/-- The result of `cv::minMaxLoc`. Locations are `(x, y) = (column, row)`. -/
structure MinMax where
  min_val : ℚ
  max_val : ℚ
  min_loc : Point
  max_loc : Point

/-- Position of the first pixel, in row-major scan order, that no later pixel beats strictly. -/
def Mat.argBest (better : ℚ → ℚ → Bool) (m : Mat) : Nat × Nat :=
  m.positions.foldl
    (fun best p => if better (m.data p.1 p.2) (m.data best.1 best.2) then p else best) (0, 0)

/-- The routine `cv::minMaxLoc`: extreme values and the position of their first occurrence. -/
def minMaxLoc (m : Mat) : MinMax :=
  let lo := m.argBest (fun v b => decide (v < b))
  let hi := m.argBest (fun v b => decide (b < v))
  { min_val := m.data lo.1 lo.2, max_val := m.data hi.1 hi.2,
    min_loc := ⟨lo.2, lo.1⟩, max_loc := ⟨hi.2, hi.1⟩ }

/-! ## Image normalisation (`normalize_image_custom`) -/

/-- Lines 25-30 of `normalize_image_custom`: the grayscale image `gray`. -/
def normalize_gray (ops : ImgOps) (img : Mat) : Mat :=
  if img.channels > 2 then { img with channels := 1, data := ops.cvtColor img } else img

/-- Lines 43-62 of `normalize_image_custom`: the clipped and shifted local-contrast signal
`clipped_diff`. -/
def normalize_clipped (ops : ImgOps) (img : Mat) : Mat :=
  let gray : Mat := normalize_gray ops img
  let gray_float : Mat := { gray with depth := Depth.CV_32F }
  let grayb : Mat := gray_float.withData (ops.GaussianBlur gray_float 3 1)
  let blur0 : Int := c_trunc (ops.sqrt (((gray.rows * gray.cols : Nat) : ℚ)) / 2)
  let blur_py_size_val : Int := if blur0 < 1 then 1 else blur0
  let gray_mean : Mat := grayb.withData (ops.blur grayb blur_py_size_val)
  let diff : Mat := Mat.zipWith (fun a b => (a - b) / 255) grayb gray_mean
  let diff : Mat := diff.map (fun v => max v (-(2/10)))
  let diff : Mat := diff.map (fun v => min v (2/10))
  diff.map (fun v => v + 2/10)

/-- The function `normalize_image_custom`. -/
def normalize_image_custom (ops : ImgOps) (img : Mat) : Mat :=
  let clipped_diff : Mat := normalize_clipped ops img
  let mm := minMaxLoc clipped_diff
  if c_abs (mm.max_val - mm.min_val) < 1/1000000000 then
    clipped_diff.withData (fun _ _ => 0)
  else
    clipped_diff.map (fun v => (v - mm.min_val) / (mm.max_val - mm.min_val))

/-! ## Correlation templates (`create_correlation_patch_custom`) -/

/-- The constant `CV_PI` of OpenCV. -/
def CV_PI : ℚ := 3.1415926535897932384626433832795

/-- The table `TPROPS` of angle pairs. -/
def TPROPS : List (ℚ × ℚ) :=
  [(0, CV_PI / 2), (CV_PI / 4, -CV_PI / 4),
   (0, CV_PI / 4), (0, -CV_PI / 4),
   (CV_PI / 4, CV_PI / 2), (-CV_PI / 4, CV_PI / 2),
   (-3 * CV_PI / 8, 3 * CV_PI / 8), (-CV_PI / 8, CV_PI / 8),
   (-CV_PI / 8, -3 * CV_PI / 8), (CV_PI / 8, 3 * CV_PI / 8)]

/-- The sector (template index) that the pixel `(u_idx, v_idx)` is written to by the double
loop of `create_correlation_patch_custom`, if any. -/
def patch_sector (ops : ImgOps) (angle1_rad angle2_rad : ℚ) (radius : Int)
    (u_idx v_idx : Nat) : Option Nat :=
  let mu : ℚ := radius
  let mv : ℚ := radius
  let n1 : Point2f := ⟨-ops.sin angle1_rad, ops.cos angle1_rad⟩
  let n2 : Point2f := ⟨-ops.sin angle2_rad, ops.cos angle2_rad⟩
  let vec : Point2f := ⟨(u_idx : ℚ) - mu, (v_idx : ℚ) - mv⟩
  let dist : ℚ := norm2f ops.sqrt vec
  if dist ≤ radius then
    let s1 := vec.dot n1
    let s2 := vec.dot n2
    if s1 ≤ -(1/10) ∧ s2 ≤ -(1/10) then some 0
    else if s1 ≥ 1/10 ∧ s2 ≥ 1/10 then some 1
    else if s1 ≤ -(1/10) ∧ s2 ≥ 1/10 then some 2
    else if s1 ≥ 1/10 ∧ s2 ≤ -(1/10) then some 3
    else none
  else none

/-- Template `i` after the marking loop and before normalisation: a 0/1 indicator. -/
def patch_indicator (ops : ImgOps) (angle1_rad angle2_rad : ℚ) (radius : Int) (i : Nat) : Mat :=
  let width : Nat := (radius * 2 + 1).toNat
  let height : Nat := (radius * 2 + 1).toNat
  { rows := height, cols := width, depth := Depth.CV_32F, channels := 1,
    data := fun v_idx u_idx =>
      if v_idx < height ∧ u_idx < width ∧
          patch_sector ops angle1_rad angle2_rad radius u_idx v_idx = some i then 1 else 0 }

/-- The normalisation step: divide by the sum unless it is (near) zero. -/
def patch_normalize (t : Mat) : Mat :=
  let sum_val := t.sum
  if sum_val > 1/1000000000 then t.map (fun v => v / sum_val) else t

/-- The function `create_correlation_patch_custom`: the four sector kernels. -/
def create_correlation_patch_custom (ops : ImgOps) (angle1_rad angle2_rad : ℚ) (radius : Int) :
    List Mat :=
  (List.range 4).map (fun i => patch_normalize (patch_indicator ops angle1_rad angle2_rad radius i))

/-! ## Corner response (`detect_corners_from_templates_custom`,
`detect_all_corner_responses_custom`) -/

/-- The empty matrix `cv::Mat()`. -/
def Mat.none : Mat := ⟨0, 0, Depth.CV_8U, 1, fun _ _ => 0⟩

/-- Index clamping of `cv::BORDER_REPLICATE`. -/
def clampIdx (n : Nat) (i : Int) : Nat :=
  if i < 0 then 0 else if i ≥ n then n - 1 else i.toNat

/-- The routine `cv::flip(src, dst, -1)`: flip around both axes. -/
def flip_both (t : Mat) : Mat :=
  t.withData (fun r c => t.data (t.rows - 1 - r) (t.cols - 1 - c))

/-- The routine `cv::filter2D(src, dst, -1, kernel, Point(-1,-1), 0, cv::BORDER_REPLICATE)`:
correlation with the kernel anchored at its centre, borders replicated. -/
def filter2D (src kernel : Mat) : Mat :=
  src.withData (fun y x =>
    (kernel.positions.map (fun p =>
      kernel.data p.1 p.2 *
        src.data (clampIdx src.rows ((y : Int) + (p.1 : Int) - ((kernel.rows / 2 : Nat) : Int)))
                 (clampIdx src.cols ((x : Int) + (p.2 : Int) - ((kernel.cols / 2 : Nat) : Int))))).sum)

/-- The response formula of `detect_corners_from_templates_custom` at one pixel, from the four
filter responses there: `max(min_arr, min_narr)`. -/
def corner_response (r0 r1 r2 r3 : ℚ) : ℚ :=
  let mu := (r0 + r1 + r2 + r3) / 4
  let min_arr := min (min (min (r0 - mu) (r1 - mu)) (mu - r2)) (mu - r3)
  let min_narr := min (min (min (mu - r0) (mu - r1)) (r2 - mu)) (r3 - mu)
  max min_arr min_narr

/-- The function `detect_corners_from_templates_custom`. -/
def detect_corners_from_templates_custom (gray_normalized_float : Mat) (templates : List Mat) :
    Mat :=
  match templates with
  | [t0, t1, t2, t3] =>
    let c0 := filter2D gray_normalized_float (flip_both t0)
    let c1 := filter2D gray_normalized_float (flip_both t1)
    let c2 := filter2D gray_normalized_float (flip_both t2)
    let c3 := filter2D gray_normalized_float (flip_both t3)
    c0.withData (fun r c => corner_response (c0.data r c) (c1.data r c) (c2.data r c) (c3.data r c))
  | _ => Mat.none

/-- One iteration of the double loop of `detect_all_corner_responses_custom`. -/
def response_step (ops : ImgOps) (gray_normalized_float : Mat) (out_response_map : Mat)
    (cfg : (ℚ × ℚ) × Int) : Mat :=
  let templates := create_correlation_patch_custom ops cfg.1.1 cfg.1.2 cfg.2
  let corr_map_for_this_config := detect_corners_from_templates_custom gray_normalized_float templates
  if !corr_map_for_this_config.empty then
    out_response_map.withData
      (fun r c => max (corr_map_for_this_config.data r c) (out_response_map.data r c))
  else out_response_map

/-- The (angle pair, radius) configurations in the order the double loop visits them. -/
def response_configs (radiuses : List Int) : List ((ℚ × ℚ) × Int) :=
  TPROPS.flatMap (fun angles => radiuses.map (fun radius => (angles, radius)))

/-- The function `detect_all_corner_responses_custom`. -/
def detect_all_corner_responses_custom (ops : ImgOps) (gray_normalized_float : Mat)
    (radiuses : List Int) : Mat :=
  (response_configs radiuses).foldl (response_step ops gray_normalized_float)
    (Mat.zeros gray_normalized_float.rows gray_normalized_float.cols Depth.CV_32F)

/-! ## Candidate extraction (`get_corner_candidates_custom`) -/

namespace Rect

/-- The intersection `a & b` of two rectangles (the empty rectangle is `Rect()`). -/
def inter (a b : Rect) : Rect :=
  let x1 := max a.x b.x
  let y1 := max a.y b.y
  let w := min (a.x + a.width) (b.x + b.width) - x1
  let h := min (a.y + a.height) (b.y + b.height) - y1
  if w ≤ 0 ∨ h ≤ 0 then ⟨0, 0, 0, 0⟩ else ⟨x1, y1, w, h⟩

/-- The value `rect.area()`. -/
def area (r : Rect) : Int := r.width * r.height

end Rect

/-- Loop state of the window scan: the candidates pushed so far and the set
`checked_max_coords` of `(row, col)` pairs already registered. -/
structure ScanState where
  candidates : List CornerCandidate
  checked_max_coords : List (Int × Int)

/-- Body of the window scan for the window whose top-left corner is `(j, i)`. -/
def scan_window (corr_map : Mat) (step : Int) (threshold : ℚ) (i j : Int) (st : ScanState) :
    ScanState :=
  let region_rect := Rect.inter ⟨j, i, step, step⟩ ⟨0, 0, corr_map.cols, corr_map.rows⟩
  if region_rect.area = 0 then st
  else
    let region := corr_map.roi region_rect
    let mm := minMaxLoc region
    if mm.max_val > threshold then
      let global_max_loc : Point := ⟨mm.max_loc.x + region_rect.x, mm.max_loc.y + region_rect.y⟩
      if (global_max_loc.y, global_max_loc.x) ∈ st.checked_max_coords then st
      else
        { candidates := st.candidates ++ [⟨⟨global_max_loc.x, global_max_loc.y⟩, mm.max_val⟩],
          checked_max_coords := (global_max_loc.y, global_max_loc.x) :: st.checked_max_coords }
    else st

/-- The inner loop `for (int j = ...; j < corr_map.cols; j += step / 2)`, one unit of fuel per
evaluation of the loop test. -/
def scan_cols (corr_map : Mat) (step : Int) (threshold : ℚ) (i : Int) :
    Nat → Int → ScanState → Option ScanState
  | 0, _, _ => none
  | fuel + 1, j, st =>
    if j < corr_map.cols then
      scan_cols corr_map step threshold i fuel (j + Int.tdiv step 2)
        (scan_window corr_map step threshold i j st)
    else some st

/-- The outer loop `for (int i = ...; i < corr_map.rows; i += step / 2)`; every inner loop gets
the budget `col_fuel`. -/
def scan_rows (corr_map : Mat) (step : Int) (threshold : ℚ) (col_fuel : Nat) :
    Nat → Int → ScanState → Option ScanState
  | 0, _, _ => none
  | fuel + 1, i, st =>
    if i < corr_map.rows then
      match scan_cols corr_map step threshold i col_fuel 0 st with
      | none => none
      | some st1 => scan_rows corr_map step threshold col_fuel fuel (i + Int.tdiv step 2) st1
    else some st

/-- The function `get_corner_candidates_custom`. -/
def get_corner_candidates_custom (fuel : Nat) (corr_map : Mat) (step : Int) (threshold : ℚ) :
    Option (List CornerCandidate) :=
  if corr_map.empty || !corr_map.isCV_32F then some []
  else (scan_rows corr_map step threshold fuel fuel 0 ⟨[], []⟩).map (fun st => st.candidates)

/-! ## Sub-pixel refinement (`solve_patch_corner_custom`, `refine_corners_custom`) -/

/-- The function `solve_patch_corner_custom`; the result `(-1, -1)` signals an error. -/
def solve_patch_corner_custom (patch_dx patch_dy : Mat) : Point2f :=
  if patch_dx.empty || patch_dy.empty || patch_dx.rows != patch_dy.rows
      || patch_dx.cols != patch_dy.cols || !patch_dx.isCV_64F || !patch_dy.isCV_64F then
    ⟨-1, -1⟩
  else
    let px := patch_dx.positions
    let dx := fun (p : Nat × Nat) => patch_dx.data p.1 p.2
    let dy := fun (p : Nat × Nat) => patch_dy.data p.1 p.2
    let m00 := (px.map (fun p => dy p * dy p)).sum
    let m01 := (px.map (fun p => dy p * dx p)).sum
    let m10 := (px.map (fun p => dx p * dy p)).sum
    let m11 := (px.map (fun p => dx p * dx p)).sum
    let b0 := (px.map (fun p => dy p * dy p * (p.1 : ℚ) + dy p * dx p * (p.2 : ℚ))).sum
    let b1 := (px.map (fun p => dx p * dy p * (p.1 : ℚ) + dx p * dx p * (p.2 : ℚ))).sum
    let det := m00 * m11 - m01 * m10
    if det < 1/1000000000 then ⟨-1, -1⟩
    else
      let p0 := (m11 * b0 - m01 * b1) / det
      let p1 := (-m10 * b0 + m00 * b1) / det
      ⟨p1, p0⟩

/-- The bounds test of the candidate loop of `refine_corners_custom` (the condition under
which the loop does not `continue`), for the rounded position `(x, y)`. -/
def refine_bounds_ok (sobel_dx : Mat) (half_win : Int) (x y : Int) : Bool :=
  !(decide (y - half_win < 0) || decide (y + half_win + 1 > sobel_dx.rows) ||
    decide (x - half_win < 0) || decide (x + half_win + 1 > sobel_dx.cols))

/-- The rectangle `cv::Rect(x - half_win, y - half_win, winsize, winsize)` of the patch. -/
def refine_window (winsize half_win : Int) (x y : Int) : Rect :=
  ⟨x - half_win, y - half_win, winsize, winsize⟩

/-- Body of the candidate loop of `refine_corners_custom`. The result is `some (some r)` when
`r` is pushed for `cand`, `some none` when the loop takes one of its `continue` branches, and
`none` when the extraction of the patch fails its assertion, so that a `cv::Exception` leaves
the function. -/
def refine_one (sobel_dx sobel_dy : Mat) (winsize half_win : Int) (check_only : Bool)
    (cand : CornerCandidate) : Option (Option CornerCandidate) :=
  let y := c_round cand.point.y
  let x := c_round cand.point.x
  if !refine_bounds_ok sobel_dx half_win x y then some none
  else if !sobel_dx.roi_inside (refine_window winsize half_win x y) then none
  else
    let patch_dx := sobel_dx.roi (refine_window winsize half_win x y)
    let patch_dy := sobel_dy.roi (refine_window winsize half_win x y)
    let subpixel_offset := solve_patch_corner_custom patch_dx patch_dy
    if subpixel_offset.x = -1 ∧ subpixel_offset.y = -1 then some none
    else
      let offset_from_center : Point2f :=
        ⟨subpixel_offset.x - half_win, subpixel_offset.y - half_win⟩
      if c_abs offset_from_center.x > half_win + 1 ∨ c_abs offset_from_center.y > half_win + 1 then
        some none
      else if check_only then some (some ⟨⟨x, y⟩, cand.score⟩)
      else some (some ⟨⟨x + offset_from_center.x, y + offset_from_center.y⟩, cand.score⟩)

/-- The candidate loop of `refine_corners_custom`: the content of `refined_candidates` after the
loop, or `none` when one iteration throws. -/
def refine_loop (body : CornerCandidate → Option (Option CornerCandidate)) :
    List CornerCandidate → Option (List CornerCandidate)
  | [] => some []
  | cand :: rest =>
    match body cand with
    | none => none
    | some pushed =>
      match refine_loop body rest with
      | none => none
      | some refined_candidates => some (pushed.toList ++ refined_candidates)

/-- The function `refine_corners_custom`; `none` when it is left by an exception. -/
def refine_corners_custom (gops : GridOps) (candidates : List CornerCandidate)
    (gray_normalized_float : Mat) (winsize : Int) (check_only : Bool) :
    Option (List CornerCandidate) :=
  if gray_normalized_float.empty || !gray_normalized_float.isCV_32F then some candidates
  else
    let half_win := Int.tdiv (winsize - 1) 2
    if half_win ≤ 0 then some candidates
    else
      let sobel_dx : Mat :=
        { gray_normalized_float with depth := Depth.CV_64F,
                                     data := gops.Sobel gray_normalized_float 1 0 3 }
      let sobel_dy : Mat :=
        { gray_normalized_float with depth := Depth.CV_64F,
                                     data := gops.Sobel gray_normalized_float 0 1 3 }
      refine_loop (refine_one sobel_dx sobel_dy winsize half_win check_only) candidates

/-! ## Quality score (`checkerboard_score_custom`) -/

/-- Conversion `static_cast<size_t>` of an `int`. -/
def to_size_t (i : Int) : Nat := (i % 2 ^ 64).toNat

/-- State of the two scoring loops: still running with the current `max_metric`, or left
through `return 1.0` at a degenerate triple. -/
inductive ScoreScan where
  | degenerate
  | running (max_metric : ℚ)
deriving DecidableEq

/-- Body of both scoring loops for one triple. -/
def score_triple (sqrt : ℚ → ℚ) (max_metric : ℚ) (t : Point2f × Point2f × Point2f) : ScoreScan :=
  let p_prev := t.1
  let p_curr := t.2.1
  let p_next := t.2.2
  let term_p_next_plus_p_prev := p_next.add p_prev
  let term_2_p_curr := Point2f.smul 2 p_curr
  let top := norm2f sqrt (term_p_next_plus_p_prev.sub term_2_p_curr)
  let bot := norm2f sqrt (p_next.sub p_prev)
  if c_abs bot < 1/1000000000 then ScoreScan.degenerate
  else ScoreScan.running (max max_metric (top / bot))

/-- The scoring loops over the triples in visiting order. -/
def score_scan (sqrt : ℚ → ℚ) : List (Point2f × Point2f × Point2f) → ℚ → ScoreScan
  | [], max_metric => ScoreScan.running max_metric
  | t :: ts, max_metric =>
    match score_triple sqrt max_metric t with
    | ScoreScan.degenerate => ScoreScan.degenerate
    | ScoreScan.running m => score_scan sqrt ts m

/-- The lambda `get_corner`: `corners_vec[r * board_size.width + c]`. -/
def get_corner (corners_vec : List Point2f) (board_size : Size) (r c : Nat) : Point2f :=
  corners_vec.getD ((r : Int) * board_size.width + (c : Int)).toNat ⟨0, 0⟩

/-- The triples visited by the row loop: every row, interior columns `1 .. width - 2`. -/
def row_triples (corners_vec : List Point2f) (board_size : Size) :
    List (Point2f × Point2f × Point2f) :=
  (List.range board_size.height.toNat).flatMap (fun r_idx =>
    (List.range' 1 (board_size.width - 2).toNat).map (fun c_idx =>
      (get_corner corners_vec board_size r_idx (c_idx - 1),
       get_corner corners_vec board_size r_idx c_idx,
       get_corner corners_vec board_size r_idx (c_idx + 1))))

/-- The triples visited by the column loop: every column, interior rows `1 .. height - 2`. -/
def col_triples (corners_vec : List Point2f) (board_size : Size) :
    List (Point2f × Point2f × Point2f) :=
  (List.range board_size.width.toNat).flatMap (fun c_idx =>
    (List.range' 1 (board_size.height - 2).toNat).map (fun r_idx =>
      (get_corner corners_vec board_size (r_idx - 1) c_idx,
       get_corner corners_vec board_size r_idx c_idx,
       get_corner corners_vec board_size (r_idx + 1) c_idx)))

/-- The function `checkerboard_score_custom`. -/
def checkerboard_score_custom (sqrt : ℚ → ℚ) (corners_vec : List Point2f) (board_size : Size) :
    ℚ :=
  if corners_vec.length ≠ to_size_t (board_size.width * board_size.height) then 1
  else
    match score_scan sqrt (row_triples corners_vec board_size) 0 with
    | ScoreScan.degenerate => 1
    | ScoreScan.running m1 =>
      match score_scan sqrt (col_triples corners_vec board_size) m1 with
      | ScoreScan.degenerate => 1
      | ScoreScan.running m2 => m2

/-! ## Grid reconstruction (`make_mask_line_custom`, `reorder_checkerboard_custom`) -/

/-- The constant `std::numeric_limits<float>::max()`. -/
def FLT_MAX : ℚ := 340282346638528859811704183484516925440

/-- Element access `v[idx]` with an `int` index: `none` when the index is outside the vector,
where the C++ access is undefined. -/
def at_index {α : Type} (v : List α) (idx : Int) : Option α :=
  if idx < 0 then none else v[idx.toNat]?

/-- The function `make_mask_line_custom`. -/
def make_mask_line_custom (gops : GridOps) (rows cols : Nat) (p1 p2 : Point2f)
    (thickness : Int) : Mat :=
  { rows := rows, cols := cols, depth := Depth.CV_8U, channels := 1,
    data := gops.line rows cols ⟨c_round p1.x, c_round p1.y⟩ ⟨c_round p2.x, c_round p2.y⟩
      thickness }

/-- The outputs of `reorder_checkerboard_custom`: the returned flag, `ordered_corners` and
`out_max_reorder_dist` (`none` is the initial value `+infinity`). -/
structure ReorderResult where
  ok : Bool
  ordered_corners : List Point2f
  out_max_reorder_dist : Option ℚ
deriving DecidableEq

/-- The outcome of the failure returns of `reorder_checkerboard_custom`. -/
def ReorderResult.failure : ReorderResult := ⟨false, [], none⟩

/-- Edge strength along the line from the seed to one neighbour; `none` when the loop body
takes its `continue` (empty mask). -/
def neighbor_mag (gops : GridOps) (dmag : Mat) (corner_mid neighbor_pt : Point2f) : Option ℚ :=
  let line_mask := make_mask_line_custom gops dmag.rows dmag.cols corner_mid neighbor_pt 3
  let line_mask_float : Mat := { line_mask.map (fun v => v / 255) with depth := Depth.CV_32F }
  let sum_mask := line_mask_float.sum
  if sum_mask < 1/1000000 then none
  else
    let line_mask_float := line_mask_float.map (fun v => v / sum_mask)
    some (Mat.zipWith (fun a b => a * b) line_mask_float dmag).sum

/-- The neighbour loop over the k-NN indices after the first: the pairs pushed to
`selected_neighbors` and `neighbor_mags`. The outer `none` is a negative index. -/
def neighbor_loop (gops : GridOps) (candidate_points : List Point2f) (dmag : Mat)
    (corner_mid : Point2f) : List (Int × ℚ) → Option (List (Point2f × ℚ))
  | [] => some []
  | (current_neighbor_idx, _) :: rest =>
    if current_neighbor_idx ≥ candidate_points.length then
      neighbor_loop gops candidate_points dmag corner_mid rest
    else
      match at_index candidate_points current_neighbor_idx with
      | none => none
      | some neighbor_pt =>
        match neighbor_loop gops candidate_points dmag corner_mid rest with
        | none => none
        | some tail =>
          match neighbor_mag gops dmag corner_mid neighbor_pt with
          | none => some tail
          | some mag_along_line => some ((neighbor_pt, mag_along_line) :: tail)

/-- The loop that picks `ax1_vec`: state is `(current_max_mag_for_ax1, ax1_vec)`. -/
def ax1_loop (sqrt : ℚ → ℚ) (corner_mid : Point2f) (selected : List (Point2f × ℚ))
    (final_selected_neighbors : List Point2f) : ℚ × Point2f :=
  final_selected_neighbors.foldl
    (fun st neighbor_pt =>
      match selected.find? (fun sm => decide (norm2f sqrt (neighbor_pt.sub sm.1) < 1/1000)) with
      | some sm => if sm.2 > st.1 then (sm.2, neighbor_pt.sub corner_mid) else st
      | none => st)
    (-1, ⟨0, 0⟩)

/-- The loop that picks `ax2_vec`: state is `(min_abs_dot_product, ax2_vec)`. -/
def ax2_loop (sqrt : ℚ → ℚ) (ax1_vec : Point2f) (dirs : List Point2f) : ℚ × Point2f :=
  dirs.foldl
    (fun st dir_vec =>
      if norm2f sqrt (dir_vec.sub ax1_vec) < 1/1000 then st
      else
        let dir_vec_norm := Point2f.smul (1 / norm2f sqrt dir_vec) dir_vec
        let ax1_vec_norm := Point2f.smul (1 / norm2f sqrt ax1_vec) ax1_vec
        let abs_dot := c_abs (dir_vec_norm.dot ax1_vec_norm)
        if abs_dot < st.1 then (abs_dot, dir_vec) else st)
    (FLT_MAX, ⟨0, 0⟩)

/-- Lines 497-642 of `reorder_checkerboard_custom`: the seed corner, the gradient strength
toward its neighbours, and the two axes. The outer `none` is an undefined vector access; the
inner `none` is one of the `return false` exits. -/
def reorder_axes (sqrt : ℚ → ℚ) (gops : GridOps) (candidate_points : List Point2f)
    (normalized_gray_float : Mat) : Option (Option (Point2f × Point2f)) :=
  let n : ℚ := candidate_points.length
  let mean_val0 : ℚ :=
    ((candidate_points.map (fun p => p.x)).sum + (candidate_points.map (fun p => p.y)).sum)
      / (2 * n)
  let mean_val1 : ℚ := 0
  let median_ish_point : Point2f := ⟨mean_val0, mean_val1⟩
  match (gops.knnSearch candidate_points median_ish_point 1).head? with
  | none => none
  | some (ix_mid, _) =>
    match at_index candidate_points ix_mid with
    | none => none
    | some corner_mid =>
      let indices_knn := (gops.knnSearch candidate_points corner_mid 7).take 7
      let sobel_dx := gops.Sobel normalized_gray_float 1 0 3
      let sobel_dy := gops.Sobel normalized_gray_float 0 1 3
      let dmag : Mat :=
        normalized_gray_float.withData
          (fun r c => sqrt (sobel_dx r c * sobel_dx r c + sobel_dy r c * sobel_dy r c))
      match neighbor_loop gops candidate_points dmag corner_mid (indices_knn.drop 1) with
      | none => none
      | some selected0 =>
        if selected0.isEmpty then some none
        else
          let max_mag := (selected0.map (fun sm => sm.2)).foldl max ((selected0.map (fun sm => sm.2)).headD 0)
          let selected : List (Point2f × ℚ) :=
            if max_mag > 1/1000000 then selected0.map (fun sm => (sm.1, sm.2 / max_mag))
            else selected0
          let final_selected_neighbors : List Point2f :=
            (selected.filter (fun sm => decide (sm.2 > 7/10))).map (fun sm => sm.1)
          let dirs : List Point2f := final_selected_neighbors.map (fun p => p.sub corner_mid)
          if dirs.isEmpty || decide (dirs.length < 2) then some none
          else if final_selected_neighbors.isEmpty then some none
          else
            let ax1_vec := (ax1_loop sqrt corner_mid selected final_selected_neighbors).2
            if norm2f sqrt ax1_vec < 1/1000000 then some none
            else
              let ax2_vec := (ax2_loop sqrt ax1_vec dirs).2
              if norm2f sqrt ax2_vec < 1/1000000 then some none
              else
                let ax1_vec := if ax1_vec.x + ax1_vec.y < 0 then Point2f.smul (-1) ax1_vec else ax1_vec
                let ax2_vec := if ax2_vec.x + ax2_vec.y < 0 then Point2f.smul (-1) ax2_vec else ax2_vec
                some (some (ax1_vec, ax2_vec))

/-- The candidates ranked by projection onto `ax1 + ax2`: the sorted vector
`start_candidates_scores` of (projection, index) pairs. -/
def start_candidates_scores (candidate_points : List Point2f) (ax1_vec ax2_vec : Point2f) :
    List (ℚ × Nat) :=
  let combined_ax := ax1_vec.add ax2_vec
  List.insertionSort (fun a b => a.1 < b.1 ∨ (a.1 = b.1 ∧ a.2 ≤ b.2))
    (candidate_points.enum.map (fun ip => (ip.2.dot combined_ax, ip.1)))

/-- The predicted grid positions of one hypothesis, in the order the double loop pushes them. -/
def grid_queries (target_board_size : Size) (start_xy ax1_new ax2_new : Point2f) : List Point2f :=
  (List.range target_board_size.height.toNat).flatMap (fun (r : Nat) =>
    (List.range target_board_size.width.toNat).map (fun (c : Nat) =>
      (start_xy.add (Point2f.smul (r : ℚ) ax2_new)).add (Point2f.smul (c : ℚ) ax1_new)))

/-- The candidate points selected by a list of k-NN indices; `none` on an index outside the
candidate vector. -/
def points_at (candidate_points : List Point2f) : List Int → Option (List Point2f)
  | [] => some []
  | idx :: rest =>
    match at_index candidate_points idx, points_at candidate_points rest with
    | some p, some ps => some (p :: ps)
    | _, _ => none

/-- One (origin, axis-role) hypothesis: the maximum snap distance `max_dist_this_grid` and the
snapped candidate positions. `none` is an undefined access: a k-NN index outside the candidate
vector, or a query matrix of `num_total_corners_expected` rows over a shorter buffer. -/
def grid_hypothesis (gops : GridOps) (candidate_points : List Point2f) (target_board_size : Size)
    (start_xy current_ax1 current_ax2 : Point2f) : Option (ℚ × List Point2f) :=
  let num_total_corners_expected := to_size_t (target_board_size.width * target_board_size.height)
  match (gops.knnSearch candidate_points (start_xy.add current_ax1) 1).head?,
        (gops.knnSearch candidate_points (start_xy.add current_ax2) 1).head? with
  | some (i1, _), some (i2, _) =>
    match at_index candidate_points i1, at_index candidate_points i2 with
    | some q1, some q2 =>
      let ax1_new := (Point2f.smul (6/10) current_ax1).add (Point2f.smul (4/10) (q1.sub start_xy))
      let ax2_new := (Point2f.smul (6/10) current_ax2).add (Point2f.smul (4/10) (q2.sub start_xy))
      let queries := grid_queries target_board_size start_xy ax1_new ax2_new
      if queries.length ≠ num_total_corners_expected then none
      else
        let found := queries.map (fun q => (gops.knnSearch candidate_points q 1).head?)
        if found.any (fun f => f.isNone) then none
        else
          let grid_indices : List Int := found.map (fun f => (f.getD (0, 0)).1)
          let grid_dists : List ℚ := found.map (fun f => (f.getD (0, 0)).2)
          let max_dist_this_grid := grid_dists.foldl max 0
          match points_at candidate_points grid_indices with
          | none => none
          | some pts => some (max_dist_this_grid, pts)
    | _, _ => none
  | _, _ => none

/-- State of the hypothesis search: `best_ixs_points` and `d_best` (`none` is `+infinity`). -/
structure GridBest where
  best_ixs_points : List Point2f
  d_best : Option ℚ
deriving DecidableEq

/-- The update `if (max_dist_this_grid < d_best) { ... }`. -/
def grid_update (best : GridBest) (hyp : ℚ × List Point2f) : GridBest :=
  match best.d_best with
  | none => ⟨hyp.2, some hyp.1⟩
  | some d => if hyp.1 < d then ⟨hyp.2, some hyp.1⟩ else best

/-- The (origin, axis 1, axis 2) triples in the order the `attempt` and `axis_perm` loops
visit them. -/
def grid_hypotheses_list (candidate_points : List Point2f) (ax1_vec ax2_vec : Point2f) :
    List (Point2f × Point2f × Point2f) :=
  let scores := start_candidates_scores candidate_points ax1_vec ax2_vec
  let num_start_attempts := min 2 scores.length
  (scores.take num_start_attempts).flatMap (fun s =>
    let start_xy := candidate_points.getD s.2 ⟨0, 0⟩
    [(start_xy, ax1_vec, ax2_vec), (start_xy, ax2_vec, ax1_vec)])

/-- The hypothesis loops. -/
def grid_search (gops : GridOps) (candidate_points : List Point2f) (target_board_size : Size) :
    List (Point2f × Point2f × Point2f) → GridBest → Option GridBest
  | [], best => some best
  | h :: rest, best =>
    match grid_hypothesis gops candidate_points target_board_size h.1 h.2.1 h.2.2 with
    | none => none
    | some hyp => grid_search gops candidate_points target_board_size rest (grid_update best hyp)

/-- The function `reorder_checkerboard_custom`. -/
def reorder_checkerboard_custom (sqrt : ℚ → ℚ) (gops : GridOps)
    (candidates : List CornerCandidate) (normalized_gray_float : Mat) (target_board_size : Size) :
    Option ReorderResult :=
  if candidates.isEmpty || normalized_gray_float.empty || !normalized_gray_float.isCV_32F then
    some ReorderResult.failure
  else
    let num_total_corners_expected := to_size_t (target_board_size.width * target_board_size.height)
    if candidates.length < num_total_corners_expected then some ReorderResult.failure
    else
      let candidate_points := candidates.map (fun cand => cand.point)
      match reorder_axes sqrt gops candidate_points normalized_gray_float with
      | none => none
      | some none => some ReorderResult.failure
      | some (some (ax1_vec, ax2_vec)) =>
        match grid_search gops candidate_points target_board_size
            (grid_hypotheses_list candidate_points ax1_vec ax2_vec) ⟨[], none⟩ with
        | none => none
        | some best =>
          if best.best_ixs_points.length = num_total_corners_expected then
            some ⟨true, best.best_ixs_points, best.d_best⟩
          else some ReorderResult.failure

/-! ## Region-of-interest trimming (`trim_picture_custom`) -/

/-- The component loop of `trim_picture_custom`: state is `(best_component_idx, max_area)`,
the rows are the statistics of labels `1, 2, ...` paired with their labels. -/
def best_component (rows : List (Nat × CCStat)) : Int × Int :=
  rows.foldl (fun st row => if row.2.area > st.2 then ((row.1 : Int), row.2.area) else st) (-1, 0)

/-- Lines 736-748 of `trim_picture_custom`: the 8-bit image `gray_8u`. -/
def trim_gray_8u (ops : ImgOps) (gray_image : Mat) : Mat :=
  if !gray_image.isCV_8U then
    let mm := minMaxLoc gray_image
    if mm.max_val > mm.min_val then
      { gray_image with
          depth := Depth.CV_8U,
          data := ops.convertTo8U gray_image (255 / (mm.max_val - mm.min_val))
                    (-mm.min_val * 255 / (mm.max_val - mm.min_val)) }
    else { gray_image with depth := Depth.CV_8U, data := ops.convertTo8U gray_image 1 0 }
  else gray_image

/-- Lines 751-780 of `trim_picture_custom`: the statistics of the connected components of the
thresholded Laplacian response; `none` when the function returns early on an empty pixel
vector. -/
def trim_components (ops : ImgOps) (gray_image : Mat) : Option (List CCStat) :=
  let gray_8u := trim_gray_8u ops gray_image
  let laplace_abs : Mat := { gray_8u with depth := Depth.CV_8U, data := ops.LaplacianAbs gray_8u }
  let laplace_blur : Mat := laplace_abs.withData (ops.blur laplace_abs 100)
  let vec_laplace_blur : List ℚ :=
    List.insertionSort (fun a b => a ≤ b)
      (laplace_blur.positions.map (fun p => laplace_blur.data p.1 p.2))
  if vec_laplace_blur.isEmpty then none
  else
    let threshold_val : ℚ :=
      vec_laplace_blur.getD (c_trunc (92/100 * (vec_laplace_blur.length : ℚ))).toNat 0
    let img_thres : Mat := laplace_blur.map (fun v => if v > threshold_val then 255 else 0)
    some (ops.connectedComponentsWithStats img_thres)

/-- Lines 782-816 of `trim_picture_custom`: the crop rectangle; `none` when the function
returns `Point(0,0)` and leaves the image unchanged. -/
def trim_crop (gray_image : Mat) (stats : List CCStat) : Option Rect :=
  let num_components := stats.length
  if num_components ≤ 1 then none
  else
    let best := best_component (stats.enum.drop 1)
    let best_component_idx := best.1
    let max_area := best.2
    if best_component_idx = -1 ∨ max_area < 4000 then none
    else
      let st := stats.getD best_component_idx.toNat ⟨0, 0, 0, 0, 0⟩
      let lowx := st.left
      let lowy := st.top
      let highx := lowx + st.width
      let highy := lowy + st.height
      let lowy := max 0 (lowy - 50)
      let highy := min (gray_image.rows : Int) (highy + 50)
      let lowx := max 0 (lowx - 50)
      let highx := min (gray_image.cols : Int) (highx + 50)
      if lowy ≥ highy ∨ lowx ≥ highx then none
      else some ⟨lowx, lowy, highx - lowx, highy - lowy⟩

/-- The function `trim_picture_custom`: the image after the call and the returned offset. -/
def trim_picture_custom (ops : ImgOps) (gray_image : Mat) : Mat × Point :=
  if gray_image.empty then (gray_image, ⟨0, 0⟩)
  else
    match trim_components ops gray_image with
    | none => (gray_image, ⟨0, 0⟩)
    | some stats =>
      match trim_crop gray_image stats with
      | none => (gray_image, ⟨0, 0⟩)
      | some rect => (gray_image.roi rect, ⟨rect.x, rect.y⟩)

/-! ## The detector (`detect_checkerboard_custom`) -/

/-- The result of `detect_checkerboard_custom`: the returned score and `out_corners`. -/
structure DetectionResult where
  score : ℚ
  corners : List Point2f
deriving DecidableEq

/-- The image handed to normalisation and the crop offset (lines 843-857), for a non-empty
input. -/
def detect_current_gray (ops : ImgOps) (gray_image : Mat) (trim : Bool) : Mat × Point :=
  if trim then trim_picture_custom ops gray_image else (gray_image, ⟨0, 0⟩)

/-- The radius list built from `winsize` (lines 861-870). -/
def detect_radiuses (winsize : Int) : List Int :=
  let radiuses := [winsize + 3] ++ (if winsize ≥ 8 then [winsize - 3] else [])
  let radiuses := radiuses.filter (fun r => !decide (r ≤ 0))
  if radiuses.isEmpty then [6, 8, 10] else radiuses

/-- The smoothed cornerness map `corr_blurred` (lines 873-876). -/
def detect_corr_blurred (ops : ImgOps) (normalized_gray : Mat) (winsize : Int) : Mat :=
  let corr_map := detect_all_corner_responses_custom ops normalized_gray (detect_radiuses winsize)
  corr_map.withData (ops.GaussianBlur corr_map 7 3)

/-- The candidates after extraction (lines 878-881). -/
def detect_candidates (ops : ImgOps) (fuel : Nat) (normalized_gray : Mat) (winsize : Int) :
    Option (List CornerCandidate) :=
  let corr_blurred := detect_corr_blurred ops normalized_gray winsize
  let max_corr_val := (minMaxLoc corr_blurred).max_val
  get_corner_candidates_custom fuel corr_blurred (winsize + 2) (max_corr_val * (2/10))

/-- The candidates after suppression (lines 889-892). -/
def detect_nms (ops : ImgOps) (candidates : List CornerCandidate) (winsize : Int) :
    List CornerCandidate :=
  let nms_min_dist : ℚ := if ((winsize - 2 : Int) : ℚ) < 1 then 1 else ((winsize - 2 : Int) : ℚ)
  non_maximum_suppression_custom ops.sortDesc candidates (nms_min_dist * nms_min_dist)

/-- The list handed to `reorder_checkerboard_custom`: the first
`min(candidates.size(), expected + extra)` refined candidates (lines 911-913 and 922-924). -/
def candidates_for_reorder (refined_candidates_sp : List CornerCandidate)
    (num_candidates : Nat) (expected_corners_count : Nat) (extra : Nat) : List CornerCandidate :=
  let num_candidates_for_reorder := min num_candidates (expected_corners_count + extra)
  refined_candidates_sp.take (min refined_candidates_sp.length num_candidates_for_reorder)

/-- Refinement and the two reconstruction attempts (lines 899-926): the state of
`reorder_ok`, `ordered_corners_raw` and `max_reorder_dist` after the last call made. -/
def detect_reorder (ops : ImgOps) (gops : GridOps) (candidates : List CornerCandidate)
    (normalized_gray : Mat) (board_size : Size) (winsize : Int) : Option ReorderResult :=
  let expected_corners_count := to_size_t (board_size.width * board_size.height)
  match refine_corners_custom gops candidates normalized_gray (winsize + 2) false with
  | none => none
  | some refined_candidates_sp =>
    match reorder_checkerboard_custom ops.sqrt gops
        (candidates_for_reorder refined_candidates_sp candidates.length expected_corners_count 10)
        normalized_gray board_size with
    | none => none
    | some first =>
      if !first.ok || decide (first.ordered_corners.length ≠ expected_corners_count) then
        reorder_checkerboard_custom ops.sqrt gops
          (candidates_for_reorder refined_candidates_sp candidates.length expected_corners_count 20)
          normalized_gray board_size
      else some first

/-- Scoring and the final accept/reject (lines 932-953); `out_corners` is the (cleared) output
vector, returned untouched on a reject and resized and overwritten on success. -/
def detect_finish (sqrt : ℚ → ℚ) (out_corners : List Point2f) (ordered_corners_raw : List Point2f)
    (board_size : Size) (crop_offset : Point) : DetectionResult :=
  let final_score := checkerboard_score_custom sqrt ordered_corners_raw board_size
  if final_score > 3/10 then ⟨final_score, out_corners⟩
  else
    ⟨final_score,
     ordered_corners_raw.map (fun p => p.add ⟨(crop_offset.x : ℚ), (crop_offset.y : ℚ)⟩)⟩

/-- The call `v.clear()` on a `std::vector`. -/
def vector_clear {α : Type} (_v : List α) : List α := []

/-- The function `detect_checkerboard_custom`. The in/out parameter `out_corners` carries the
content of the caller's vector on entry; the result holds its content on return. -/
def detect_checkerboard_custom (ops : ImgOps) (gops : GridOps) (fuel : Nat) (gray_image : Mat)
    (board_size : Size) (out_corners : List Point2f) (winsize : Int) (trim : Bool) :
    Option DetectionResult :=
  let out_corners := vector_clear out_corners
  if gray_image.empty then some ⟨1, out_corners⟩
  else
    let cg := detect_current_gray ops gray_image trim
    let current_gray := cg.1
    let crop_offset := cg.2
    if trim && current_gray.empty then some ⟨1, out_corners⟩
    else
      let normalized_gray := normalize_image_custom ops current_gray
      match detect_candidates ops fuel normalized_gray winsize with
      | none => none
      | some candidates =>
        let expected_corners_count := to_size_t (board_size.width * board_size.height)
        if candidates.length < expected_corners_count then some ⟨1, out_corners⟩
        else
          let candidates := detect_nms ops candidates winsize
          if candidates.length < expected_corners_count then some ⟨1, out_corners⟩
          else
            match detect_reorder ops gops candidates normalized_gray board_size winsize with
            | none => none
            | some r =>
              if !r.ok || decide (r.ordered_corners.length ≠ expected_corners_count) then
                some ⟨1, out_corners⟩
              else
                some (detect_finish ops.sqrt out_corners r.ordered_corners board_size crop_offset)

/-- The per-configuration response at pixel `(r, c)`: the value there of the map that
`detect_corners_from_templates_custom` computes from the templates of one (angle pair, radius)
configuration. -/
def config_response (ops : ImgOps) (gray_normalized_float : Mat) (cfg : (ℚ × ℚ) × Int)
    (r c : Nat) : ℚ :=
  (detect_corners_from_templates_custom gray_normalized_float
    (create_correlation_patch_custom ops cfg.1.1 cfg.1.2 cfg.2)).data r c

/-- A 5 x 5 field with a horizontal step edge: rows 0-2 are dark, rows 3-4 are bright. -/
def edge_field : Mat := ⟨5, 5, Depth.CV_32F, 1, fun r _ => if r ≥ 3 then 1 else 0⟩

/-! ## Corner detection of the calibration board (`CalibBoard::find_corners_in_image`) -/

/-- The enumeration `core::common::CalibErrType`. -/
inductive CalibErrType where
  | CAL_OK
  | CAL_CORNER_DET_ERR
  | CAL_DATA_SIZE_NOT_MATCH
  | CAL_DATA_CSV_FORMAT_ERR
deriving DecidableEq

/-- The enumeration `CalibPatternType`. -/
inductive CalibPatternType where
  | CHESSBOARD
  | CHARUCO
  | APRILTAG
  | UNKNOWN
deriving DecidableEq

/-- The `cv::Point3f` of OpenCV. -/
structure Point3f where
  x : ℚ
  y : ℚ
  z : ℚ
deriving DecidableEq

/-- The struct `ImageCornersResult`. -/
structure ImageCornersResult where
  image_path : String
  found : Bool
  corners : List Point2f
  object_points_for_image : List Point3f
  error_code : CalibErrType
deriving DecidableEq

/-- The members of `CalibBoard` that `find_corners_in_image` reads. -/
structure CalibBoard where
  board_rows_ : Int
  board_cols_ : Int
  pattern_type_ : CalibPatternType
  use_custom_detector_ : Bool
  object_points_ : List Point3f

/-- OpenCV's own pattern detectors, used when the custom detector is not selected. -/
structure BoardOps where
  /-- The call `cv::findChessboardCornersSB(gray, pattern_size, corners, flags)`: the returned
  flag and the corners written. -/
  findChessboardCornersSB : Mat → Size → Bool × List Point2f
  /-- The call `cv::aruco::detectMarkers`: the marker corners and the marker ids. -/
  detectMarkers : Mat → List (List Point2f) × List Int
  /-- The call `cv::aruco::interpolateCornersCharuco`: the two output arrays. -/
  interpolateCornersCharuco :
    List (List Point2f) → List Int → Mat → List Point2f × List Point3f

/-- The image `gray_image` of `find_corners_in_image` (lines 86-91). -/
def find_corners_gray (ops : ImgOps) (image : Mat) : Mat :=
  if image.channels = 3 then { image with channels := 1, data := ops.cvtColor image } else image

/-- The branch of `find_corners_in_image` for the custom detector (lines 93-108), from the
value returned by `detect_checkerboard_custom` and the corners it wrote. -/
def find_corners_custom (board : CalibBoard) (result : ImageCornersResult)
    (score : ℚ) (corners : List Point2f) : ImageCornersResult :=
  let result := { result with corners := corners }
  if score < 3/10 ∧ ¬ result.corners.isEmpty ∧
      result.corners.length = to_size_t (board.board_rows_ * board.board_cols_) then
    { result with found := true, error_code := CalibErrType.CAL_OK,
                  object_points_for_image := board.object_points_ }
  else { result with found := false }

/-- The branches of `find_corners_in_image` for OpenCV's own detectors (lines 110-167). -/
def find_corners_default (bops : BoardOps) (board : CalibBoard) (result : ImageCornersResult)
    (gray_image : Mat) : ImageCornersResult :=
  if board.pattern_type_ = CalibPatternType.CHESSBOARD then
    let pattern_size : Size := ⟨board.board_rows_, board.board_cols_⟩
    let sb := bops.findChessboardCornersSB gray_image pattern_size
    let result := { result with found := sb.1, corners := sb.2 }
    if result.found then
      { result with error_code := CalibErrType.CAL_OK,
                    object_points_for_image := board.object_points_ }
    else result
  else if board.pattern_type_ = CalibPatternType.CHARUCO then
    let markers := bops.detectMarkers gray_image
    let marker_corners := markers.1
    let marker_ids := markers.2
    if ¬ marker_ids.isEmpty then
      let charuco := bops.interpolateCornersCharuco marker_corners marker_ids gray_image
      let result := { result with corners := charuco.1, object_points_for_image := charuco.2 }
      if ¬ result.corners.isEmpty ∧ result.corners.length ≥ 4 then
        { result with found := true, error_code := CalibErrType.CAL_OK }
      else result
    else result
  else result

/-- The member function `CalibBoard::find_corners_in_image`; `none` when the custom detector
returns no result. -/
def CalibBoard.find_corners_in_image (ops : ImgOps) (gops : GridOps) (bops : BoardOps)
    (fuel : Nat) (board : CalibBoard) (image : Mat) : Option ImageCornersResult :=
  let result : ImageCornersResult := ⟨"", false, [], [], CalibErrType.CAL_CORNER_DET_ERR⟩
  if image.empty then some result
  else
    let gray_image := find_corners_gray ops image
    if board.use_custom_detector_ ∧ board.pattern_type_ = CalibPatternType.CHESSBOARD then
      match detect_checkerboard_custom ops gops fuel gray_image
          ⟨board.board_rows_, board.board_cols_⟩ result.corners 9 false with
      | none => none
      | some det => some (find_corners_custom board result det.score det.corners)
    else some (find_corners_default bops board result gray_image)

/-- The member function `CalibBoard::process_single_image_for_corners` (lines 170-181). The
parameter `imread` stands for `cv::imread(path, cv::IMREAD_COLOR)`: the image loaded from a
path, empty when the file cannot be read. The member `found` of the local `result`, which has
no initialiser in the struct, is assigned before the only `return result`. -/
def CalibBoard.process_single_image_for_corners (ops : ImgOps) (gops : GridOps) (bops : BoardOps)
    (fuel : Nat) (imread : String → Mat) (board : CalibBoard) (image_path : String) :
    Option ImageCornersResult :=
  let result : ImageCornersResult := ⟨"", false, [], [], CalibErrType.CAL_OK⟩
  let result := { result with image_path := image_path }
  let img := imread image_path
  if img.empty then
    let result := { result with error_code := CalibErrType.CAL_CORNER_DET_ERR }
    let result := { result with found := false }
    some result
  else board.find_corners_in_image ops gops bops fuel img

/-- The two lists of image paths that the result loop of `mono_calibrate` fills (lines
225-265): `successfully_calibrated_images` and `rejected_images`. -/
def mono_calibrate_image_lists (corner_detection_results : List ImageCornersResult) :
    List String × List String :=
  corner_detection_results.foldl
    (fun lists res =>
      if res.found && !res.corners.isEmpty then (lists.1 ++ [res.image_path], lists.2)
      else (lists.1, lists.2 ++ [res.image_path]))
    ([], [])

/-! ## Rotation conversions (`transformation_utils.cpp`) -/

/-- A `cv::Mat` of type `CV_64F` as read through `at<double>`: its size and its entries. The
entries range over an ordered field `K`, so that the conversions run on `ℚ` and can be
reasoned about over `ℝ`, where square roots are exact. -/
structure MatD (K : Type) where
  rows : Nat
  cols : Nat
  data : Nat → Nat → K

/-- The `cv::Vec4d` of OpenCV: four `double` components `q[0] .. q[3]`. -/
structure Vec4d (K : Type) where
  q0 : K
  q1 : K
  q2 : K
  q3 : K
deriving DecidableEq

/-- The value `cv::norm(q)` of a `cv::Vec4d`, also written out in
`rotation_matrix_to_quaternion`: the square root of the sum of the squared components. -/
def Vec4d.norm {K : Type} [LinearOrderedField K] (sqrt : K → K) (q : Vec4d K) : K :=
  sqrt (q.q0 * q.q0 + q.q1 * q.q1 + q.q2 * q.q2 + q.q3 * q.q3)

/-- Division of a `cv::Vec4d` by a scalar. -/
def Vec4d.div {K : Type} [LinearOrderedField K] (q : Vec4d K) (k : K) : Vec4d K :=
  ⟨q.q0 / k, q.q1 / k, q.q2 / k, q.q3 / k⟩

/-- The quaternion `(w, x, y, z)` of `rotation_matrix_to_quaternion` before it is normalised. -/
def rotation_matrix_to_quaternion_raw {K : Type} [LinearOrderedField K] (sqrt : K → K)
    (R : MatD K) : Vec4d K :=
  let trace := R.data 0 0 + R.data 1 1 + R.data 2 2
  if trace > 0 then
    let s := (1/2) / sqrt (trace + 1)
    ⟨(1/4) / s,
     (R.data 2 1 - R.data 1 2) * s,
     (R.data 0 2 - R.data 2 0) * s,
     (R.data 1 0 - R.data 0 1) * s⟩
  else
    if R.data 0 0 > R.data 1 1 ∧ R.data 0 0 > R.data 2 2 then
      let s := 2 * sqrt (1 + R.data 0 0 - R.data 1 1 - R.data 2 2)
      ⟨(R.data 2 1 - R.data 1 2) / s,
       (1/4) * s,
       (R.data 0 1 + R.data 1 0) / s,
       (R.data 0 2 + R.data 2 0) / s⟩
    else if R.data 1 1 > R.data 2 2 then
      let s := 2 * sqrt (1 + R.data 1 1 - R.data 0 0 - R.data 2 2)
      ⟨(R.data 0 2 - R.data 2 0) / s,
       (R.data 0 1 + R.data 1 0) / s,
       (1/4) * s,
       (R.data 1 2 + R.data 2 1) / s⟩
    else
      let s := 2 * sqrt (1 + R.data 2 2 - R.data 0 0 - R.data 1 1)
      ⟨(R.data 1 0 - R.data 0 1) / s,
       (R.data 0 2 + R.data 2 0) / s,
       (R.data 1 2 + R.data 2 1) / s,
       (1/4) * s⟩

/-- The function `rotation_matrix_to_quaternion`. -/
def rotation_matrix_to_quaternion {K : Type} [LinearOrderedField K] (sqrt : K → K)
    (R : MatD K) : Vec4d K :=
  if R.cols ≠ 3 ∨ R.rows ≠ 3 then ⟨0, 0, 0, 0⟩
  else
    let q := rotation_matrix_to_quaternion_raw sqrt R
    let norm := q.norm sqrt
    if norm > 1/1000000000 then q.div norm else q

/-- The function `quaternion_to_rotation_matrix`. -/
def quaternion_to_rotation_matrix {K : Type} [LinearOrderedField K] (sqrt : K → K)
    (q_in : Vec4d K) : MatD K :=
  let norm := q_in.norm sqrt
  if norm < 1/1000000000 then ⟨3, 3, fun r c => if r = c then 1 else 0⟩
  else
    let q := q_in.div norm
    let w := q.q0
    let x := q.q1
    let y := q.q2
    let z := q.q3
    ⟨3, 3, fun r c =>
      match r, c with
      | 0, 0 => 1 - 2*y*y - 2*z*z
      | 0, 1 => 2*x*y - 2*w*z
      | 0, 2 => 2*x*z + 2*w*y
      | 1, 0 => 2*x*y + 2*w*z
      | 1, 1 => 1 - 2*x*x - 2*z*z
      | 1, 2 => 2*y*z - 2*w*x
      | 2, 0 => 2*x*z - 2*w*y
      | 2, 1 => 2*y*z + 2*w*x
      | 2, 2 => 1 - 2*x*x - 2*y*y
      | _, _ => 0⟩

/-- A 3 x 3 matrix is a rotation matrix: `R * Rᵀ = I` and `det R = 1`. -/
structure MatD.IsRotation {K : Type} [LinearOrderedField K] (R : MatD K) : Prop where
  rows : R.rows = 3
  cols : R.cols = 3
  r00 : R.data 0 0 * R.data 0 0 + R.data 0 1 * R.data 0 1 + R.data 0 2 * R.data 0 2 = 1
  r11 : R.data 1 0 * R.data 1 0 + R.data 1 1 * R.data 1 1 + R.data 1 2 * R.data 1 2 = 1
  r22 : R.data 2 0 * R.data 2 0 + R.data 2 1 * R.data 2 1 + R.data 2 2 * R.data 2 2 = 1
  r01 : R.data 0 0 * R.data 1 0 + R.data 0 1 * R.data 1 1 + R.data 0 2 * R.data 1 2 = 0
  r02 : R.data 0 0 * R.data 2 0 + R.data 0 1 * R.data 2 1 + R.data 0 2 * R.data 2 2 = 0
  r12 : R.data 1 0 * R.data 2 0 + R.data 1 1 * R.data 2 1 + R.data 1 2 * R.data 2 2 = 0
  det : R.data 0 0 * (R.data 1 1 * R.data 2 2 - R.data 1 2 * R.data 2 1)
      - R.data 0 1 * (R.data 1 0 * R.data 2 2 - R.data 1 2 * R.data 2 0)
      + R.data 0 2 * (R.data 1 0 * R.data 2 1 - R.data 1 1 * R.data 2 0) = 1

/-! ## Stereo matcher parameters (`SgbmParams` of `sgbm_processor.h`) -/

/-- The constant `INT_MAX` of a 32-bit `int`. -/
def INT_MAX : Int := 2147483647

/-- The constant `INT_MIN` of a 32-bit `int`. -/
def INT_MIN : Int := -2147483648

/-- The result of an `int` operation whose mathematical value is `i`: `none` when the value is
not representable, where the C++ has signed overflow and no defined behaviour. -/
def int_result (i : Int) : Option Int := if INT_MIN ≤ i ∧ i ≤ INT_MAX then some i else none

/-- The enumerator `cv::StereoSGBM::MODE_HH`. -/
def MODE_HH : Int := 1

/-- The struct `SgbmParams` with its default member initialisers. -/
structure SgbmParams where
  minDisparity : Int := 0
  numDisparities : Int := 256
  blockSize : Int := 1
  P1 : Int := 1
  P2 : Int := 128
  disp12MaxDiff : Int := 1
  preFilterCap : Int := 15
  uniquenessRatio : Int := 5
  speckleWindowSize : Int := 50
  speckleRange : Int := 8
  mode : Int := MODE_HH
deriving DecidableEq

/-- The first statement of `validate`: the value of `numDisparities` after it. -/
def validate_numDisparities (numDisparities : Int) : Option Int :=
  if numDisparities ≤ 0 ∨ Int.tmod numDisparities 16 ≠ 0 then
    match int_result ((Int.tdiv numDisparities 16 + 1) * 16) with
    | none => none
    | some numDisparities => some (if numDisparities ≤ 0 then 16 else numDisparities)
  else some numDisparities

/-- The last two statements of `validate`: the value of `blockSize` after them. -/
def validate_blockSize (blockSize : Int) : Option Int :=
  match (if Int.tmod blockSize 2 = 0 then int_result (blockSize + 1) else some blockSize) with
  | none => none
  | some blockSize => some (if blockSize < 1 then 1 else blockSize)

/-- The member function `SgbmParams::validate`: the parameters after the call. -/
def SgbmParams.validate (p : SgbmParams) : Option SgbmParams :=
  match validate_numDisparities p.numDisparities, validate_blockSize p.blockSize with
  | some numDisparities, some blockSize =>
    some { p with numDisparities := numDisparities, blockSize := blockSize }
  | _, _ => none

/-- The conditions that `validate` establishes: `numDisparities` is positive and divisible by
16, `blockSize` is odd and at least 1. -/
def SgbmParams.valid (p : SgbmParams) : Prop :=
  0 < p.numDisparities ∧ p.numDisparities % 16 = 0 ∧ p.blockSize % 2 = 1 ∧ 1 ≤ p.blockSize

/-! ## Predicates used in the statements -/

/-- All pixels of the matrix have the value `v`. -/
def Mat.isConst (m : Mat) (v : ℚ) : Prop :=
  ∀ r c, r < m.rows → c < m.cols → m.data r c = v

/-- The smoothing filters and the grayscale conversion map an image whose pixels are all equal
to an image whose pixels are all equal, and the Gaussian blur maps the zero image to the zero
image (as linear filters with replicated or reflected borders do). -/
structure ImgOps.KeepsFlat (ops : ImgOps) : Prop where
  cvtColor : ∀ (m : Mat) (v : ℚ), m.isConst v →
    ∃ w, ({ m with channels := 1, data := ops.cvtColor m } : Mat).isConst w
  GaussianBlur : ∀ (m : Mat) (k : Int) (s v : ℚ), m.isConst v →
    ∃ w, (m.withData (ops.GaussianBlur m k s)).isConst w
  GaussianBlur_zero : ∀ (m : Mat) (k : Int) (s : ℚ), m.isConst 0 →
    (m.withData (ops.GaussianBlur m k s)).isConst 0
  blur : ∀ (m : Mat) (k : Int) (v : ℚ), m.isConst v →
    ∃ w, (m.withData (ops.blur m k)).isConst w

/-- Nearest-neighbour queries on the index built over `pts` are exact: a 1-NN query returns a
valid index of a point at minimal distance from the query, together with that (squared)
distance. -/
def ExactNN (gops : GridOps) (pts : List Point2f) : Prop :=
  ∀ q : Point2f, ∃ (i : Int) (p : Point2f),
    (gops.knnSearch pts q 1).head? = some (i, dist_sq q p) ∧ at_index pts i = some p ∧
    ∀ p' ∈ pts, dist_sq q p ≤ dist_sq q p'

/-- The lattice point in row `r`, column `c`: `o + r * v + c * u`. -/
def lattice_point (o u v : Point2f) (r c : Nat) : Point2f :=
  (o.add (Point2f.smul (r : ℚ) v)).add (Point2f.smul (c : ℚ) u)

/-- The determinant `M00 * M11 - M01 * M10` of the structure tensor that
`solve_patch_corner_custom` accumulates over the patch. -/
def structure_tensor_det (patch_dx patch_dy : Mat) : ℚ :=
  let px := patch_dx.positions
  let dx := fun (p : Nat × Nat) => patch_dx.data p.1 p.2
  let dy := fun (p : Nat × Nat) => patch_dy.data p.1 p.2
  let m00 := (px.map (fun p => dy p * dy p)).sum
  let m01 := (px.map (fun p => dy p * dx p)).sum
  let m10 := (px.map (fun p => dx p * dy p)).sum
  let m11 := (px.map (fun p => dx p * dx p)).sum
  m00 * m11 - m01 * m10

/-- The gradient images `sobel_dx` (order `(1, 0)`) and `sobel_dy` (order `(0, 1)`) that
`refine_corners_custom` computes: the derivative with a 3 x 3 kernel, of depth `CV_64F`. -/
def refine_sobel (gops : GridOps) (gray_normalized_float : Mat) (dx dy : Nat) : Mat :=
  { gray_normalized_float with depth := Depth.CV_64F,
                               data := gops.Sobel gray_normalized_float dx dy 3 }

/-- The candidate `r` is a successful refinement of `cand`: the window around the rounded
position passes the bounds test and lies inside the gradient image, the structure tensor of
the patch is not singular, the offset from the window centre is at most `half_win + 1` on both
axes, and `r` is the rounded position (moved by that offset unless `check_only`) with the score
of `cand`. -/
def refined_from (sobel_dx sobel_dy : Mat) (winsize half_win : Int) (check_only : Bool)
    (cand r : CornerCandidate) : Prop :=
  let y := c_round cand.point.y
  let x := c_round cand.point.x
  let patch_dx := sobel_dx.roi (refine_window winsize half_win x y)
  let patch_dy := sobel_dy.roi (refine_window winsize half_win x y)
  let subpixel_offset := solve_patch_corner_custom patch_dx patch_dy
  let offset_x := subpixel_offset.x - half_win
  let offset_y := subpixel_offset.y - half_win
  refine_bounds_ok sobel_dx half_win x y = true ∧
  sobel_dx.roi_inside (refine_window winsize half_win x y) = true ∧
  1/1000000000 ≤ structure_tensor_det patch_dx patch_dy ∧
  c_abs offset_x ≤ half_win + 1 ∧ c_abs offset_y ≤ half_win + 1 ∧
  r.score = cand.score ∧
  r.point = (if check_only then ⟨x, y⟩ else ⟨x + offset_x, y + offset_y⟩)

/-- The defect `top / bot` that the scoring loops compute for a triple
`(p_prev, p_curr, p_next)`. -/
def triple_defect (sqrt : ℚ → ℚ) (t : Point2f × Point2f × Point2f) : ℚ :=
  norm2f sqrt ((t.2.2.add t.1).sub (Point2f.smul 2 t.2.1)) / norm2f sqrt (t.2.2.sub t.1)

/-- The degeneracy test of the scoring loops: `std::abs(bot) < 1e-9`. -/
def triple_degenerate (sqrt : ℚ → ℚ) (t : Point2f × Point2f × Point2f) : Bool :=
  decide (c_abs (norm2f sqrt (t.2.2.sub t.1)) < 1/1000000000)

/-- All interior triples in visiting order: those of the rows, then those of the columns. -/
def score_triples (corners_vec : List Point2f) (board_size : Size) :
    List (Point2f × Point2f × Point2f) :=
  row_triples corners_vec board_size ++ col_triples corners_vec board_size

/-- The local defect as the specification words it: `||(prev + next) - 2 curr|| /
||next - prev||`, taken to be 1.0 when `||next - prev||` is (near) zero. -/
def spec_local_defect (sqrt : ℚ → ℚ) (t : Point2f × Point2f × Point2f) : ℚ :=
  if c_abs (norm2f sqrt (t.2.2.sub t.1)) < 1/1000000000 then 1
  else norm2f sqrt ((t.1.add t.2.2).sub (Point2f.smul 2 t.2.1)) / norm2f sqrt (t.2.2.sub t.1)

/-- The greatest element of a list of values, 0 for the empty list (and never below 0). -/
def max_of (l : List ℚ) : ℚ := l.foldl max 0

/-- The entries `a b c / d e f / g h i` are those of a rotation matrix: the rows are
orthonormal and the determinant is 1. -/
structure Rot {K : Type} [LinearOrderedField K] (a b c d e f g h i : K) : Prop where
  r00 : a*a + b*b + c*c = 1
  r11 : d*d + e*e + f*f = 1
  r22 : g*g + h*h + i*i = 1
  r01 : a*d + b*e + c*f = 0
  r02 : a*g + b*h + c*i = 0
  r12 : d*g + e*h + f*i = 0
  det : a*(e*i - f*h) - b*(d*i - f*g) + c*(d*h - e*g) = 1

/-- The components `(w, x, y, z)` are those of a quaternion of the rotation with entries
`a b c / d e f / g h i`: the ten products of two components have the values that the entries
determine. -/
structure QuatOf {K : Type} [LinearOrderedField K] (a b c d e f g h i w x y z : K) : Prop where
  ww : 4 * w * w = 1 + a + e + i
  xx : 4 * x * x = 1 + a - e - i
  yy : 4 * y * y = 1 - a + e - i
  zz : 4 * z * z = 1 - a - e + i
  wx : 4 * w * x = h - f
  wy : 4 * w * y = c - g
  wz : 4 * w * z = d - b
  xy : 4 * x * y = b + d
  xz : 4 * x * z = c + g
  yz : 4 * y * z = f + h

/-- The arguments that the two conversions pass to `std::sqrt` for a rotation matrix `R`: the
four candidates for the pivot and the squared norm of the quaternion. -/
def sqrt_arguments {K : Type} [LinearOrderedField K] (R : MatD K) : List K :=
  [R.data 0 0 + R.data 1 1 + R.data 2 2 + 1,
   1 + R.data 0 0 - R.data 1 1 - R.data 2 2,
   1 + R.data 1 1 - R.data 0 0 - R.data 2 2,
   1 + R.data 2 2 - R.data 0 0 - R.data 1 1,
   1]

/-- Property of the candidates pushed by the window scan. -/
def scan_candidate_ok (corr_map : Mat) (threshold : ℚ) (cand : CornerCandidate) : Prop :=
  ∃ x y : Nat, x < corr_map.cols ∧ y < corr_map.rows ∧
    cand.point = ⟨(x : ℚ), (y : ℚ)⟩ ∧ cand.score = corr_map.data y x ∧ cand.score > threshold

/-- Invariant of the window scan. -/
def scan_inv (corr_map : Mat) (threshold : ℚ) (st : ScanState) : Prop :=
  (∀ cand ∈ st.candidates, scan_candidate_ok corr_map threshold cand) ∧
  (∀ cand ∈ st.candidates, ∃ x y : Int,
    cand.point = ⟨(x : ℚ), (y : ℚ)⟩ ∧ (y, x) ∈ st.checked_max_coords) ∧
  (∀ yx ∈ st.checked_max_coords, ∃ cand ∈ st.candidates,
    cand.point = ⟨((yx.2 : Int) : ℚ), ((yx.1 : Int) : ℚ)⟩) ∧
  List.Pairwise (fun a b : CornerCandidate => a.point ≠ b.point) st.candidates

/-- Some registered candidate has the score `M`, at a pixel where the map has the value `M`. -/
def scan_has (corr_map : Mat) (M : ℚ) (st : ScanState) : Prop :=
  ∃ cand ∈ st.candidates, cand.score = M ∧
    ∃ x y : Nat, x < corr_map.cols ∧ y < corr_map.rows ∧
      cand.point = ⟨(x : ℚ), (y : ℚ)⟩ ∧ corr_map.data y x = M

/-- The accumulated matrix `mat_sum` (entries `M00 M01 / M10 M11`) and vector `point_sum`
(entries `b0, b1`) of `solve_patch_corner_custom`, in (row, column) order. -/
structure PatchSums where
  m00 : ℚ
  m01 : ℚ
  m10 : ℚ
  m11 : ℚ
  b0 : ℚ
  b1 : ℚ

/-- The sums accumulated by the double loop of `solve_patch_corner_custom`. -/
def patch_sums (patch_dx patch_dy : Mat) : PatchSums :=
  let px := patch_dx.positions
  let dx := fun (p : Nat × Nat) => patch_dx.data p.1 p.2
  let dy := fun (p : Nat × Nat) => patch_dy.data p.1 p.2
  { m00 := (px.map (fun p => dy p * dy p)).sum,
    m01 := (px.map (fun p => dy p * dx p)).sum,
    m10 := (px.map (fun p => dx p * dy p)).sum,
    m11 := (px.map (fun p => dx p * dx p)).sum,
    b0 := (px.map (fun p => dy p * dy p * (p.1 : ℚ) + dy p * dx p * (p.2 : ℚ))).sum,
    b1 := (px.map (fun p => dx p * dy p * (p.1 : ℚ) + dx p * dx p * (p.2 : ℚ))).sum }

/-- The pair `(p_row, p_col)` solves `S * p = b`. -/
def PatchSums.solves (s : PatchSums) (p_row p_col : ℚ) : Prop :=
  s.m00 * p_row + s.m01 * p_col = s.b0 ∧ s.m10 * p_row + s.m11 * p_col = s.b1

/-- The state `best` of the hypothesis search holds the best of the hypotheses `seen`: nothing
when none was seen; otherwise the snapped grid and maximum snap distance of a hypothesis in
`seen` whose distance is minimal among them. -/
def best_of (gops : GridOps) (candidate_points : List Point2f) (target_board_size : Size)
    (seen : List (Point2f × Point2f × Point2f)) (best : GridBest) : Prop :=
  (seen = [] ∧ best = ⟨[], none⟩) ∨
  ∃ h ∈ seen, ∃ d,
    grid_hypothesis gops candidate_points target_board_size h.1 h.2.1 h.2.2
      = some (d, best.best_ixs_points) ∧
    best.d_best = some d ∧
    ∀ h' ∈ seen, ∃ hyp', grid_hypothesis gops candidate_points target_board_size h'.1 h'.2.1 h'.2.2
      = some hyp' ∧ d ≤ hyp'.1

/-- The response map that the specification calls correlation: the computation of
`detect_corners_from_templates_custom` with the four kernels handed to `filter2D` unflipped. -/
def spec_response_unflipped (gray_normalized_float : Mat) (templates : List Mat) : Mat :=
  match templates with
  | [t0, t1, t2, t3] =>
    let c0 := filter2D gray_normalized_float t0
    let c1 := filter2D gray_normalized_float t1
    let c2 := filter2D gray_normalized_float t2
    let c3 := filter2D gray_normalized_float t3
    c0.withData (fun r c => corner_response (c0.data r c) (c1.data r c) (c2.data r c) (c3.data r c))
  | _ => Mat.none

/-- The sector that the point reflection through the kernel centre maps sector `i` onto. -/
def opposite_sector : Nat → Nat
  | 0 => 1
  | 1 => 0
  | 2 => 3
  | 3 => 2
  | n => n

/-! ## Concrete library routines

One choice of the library routines, used to run the definitions on concrete inputs: square
roots rounded down to six decimals, sine and cosine of the `TPROPS` angles to eight decimals,
insertion sort, exhaustive nearest-neighbour search, and filters that leave the image
unchanged. -/

/-- Integer square root by bisection: the invariant is `lo * lo ≤ n < hi * hi`. -/
def isqrt_bisect (n : Nat) : Nat → Nat → Nat → Nat
  | 0, lo, _ => lo
  | fuel + 1, lo, hi =>
    if hi ≤ lo + 1 then lo
    else
      let mid := (lo + hi) / 2
      if mid * mid ≤ n then isqrt_bisect n fuel mid hi else isqrt_bisect n fuel lo mid

/-- Integer square root (rounded down). -/
def isqrt (n : Nat) : Nat := isqrt_bisect n (n + 1) 0 (n + 1)

/-- Square root rounded down to six decimals (zero on negative input). -/
def sqrt6 (q : ℚ) : ℚ := (isqrt (⌊q * 1000000000000⌋).toNat : ℚ) / 1000000

/-- Sine of the angles of `TPROPS`, to eight decimals. -/
def sin8 (a : ℚ) : ℚ :=
  if a = CV_PI / 2 then 1
  else if a = CV_PI / 4 then 70710678 / 100000000
  else if a = -CV_PI / 4 then -(70710678 / 100000000)
  else if a = CV_PI / 8 then 38268343 / 100000000
  else if a = -CV_PI / 8 then -(38268343 / 100000000)
  else if a = 3 * CV_PI / 8 then 92387953 / 100000000
  else if a = -3 * CV_PI / 8 then -(92387953 / 100000000)
  else 0

/-- Cosine of the angles of `TPROPS`, to eight decimals. -/
def cos8 (a : ℚ) : ℚ :=
  if a = CV_PI / 2 then 0
  else if a = CV_PI / 4 ∨ a = -CV_PI / 4 then 70710678 / 100000000
  else if a = CV_PI / 8 ∨ a = -CV_PI / 8 then 92387953 / 100000000
  else if a = 3 * CV_PI / 8 ∨ a = -3 * CV_PI / 8 then 38268343 / 100000000
  else 1

/-- Image routines for concrete runs. -/
def sampleImgOps : ImgOps where
  sqrt := sqrt6
  sin := sin8
  cos := cos8
  sortDesc := insertionSortDesc
  cvtColor := fun m => m.data
  GaussianBlur := fun m _ _ => m.data
  blur := fun m _ => m.data
  convertTo8U := fun m alpha beta r c => alpha * m.data r c + beta
  LaplacianAbs := fun _ _ _ => 0
  connectedComponentsWithStats := fun m => [⟨0, 0, m.cols, m.rows, (m.rows : Int) * m.cols⟩]

/-- Exhaustive nearest-neighbour search: the indices of the points sorted by squared distance
to the query (ties by index), with those squared distances; the first `k` are returned. -/
def exact_knn (pts : List Point2f) (q : Point2f) (k : Nat) : List (Int × ℚ) :=
  ((List.insertionSort (fun a b : ℚ × Nat => a.1 < b.1 ∨ (a.1 = b.1 ∧ a.2 ≤ b.2))
      (pts.enum.map (fun ip => (dist_sq q ip.2, ip.1)))).take k).map
    (fun di => ((di.2 : Int), di.1))

/-- Grid routines for concrete runs: unit gradients that alternate between the two axes from
pixel to pixel, a mask that covers the whole image, exhaustive nearest-neighbour search. -/
def sampleGridOps : GridOps where
  Sobel := fun _ dx _ _ r c =>
    if dx = 1 then (if (r + c) % 2 = 0 then 1 else 0) else (if (r + c) % 2 = 0 then 0 else 1)
  line := fun _ _ _ _ _ _ _ => 255
  knnSearch := exact_knn

/-- Image routines for a concrete successful run: as `sampleImgOps`, but the 7 x 7 Gaussian
blur of the cornerness map is replaced by the smoothed cornerness of a 3 x 3 board of pitch 3:
unit peaks at the pixels `(2 + 3 i, 2 + 3 j)`. -/
def peakImgOps : ImgOps :=
  { sampleImgOps with
    GaussianBlur := fun m k _ r c =>
      if k = 7 then (if r % 3 = 2 ∧ c % 3 = 2 ∧ r < 9 ∧ c < 9 then 1 else 0) else m.data r c }

/-- A blank 11 x 11 single-channel 8-bit image. -/
def blank11 : Mat := Mat.zeros 11 11 Depth.CV_8U

/-- The 3 x 3 grid of pitch 3 starting at `(2, 2)`, in row-major order. -/
def grid9 : List Point2f :=
  [⟨2, 2⟩, ⟨5, 2⟩, ⟨8, 2⟩, ⟨2, 5⟩, ⟨5, 5⟩, ⟨8, 5⟩, ⟨2, 8⟩, ⟨5, 8⟩, ⟨8, 8⟩]

/-- Four candidates on the unit lattice, in row-major order, with decreasing scores. -/
def lattice4 : List CornerCandidate :=
  [⟨⟨0, 0⟩, 4/10⟩, ⟨⟨1, 0⟩, 3/10⟩, ⟨⟨0, 1⟩, 2/10⟩, ⟨⟨1, 1⟩, 1/10⟩]

/-- A blank 3 x 3 single-channel float image. -/
def blank3 : Mat := Mat.zeros 3 3 Depth.CV_32F

/-- A blank 11 x 11 single-channel float image. -/
def flat11 : Mat := Mat.zeros 11 11 Depth.CV_32F

/-- Four points in a row: the first three are bent, the last coincides with the second. -/
def bent4 : List Point2f := [⟨0, 0⟩, ⟨10, 0⟩, ⟨1, 0⟩, ⟨10, 0⟩]

/-- Image routines for a concrete run with trimming: as `peakImgOps`, with component
statistics chosen so that the crop of a 14 x 13 image starts at column 2 and row 3 and leaves
an 11 x 11 image. -/
def cropImgOps : ImgOps :=
  { peakImgOps with
    connectedComponentsWithStats := fun _ => [⟨0, 0, 0, 0, 0⟩, ⟨52, 53, 9, 9, 4000⟩] }

/-- A blank image of 14 rows and 13 columns, single-channel and 8-bit. -/
def blank14 : Mat := Mat.zeros 14 13 Depth.CV_8U

/-- The rotation by 120 degrees about the axis `(1, 1, 1)`: a cyclic permutation matrix. -/
def perm3 : MatD ℚ :=
  ⟨3, 3, fun r c => if (r = 0 ∧ c = 2) ∨ (r = 1 ∧ c = 0) ∨ (r = 2 ∧ c = 1) then 1 else 0⟩

/-- A chessboard with 3 x 2 inner corners that uses the custom detector. -/
def board32 : CalibBoard := ⟨3, 2, CalibPatternType.CHESSBOARD, true, []⟩

/-- Pattern detectors that find nothing. -/
def sampleBoardOps : BoardOps where
  findChessboardCornersSB := fun _ _ => (false, [])
  detectMarkers := fun _ => ([], [])
  interpolateCornersCharuco := fun _ _ _ => ([], [])

/-- Square root of a rational that is exact on quotients of perfect squares (numerator and
denominator are rounded down separately otherwise; zero on negative input). -/
def sqrt_frac (q : ℚ) : ℚ := (isqrt q.num.toNat : ℚ) / (isqrt q.den : ℚ)

/-- Three candidates inside the 11 x 11 image, with decreasing scores. -/
def three_candidates : List CornerCandidate :=
  [⟨⟨5, 5⟩, 1⟩, ⟨⟨2, 9⟩, 1/2⟩, ⟨⟨7, 3⟩, 1/4⟩]

/-- A 5 x 5 cornerness map with the value 1 at row 2, column 3, the value 1/2 at the origin
and 0 elsewhere. -/
def peak_map : Mat :=
  ⟨5, 5, Depth.CV_32F, 1, fun r c => if r = 2 ∧ c = 3 then 1 else if r = 0 ∧ c = 0 then 1/2 else 0⟩

/-- Derivative patches of 3 rows and 4 columns, of depth `CV_64F`, whose gradient
`(dx, dy) = (1 - r, c - 2)` at pixel `(r, c)` is orthogonal to the offset of the pixel from
row 1, column 2. -/
def swirl_dx : Mat := ⟨3, 4, Depth.CV_64F, 1, fun r _ => 1 - (r : ℚ)⟩

/-- The `y` derivative of the swirl patch. -/
def swirl_dy : Mat := ⟨3, 4, Depth.CV_64F, 1, fun _ c => (c : ℚ) - 2⟩

/-- A blank 3 x 3 colour image, as `cv::imread` with `IMREAD_COLOR` returns it: 8-bit, three
channels. -/
def color3 : Mat := ⟨3, 3, Depth.CV_8U, 3, fun _ _ => 0⟩

/-- A chessboard with 3 x 3 inner corners that uses OpenCV's detector. -/
def board33 : CalibBoard := ⟨3, 3, CalibPatternType.CHESSBOARD, false, []⟩

/-- Pattern detectors that find the nine corners of `grid9` in every image. -/
def foundBoardOps : BoardOps where
  findChessboardCornersSB := fun _ _ => (true, grid9)
  detectMarkers := fun _ => ([], [])
  interpolateCornersCharuco := fun _ _ _ => ([], [])

/-- A uniform 3 x 3 single-channel 8-bit image of value 128. -/
def uniform3 : Mat := ⟨3, 3, Depth.CV_8U, 1, fun _ _ => 128⟩

/-! ## Lemmas on suppression -/

theorem nms_mark_length (ci : CornerCandidate) (m : ℚ) (rest : List CornerCandidate)
    (flags : List Bool) (h : flags.length = rest.length) :
    (nms_mark ci m rest flags).length = rest.length := by
  simp [nms_mark, h]

theorem nms_mark_zip (ci : CornerCandidate) (m : ℚ) :
    ∀ (rest : List CornerCandidate) (flags : List Bool) (c : CornerCandidate),
      (c, false) ∈ rest.zip (nms_mark ci m rest flags) →
      (c, false) ∈ rest.zip flags ∧ ¬ dist_sq ci.point c.point < m := by
  intro rest
  induction rest with
  | nil => intro flags c h; simp at h
  | cons a rest ih =>
    intro flags c h
    cases flags with
    | nil => simp [nms_mark] at h
    | cons s flags =>
      simp only [nms_mark, List.zipWith_cons_cons, List.zip_cons_cons, List.mem_cons] at h
      rcases h with h | h
      · simp only [Prod.mk.injEq] at h
        obtain ⟨hc, hs⟩ := h
        subst hc
        have hs' := hs.symm
        simp only [Bool.or_eq_false_iff, decide_eq_false_iff_not] at hs'
        refine ⟨?_, hs'.2⟩
        simp [hs'.1]
      · have := ih flags c h
        exact ⟨List.mem_cons_of_mem _ this.1, this.2⟩

theorem nms_loop_mem_zip (m : ℚ) :
    ∀ (rest : List CornerCandidate) (flags : List Bool), flags.length = rest.length →
      ∀ c ∈ nms_loop m rest flags, (c, false) ∈ rest.zip flags := by
  intro rest
  induction rest with
  | nil => intro flags _ c h; simp [nms_loop] at h
  | cons a rest ih =>
    intro flags hlen c h
    cases flags with
    | nil => simp at hlen
    | cons s flags =>
      have hlen' : flags.length = rest.length := by simpa using hlen
      cases s with
      | true =>
        simp only [nms_loop, List.headD_cons, if_true, List.tail_cons] at h
        exact List.mem_cons_of_mem _ (ih flags hlen' c h)
      | false =>
        simp only [nms_loop, List.headD_cons, Bool.false_eq_true, if_false, List.tail_cons,
          List.mem_cons] at h
        rcases h with h | h
        · subst h; simp
        · have h1 := ih _ (nms_mark_length a m rest flags hlen') c h
          exact List.mem_cons_of_mem _ (nms_mark_zip a m rest flags c h1).1

theorem nms_loop_sublist (m : ℚ) :
    ∀ (rest : List CornerCandidate) (flags : List Bool),
      List.Sublist (nms_loop m rest flags) rest := by
  intro rest
  induction rest with
  | nil => intro flags; simp [nms_loop]
  | cons a rest ih =>
    intro flags
    simp only [nms_loop]
    split
    · exact List.Sublist.cons _ (ih _)
    · exact List.Sublist.cons₂ _ (ih _)

theorem nms_loop_pairwise (m : ℚ) :
    ∀ (rest : List CornerCandidate) (flags : List Bool), flags.length = rest.length →
      List.Pairwise (fun a b => ¬ dist_sq a.point b.point < m) (nms_loop m rest flags) := by
  intro rest
  induction rest with
  | nil => intro flags _; simp [nms_loop]
  | cons a rest ih =>
    intro flags hlen
    cases flags with
    | nil => simp at hlen
    | cons s flags =>
      have hlen' : flags.length = rest.length := by simpa using hlen
      cases s with
      | true =>
        simp only [nms_loop, List.headD_cons, if_true, List.tail_cons]
        exact ih flags hlen'
      | false =>
        simp only [nms_loop, List.headD_cons, Bool.false_eq_true, if_false, List.tail_cons]
        refine List.Pairwise.cons ?_ (ih _ (nms_mark_length a m rest flags hlen'))
        intro c hc
        have h1 := nms_loop_mem_zip m rest _ (nms_mark_length a m rest flags hlen') c hc
        exact (nms_mark_zip a m rest flags c h1).2

theorem dist_sq_comm (a b : Point2f) : dist_sq a b = dist_sq b a := by
  unfold dist_sq; ring

theorem nms_sublist_sort (S : StdSortDesc) (candidates : List CornerCandidate) (m : ℚ) :
    List.Sublist (non_maximum_suppression_custom S candidates m) (S.sort candidates) := by
  unfold non_maximum_suppression_custom
  split
  · exact List.nil_sublist _
  · exact nms_loop_sublist m _ _

theorem nms_sorted (S : StdSortDesc) (candidates : List CornerCandidate) (m : ℚ) :
    List.Sorted (fun a b => b.score ≤ a.score) (non_maximum_suppression_custom S candidates m) :=
  List.Pairwise.sublist (nms_sublist_sort S candidates m) (S.sorted candidates)

theorem nms_pairwise (S : StdSortDesc) (candidates : List CornerCandidate) (m : ℚ) :
    List.Pairwise (fun a b => ¬ dist_sq a.point b.point < m)
      (non_maximum_suppression_custom S candidates m) := by
  unfold non_maximum_suppression_custom
  split
  · exact List.Pairwise.nil
  · apply nms_loop_pairwise
    rw [List.length_replicate]
    exact ((S.perm candidates).length_eq).symm

/-! ## Lemmas on refinement -/

theorem refine_one_score (sobel_dx sobel_dy : Mat) (winsize half_win : Int) (check_only : Bool)
    (cand r : CornerCandidate)
    (h : refine_one sobel_dx sobel_dy winsize half_win check_only cand = some (some r)) :
    r.score = cand.score := by
  unfold refine_one at h
  simp only at h
  split_ifs at h <;> simp at h <;> rw [← h]

theorem refine_one_join_score (sobel_dx sobel_dy : Mat) (winsize half_win : Int)
    (check_only : Bool) (cand r : CornerCandidate)
    (h : (refine_one sobel_dx sobel_dy winsize half_win check_only cand).join = some r) :
    r.score = cand.score := by
  refine refine_one_score sobel_dx sobel_dy winsize half_win check_only cand r ?_
  cases hb : refine_one sobel_dx sobel_dy winsize half_win check_only cand with
  | none => rw [hb] at h; simp at h
  | some o => rw [hb] at h; simp only [Option.join, Option.some_bind, id] at h; rw [h]

/-- A loop that finishes pushes, in order, what its body pushes. -/
theorem refine_loop_some (body : CornerCandidate → Option (Option CornerCandidate)) :
    ∀ (l out : List CornerCandidate), refine_loop body l = some out →
      out = l.filterMap (fun c => (body c).join) := by
  intro l
  induction l with
  | nil => intro out h; simp only [refine_loop, Option.some.injEq] at h; rw [← h]; rfl
  | cons a l ih =>
    intro out h
    simp only [refine_loop] at h
    cases hb : body a with
    | none => rw [hb] at h; simp at h
    | some pushed =>
      rw [hb] at h
      cases hl : refine_loop body l with
      | none => rw [hl] at h; simp at h
      | some rest =>
        rw [hl] at h
        simp only [Option.some.injEq] at h
        rw [← h, ih rest hl]
        cases pushed with
        | none => simp [hb]
        | some b => simp [hb]

/-- A loop whose body never throws finishes. -/
theorem refine_loop_total (body : CornerCandidate → Option (Option CornerCandidate)) :
    ∀ (l : List CornerCandidate), (∀ c ∈ l, body c ≠ none) →
      refine_loop body l = some (l.filterMap (fun c => (body c).join)) := by
  intro l
  induction l with
  | nil => intro _; rfl
  | cons a l ih =>
    intro h
    have ha := h a (List.mem_cons_self _ _)
    have hl := ih (fun c hc => h c (List.mem_cons_of_mem _ hc))
    simp only [refine_loop, hl]
    cases hb : body a with
    | none => exact absurd hb ha
    | some pushed =>
      cases pushed with
      | none => simp [hb]
      | some b => simp [hb]

theorem filterMap_kept {α β : Type} (f : α → Option β) (R : β → α → Prop)
    (hf : ∀ a b, f a = some b → R b a) :
    ∀ l : List α, ∃ kept, List.Sublist kept l ∧ List.Forall₂ R (l.filterMap f) kept := by
  intro l
  induction l with
  | nil => exact ⟨[], List.Sublist.slnil, by simp⟩
  | cons a l ih =>
    obtain ⟨kept, hsub, hall⟩ := ih
    cases hfa : f a with
    | none =>
      refine ⟨kept, List.Sublist.cons _ hsub, ?_⟩
      rw [List.filterMap_cons_none hfa]
      exact hall
    | some b =>
      refine ⟨a :: kept, List.Sublist.cons₂ _ hsub, ?_⟩
      rw [List.filterMap_cons_some hfa]
      exact List.Forall₂.cons (hf a b hfa) hall

theorem forall2_refl_score (l : List CornerCandidate) :
    List.Forall₂ (fun r k : CornerCandidate => r.score = k.score) l l := by
  induction l with
  | nil => exact List.Forall₂.nil
  | cons a l ih => exact List.Forall₂.cons rfl ih

theorem refine_kept (gops : GridOps) (candidates : List CornerCandidate) (gray : Mat)
    (winsize : Int) (check_only : Bool) (out : List CornerCandidate)
    (h : refine_corners_custom gops candidates gray winsize check_only = some out) :
    ∃ kept, List.Sublist kept candidates ∧
      List.Forall₂ (fun r k : CornerCandidate => r.score = k.score) out kept := by
  unfold refine_corners_custom at h
  split at h
  · simp only [Option.some.injEq] at h
    rw [← h]
    exact ⟨candidates, List.Sublist.refl _, forall2_refl_score _⟩
  · simp only at h
    split at h
    · simp only [Option.some.injEq] at h
      rw [← h]
      exact ⟨candidates, List.Sublist.refl _, forall2_refl_score _⟩
    · rw [refine_loop_some _ _ _ h]
      exact filterMap_kept _ _ (fun a b hab => refine_one_join_score _ _ _ _ _ a b hab) candidates

theorem sorted_of_forall2_score :
    ∀ (l k : List CornerCandidate),
      List.Forall₂ (fun r k : CornerCandidate => r.score = k.score) l k →
      List.Sorted (fun a b : CornerCandidate => b.score ≤ a.score) k →
      List.Sorted (fun a b : CornerCandidate => b.score ≤ a.score) l := by
  intro l k h hk
  have hmap : l.map (fun c => c.score) = k.map (fun c => c.score) := by
    induction h with
    | nil => rfl
    | cons hab _ ih => simp [hab, ih (List.Pairwise.of_cons hk)]
  have hk' : List.Pairwise (fun a b : ℚ => b ≤ a) (k.map (fun c => c.score)) :=
    List.pairwise_map.mpr hk
  rw [← hmap] at hk'
  exact List.pairwise_map.mp hk'

theorem refine_sorted (gops : GridOps) (candidates : List CornerCandidate) (gray : Mat)
    (winsize : Int) (check_only : Bool) (out : List CornerCandidate)
    (hout : refine_corners_custom gops candidates gray winsize check_only = some out)
    (h : List.Sorted (fun a b : CornerCandidate => b.score ≤ a.score) candidates) :
    List.Sorted (fun a b : CornerCandidate => b.score ≤ a.score) out := by
  obtain ⟨kept, hsub, hall⟩ := refine_kept gops candidates gray winsize check_only out hout
  exact sorted_of_forall2_score _ _ hall (List.Pairwise.sublist hsub h)

/-! ## Claims on suppression and ordering -/

/-- C7: the output of `non_maximum_suppression_custom` is sorted by non-increasing score;
a list returned by `refine_corners_custom` holds, in order, refinements of a sub-sequence
`kept` of its input with unchanged scores; hence every list handed to grid reconstruction by
the detector (a prefix of the refined suppression output) is sorted by non-increasing score. -/
theorem nms_refine_order (ops : ImgOps) (gops : GridOps) (candidates : List CornerCandidate)
    (min_dist_sq : ℚ) (gray : Mat) (winsize : Int) (check_only : Bool)
    (num_candidates expected extra : Nat) :
    List.Sorted (fun a b : CornerCandidate => b.score ≤ a.score)
        (non_maximum_suppression_custom ops.sortDesc candidates min_dist_sq) ∧
    (∀ out, refine_corners_custom gops candidates gray winsize check_only = some out →
      ∃ kept, List.Sublist kept candidates ∧
        List.Forall₂ (fun r k : CornerCandidate => r.score = k.score) out kept) ∧
    (∀ refined,
      refine_corners_custom gops (detect_nms ops candidates winsize) gray (winsize + 2) false
        = some refined →
      List.Sorted (fun a b : CornerCandidate => b.score ≤ a.score)
        (candidates_for_reorder refined num_candidates expected extra)) := by
  refine ⟨nms_sorted _ _ _, fun out h => refine_kept _ _ _ _ _ out h, fun refined h => ?_⟩
  unfold candidates_for_reorder
  exact List.Pairwise.sublist (List.take_sublist _ _)
    (refine_sorted _ _ _ _ _ refined h (nms_sorted _ _ _))

/-- C8: any two entries at distinct positions of the output of
`non_maximum_suppression_custom` are at squared Euclidean distance at least `min_dist_sq`. -/
theorem nms_min_spacing (S : StdSortDesc) (candidates : List CornerCandidate) (min_dist_sq : ℚ)
    (i j : Nat) (a b : CornerCandidate)
    (ha : (non_maximum_suppression_custom S candidates min_dist_sq)[i]? = some a)
    (hb : (non_maximum_suppression_custom S candidates min_dist_sq)[j]? = some b)
    (hij : i ≠ j) :
    min_dist_sq ≤ dist_sq a.point b.point := by
  have hp := nms_pairwise S candidates min_dist_sq
  rw [List.pairwise_iff_getElem] at hp
  obtain ⟨hi, hai⟩ := List.getElem?_eq_some_iff.mp ha
  obtain ⟨hj, hbj⟩ := List.getElem?_eq_some_iff.mp hb
  rcases Nat.lt_or_gt_of_ne hij with h | h
  · have := hp i j hi hj h
    rw [hai, hbj] at this
    exact not_lt.mp this
  · have := hp j i hj hi h
    rw [hai, hbj, dist_sq_comm] at this
    exact not_lt.mp this

/-! ## Lemmas on the size of the reconstructed grid -/

theorem points_at_length (pts : List Point2f) :
    ∀ (idxs : List Int) (ps : List Point2f), points_at pts idxs = some ps →
      ps.length = idxs.length := by
  intro idxs
  induction idxs with
  | nil => intro ps h; simp [points_at] at h; simp [← h]
  | cons i rest ih =>
    intro ps h
    unfold points_at at h
    split at h
    · rename_i p ps1 _ h2
      simp only [Option.some.injEq] at h
      rw [← h, List.length_cons, List.length_cons, ih ps1 h2]
    · simp at h

theorem grid_queries_length (board : Size) (s a b : Point2f) :
    (grid_queries board s a b).length = board.height.toNat * board.width.toNat := by
  unfold grid_queries
  rw [List.length_flatMap]
  simp [Function.comp_def]

theorem grid_hypothesis_length (gops : GridOps) (pts : List Point2f) (board : Size)
    (s a b : Point2f) (hyp : ℚ × List Point2f)
    (h : grid_hypothesis gops pts board s a b = some hyp) :
    hyp.2.length = board.height.toNat * board.width.toNat := by
  unfold grid_hypothesis at h
  simp only at h
  split at h
  · split at h
    · split_ifs at h
      split at h
      · simp at h
      · rename_i ps hps
        simp only [Option.some.injEq] at h
        rw [← h]
        simp only
        rw [points_at_length _ _ _ hps]
        simp [grid_queries_length]
    · simp at h
  · simp at h

theorem grid_update_length (best : GridBest) (hyp : ℚ × List Point2f) (n : Nat)
    (hb : best.best_ixs_points = [] ∨ best.best_ixs_points.length = n)
    (hh : hyp.2.length = n) :
    (grid_update best hyp).best_ixs_points = [] ∨
      (grid_update best hyp).best_ixs_points.length = n := by
  unfold grid_update
  split
  · exact Or.inr hh
  · split
    · exact Or.inr hh
    · exact hb

theorem grid_search_length (gops : GridOps) (pts : List Point2f) (board : Size) :
    ∀ (hyps : List (Point2f × Point2f × Point2f)) (best res : GridBest),
      (best.best_ixs_points = [] ∨
        best.best_ixs_points.length = board.height.toNat * board.width.toNat) →
      grid_search gops pts board hyps best = some res →
      (res.best_ixs_points = [] ∨
        res.best_ixs_points.length = board.height.toNat * board.width.toNat) := by
  intro hyps
  induction hyps with
  | nil =>
    intro best res hb h
    simp only [grid_search, Option.some.injEq] at h
    rw [← h]; exact hb
  | cons hd rest ih =>
    intro best res hb h
    unfold grid_search at h
    split at h
    · simp at h
    · rename_i hyp hhyp
      exact ih _ _ (grid_update_length best hyp _ hb
        (grid_hypothesis_length gops pts board _ _ _ hyp hhyp)) h

theorem reorder_length (sqrt : ℚ → ℚ) (gops : GridOps) (cands : List CornerCandidate)
    (gray : Mat) (board : Size) (r : ReorderResult)
    (h : reorder_checkerboard_custom sqrt gops cands gray board = some r) :
    r.ordered_corners = [] ∨
      r.ordered_corners.length = board.height.toNat * board.width.toNat := by
  unfold reorder_checkerboard_custom at h
  split at h
  · simp only [Option.some.injEq] at h; rw [← h]; exact Or.inl rfl
  · simp only at h
    split at h
    · simp only [Option.some.injEq] at h; rw [← h]; exact Or.inl rfl
    · split at h
      · simp at h
      · simp only [Option.some.injEq] at h; rw [← h]; exact Or.inl rfl
      · split at h
        · simp at h
        · rename_i best hbest
          have hb := grid_search_length gops _ board _ _ best (Or.inl rfl) hbest
          split at h
          · simp only [Option.some.injEq] at h; rw [← h]; exact hb
          · simp only [Option.some.injEq] at h; rw [← h]; exact Or.inl rfl

theorem detect_reorder_length (ops : ImgOps) (gops : GridOps) (cands : List CornerCandidate)
    (gray : Mat) (board : Size) (winsize : Int) (r : ReorderResult)
    (h : detect_reorder ops gops cands gray board winsize = some r) :
    r.ordered_corners = [] ∨
      r.ordered_corners.length = board.height.toNat * board.width.toNat := by
  unfold detect_reorder at h
  simp only at h
  split at h
  · simp at h
  · split at h
    · simp at h
    · rename_i first hfirst
      split_ifs at h
      · exact reorder_length _ _ _ _ _ _ h
      · simp only [Option.some.injEq] at h
        rw [← h]
        exact reorder_length _ _ _ _ _ _ hfirst

theorem toNat_mul_toNat (w h : Int) (hn : h.toNat * w.toNat ≠ 0) :
    ((h.toNat * w.toNat : Nat) : Int) = w * h ∧ 0 < w ∧ 0 < h := by
  have hh : 0 < h := by
    by_contra hc
    have : h.toNat = 0 := Int.toNat_eq_zero.mpr (not_lt.mp hc)
    simp [this] at hn
  have hw : 0 < w := by
    by_contra hc
    have : w.toNat = 0 := Int.toNat_eq_zero.mpr (not_lt.mp hc)
    simp [this] at hn
  refine ⟨?_, hw, hh⟩
  rw [Nat.cast_mul, Int.toNat_of_nonneg hh.le, Int.toNat_of_nonneg hw.le, mul_comm]

theorem detect_finish_corners (sqrt : ℚ → ℚ) (grid : List Point2f) (board : Size) (off : Point) :
    (detect_finish sqrt [] grid board off).corners = [] ∨
      (detect_finish sqrt [] grid board off).corners.length = grid.length := by
  unfold detect_finish
  simp only
  split
  · exact Or.inl rfl
  · exact Or.inr (by simp)

/-- The returned corners are empty, or the board has positive dimensions and there are exactly
`width * height` of them. -/
theorem detect_corners_shape (ops : ImgOps) (gops : GridOps) (fuel : Nat) (gray_image : Mat)
    (board_size : Size) (winsize : Int) (trim : Bool) (prev : List Point2f) (res : DetectionResult)
    (h : detect_checkerboard_custom ops gops fuel gray_image board_size prev winsize trim = some res) :
    res.corners = [] ∨
      ((res.corners.length : Int) = board_size.width * board_size.height ∧
        0 < board_size.width ∧ 0 < board_size.height) := by
  unfold detect_checkerboard_custom at h
  simp only [vector_clear] at h
  split at h
  · simp only [Option.some.injEq] at h; rw [← h]; exact Or.inl rfl
  · split at h
    · simp only [Option.some.injEq] at h; rw [← h]; exact Or.inl rfl
    · split at h
      · simp at h
      · split at h
        · simp only [Option.some.injEq] at h; rw [← h]; exact Or.inl rfl
        · split at h
          · simp only [Option.some.injEq] at h; rw [← h]; exact Or.inl rfl
          · split at h
            · simp at h
            · rename_i r hr
              split at h
              · simp only [Option.some.injEq] at h; rw [← h]; exact Or.inl rfl
              · simp only [Option.some.injEq] at h
                rw [← h]
                rcases detect_finish_corners ops.sqrt r.ordered_corners board_size
                  (detect_current_gray ops gray_image trim).2 with hc | hc
                · exact Or.inl hc
                · rcases detect_reorder_length _ _ _ _ _ _ _ hr with hl | hl
                  · left
                    rw [congrArg List.length hl] at hc
                    exact List.length_eq_zero.mp hc
                  · by_cases hz : board_size.height.toNat * board_size.width.toNat = 0
                    · left
                      rw [hl, hz] at hc
                      exact List.length_eq_zero.mp hc
                    · right
                      rw [hc, hl]
                      exact toNat_mul_toNat _ _ hz

/-! ## Claims on the detector outcome -/

/-- C1: whenever `detect_checkerboard_custom` returns, the output corner list is empty or
contains exactly `board_size.width * board_size.height` points, and the same result is
returned for any other previous content of the output vector (it is discarded). -/
theorem detect_corners_empty_or_full (ops : ImgOps) (gops : GridOps) (fuel : Nat)
    (gray_image : Mat) (board_size : Size) (winsize : Int) (trim : Bool) (prev : List Point2f)
    (res : DetectionResult)
    (h : detect_checkerboard_custom ops gops fuel gray_image board_size prev winsize trim
      = some res) :
    (res.corners = [] ∨ (res.corners.length : Int) = board_size.width * board_size.height) ∧
    ∀ other : List Point2f,
      detect_checkerboard_custom ops gops fuel gray_image board_size other winsize trim
        = some res := by
  refine ⟨?_, fun other => ?_⟩
  · rcases detect_corners_shape ops gops fuel gray_image board_size winsize trim prev res h
      with hc | hc
    · exact Or.inl hc
    · exact Or.inr hc.1
  · rw [← h]
    rfl

theorem to_size_t_of_lt (i : Int) (h0 : 0 ≤ i) (h1 : i < 2 ^ 64) : to_size_t i = i.toNat := by
  unfold to_size_t
  rw [Int.emod_eq_of_lt h0 h1]

theorem lt_to_size_t (n : Nat) (i : Int) (h : (n : Int) < i) (h1 : i < 2 ^ 64) :
    n < to_size_t i := by
  have h0 : 0 ≤ i := le_trans (Int.ofNat_nonneg n) h.le
  rw [to_size_t_of_lt i h0 h1]
  omega

/-- Every outcome of the detector is the reject outcome `(1.0, empty)` or the outcome of the
scoring step on a grid that reconstruction returned. -/
theorem detect_cases (ops : ImgOps) (gops : GridOps) (fuel : Nat) (gray_image : Mat)
    (board_size : Size) (winsize : Int) (trim : Bool) (prev : List Point2f) (res : DetectionResult)
    (h : detect_checkerboard_custom ops gops fuel gray_image board_size prev winsize trim = some res) :
    res = ⟨1, []⟩ ∨
    ∃ cands r,
      detect_candidates ops fuel
        (normalize_image_custom ops (detect_current_gray ops gray_image trim).1) winsize
          = some cands ∧
      detect_reorder ops gops (detect_nms ops cands winsize)
        (normalize_image_custom ops (detect_current_gray ops gray_image trim).1)
        board_size winsize = some r ∧
      r.ok = true ∧
      res = detect_finish ops.sqrt [] r.ordered_corners board_size
        (detect_current_gray ops gray_image trim).2 := by
  unfold detect_checkerboard_custom at h
  simp only [vector_clear] at h
  split at h
  · simp only [Option.some.injEq] at h; exact Or.inl h.symm
  · split at h
    · simp only [Option.some.injEq] at h; exact Or.inl h.symm
    · split at h
      · simp at h
      · rename_i cands hcands
        split at h
        · simp only [Option.some.injEq] at h; exact Or.inl h.symm
        · split at h
          · simp only [Option.some.injEq] at h; exact Or.inl h.symm
          · split at h
            · simp at h
            · rename_i r hr
              split at h
              · simp only [Option.some.injEq] at h; exact Or.inl h.symm
              · rename_i hok
                simp only [Option.some.injEq] at h
                refine Or.inr ⟨cands, r, hcands, hr, ?_, h.symm⟩
                simp only [Bool.or_eq_true, Bool.not_eq_true', decide_eq_true_eq, not_or,
                  Bool.not_eq_false] at hok
                exact hok.1

/-- C2: if the returned score exceeds 0.3 then the returned corner list is empty, and the
score is exactly 1.0 (early-failure paths) or the quality score computed by
`checkerboard_score_custom` on the reconstructed grid; non-empty corners only ever come with
a score that does not exceed 0.3. -/
theorem detect_score_above_threshold (ops : ImgOps) (gops : GridOps) (fuel : Nat)
    (gray_image : Mat) (board_size : Size) (winsize : Int) (trim : Bool) (prev : List Point2f) (res : DetectionResult)
    (h : detect_checkerboard_custom ops gops fuel gray_image board_size prev winsize trim = some res) :
    (res.score > 3/10 →
      res.corners = [] ∧
      (res.score = 1 ∨
        ∃ cands r,
          detect_candidates ops fuel
            (normalize_image_custom ops (detect_current_gray ops gray_image trim).1) winsize
              = some cands ∧
          detect_reorder ops gops (detect_nms ops cands winsize)
            (normalize_image_custom ops (detect_current_gray ops gray_image trim).1)
            board_size winsize = some r ∧
          r.ok = true ∧
          res.score = checkerboard_score_custom ops.sqrt r.ordered_corners board_size)) ∧
    (res.corners ≠ [] → res.score ≤ 3/10) := by
  rcases detect_cases ops gops fuel gray_image board_size winsize trim prev res h with hr | hr
  · subst hr
    exact ⟨fun _ => ⟨rfl, Or.inl rfl⟩, fun hne => absurd rfl hne⟩
  · obtain ⟨cands, r, hc, hre, hok, hres⟩ := hr
    subst hres
    unfold detect_finish
    simp only
    split
    · rename_i hgt
      exact ⟨fun _ => ⟨rfl, Or.inr ⟨cands, r, hc, hre, hok, rfl⟩⟩, fun hne => absurd rfl hne⟩
    · rename_i hgt
      exact ⟨fun hh => absurd hh hgt, fun _ => not_lt.mp hgt⟩

/-- C3: if the number of candidates after extraction, or after non-maximum suppression, is
smaller than `rows * cols`, the detector returns exactly score 1.0 with empty corners, for
every behaviour `gops` of the routines used by refinement and grid reconstruction: those
stages and scoring do not contribute to the result. -/
theorem detect_insufficient_candidates (ops : ImgOps) (gops : GridOps) (fuel : Nat)
    (gray_image : Mat) (board_size : Size) (winsize : Int) (trim : Bool) (prev : List Point2f)
    (cands : List CornerCandidate)
    (hprod : board_size.width * board_size.height < 2 ^ 31)
    (hc : detect_candidates ops fuel
      (normalize_image_custom ops (detect_current_gray ops gray_image trim).1) winsize
        = some cands)
    (hfew : (cands.length : Int) < board_size.width * board_size.height ∨
      ((detect_nms ops cands winsize).length : Int) < board_size.width * board_size.height) :
    detect_checkerboard_custom ops gops fuel gray_image board_size prev winsize trim
      = some ⟨1, []⟩ := by
  have hp : board_size.width * board_size.height < 2 ^ 64 := lt_trans hprod (by norm_num)
  unfold detect_checkerboard_custom
  simp only [vector_clear]
  split
  · rfl
  · split
    · rfl
    · rw [hc]
      simp only
      split
      · rfl
      · rename_i h1
        split
        · rfl
        · rename_i h2
          exfalso
          rcases hfew with hf | hf
          · exact h1 (lt_to_size_t _ _ hf hp)
          · exact h2 (lt_to_size_t _ _ hf hp)

theorem Mat.mem_positions (m : Mat) (p : Nat × Nat) :
    p ∈ m.positions ↔ p.1 < m.rows ∧ p.2 < m.cols := by
  unfold Mat.positions
  simp only [List.mem_flatMap, List.mem_range, List.mem_map]
  constructor
  · rintro ⟨r, hr, c, hc, rfl⟩
    exact ⟨hr, hc⟩
  · rintro ⟨hr, hc⟩
    exact ⟨p.1, hr, p.2, hc, rfl⟩

theorem Mat.sum_eq_zero (m : Mat) (h : ∀ r c, r < m.rows → c < m.cols → m.data r c = 0) :
    m.sum = 0 := by
  unfold Mat.sum
  apply List.sum_eq_zero
  intro x hx
  obtain ⟨p, hp, rfl⟩ := List.mem_map.mp hx
  exact h p.1 p.2 ((m.mem_positions p).mp hp).1 ((m.mem_positions p).mp hp).2

theorem Mat.le_sum (m : Mat) (h : ∀ r c, 0 ≤ m.data r c) (r c : Nat) (hr : r < m.rows)
    (hc : c < m.cols) : m.data r c ≤ m.sum := by
  unfold Mat.sum
  apply List.single_le_sum
  · intro x hx
    obtain ⟨p, _, rfl⟩ := List.mem_map.mp hx
    exact h p.1 p.2
  · exact List.mem_map.mpr ⟨(r, c), (m.mem_positions (r, c)).mpr ⟨hr, hc⟩, rfl⟩

theorem Mat.sum_nonneg (m : Mat) (h : ∀ r c, 0 ≤ m.data r c) : 0 ≤ m.sum := by
  unfold Mat.sum
  apply List.sum_nonneg
  intro x hx
  obtain ⟨p, _, rfl⟩ := List.mem_map.mp hx
  exact h p.1 p.2

theorem Mat.sum_map_div (m : Mat) (s : ℚ) : (m.map (fun v => v / s)).sum = m.sum / s := by
  unfold Mat.sum Mat.map Mat.withData Mat.positions
  simp only [div_eq_mul_inv]
  rw [← List.sum_map_mul_right]

/-! ## Claims on the correlation templates -/

theorem patch_indicator_nonneg (ops : ImgOps) (a1 a2 : ℚ) (radius : Int) (i v u : Nat) :
    0 ≤ (patch_indicator ops a1 a2 radius i).data v u := by
  unfold patch_indicator
  simp only
  split <;> norm_num

theorem patch_normalize_rows (t : Mat) : (patch_normalize t).rows = t.rows := by
  unfold patch_normalize
  simp only
  split <;> rfl

theorem patch_normalize_cols (t : Mat) : (patch_normalize t).cols = t.cols := by
  unfold patch_normalize
  simp only
  split <;> rfl

theorem patch_normalize_nonneg (t : Mat) (h : ∀ r c, 0 ≤ t.data r c) (r c : Nat) :
    0 ≤ (patch_normalize t).data r c := by
  unfold patch_normalize
  simp only
  split
  · exact div_nonneg (h r c) (t.sum_nonneg h)
  · exact h r c

theorem patch_normalize_sum (t : Mat) (h : ∀ r c, 0 ≤ t.data r c) (r c : Nat) (hr : r < t.rows)
    (hc : c < t.cols) (h1 : t.data r c = 1) : (patch_normalize t).sum = 1 := by
  have hs : 1 ≤ t.sum := h1 ▸ t.le_sum h r c hr hc
  unfold patch_normalize
  simp only
  rw [if_pos (by linarith)]
  rw [Mat.sum_map_div]
  exact div_self (by linarith)

theorem patch_normalize_zero (t : Mat) (h : ∀ r c, t.data r c = 0) (r c : Nat) :
    (patch_normalize t).data r c = 0 := by
  have hs : t.sum = 0 := t.sum_eq_zero (fun r c _ _ => h r c)
  unfold patch_normalize
  simp only
  rw [hs, if_neg (by norm_num)]
  exact h r c

/-- C9: for every angle pair and every radius `≥ 0`, `create_correlation_patch_custom` returns
exactly four kernels of size `(2*radius+1) x (2*radius+1)` with non-negative entries; kernel
`i` sums to 1 when some pixel of the window falls in sector `i`, and is all zero otherwise. -/
theorem create_correlation_patch_kernels (ops : ImgOps) (angle1_rad angle2_rad : ℚ)
    (radius : Int) (hr : 0 ≤ radius) :
    (create_correlation_patch_custom ops angle1_rad angle2_rad radius).length = 4 ∧
    ∀ i, i < 4 → ∃ t,
      (create_correlation_patch_custom ops angle1_rad angle2_rad radius)[i]? = some t ∧
      (t.rows : Int) = 2 * radius + 1 ∧ (t.cols : Int) = 2 * radius + 1 ∧
      (∀ v u, 0 ≤ t.data v u) ∧
      ((∃ v u, v < t.rows ∧ u < t.cols ∧
          patch_sector ops angle1_rad angle2_rad radius u v = some i) → t.sum = 1) ∧
      ((¬ ∃ v u, v < t.rows ∧ u < t.cols ∧
          patch_sector ops angle1_rad angle2_rad radius u v = some i) →
        ∀ v u, t.data v u = 0) := by
  refine ⟨by simp [create_correlation_patch_custom], ?_⟩
  intro i hi
  refine ⟨patch_normalize (patch_indicator ops angle1_rad angle2_rad radius i), ?_, ?_, ?_, ?_, ?_, ?_⟩
  · unfold create_correlation_patch_custom
    rw [List.getElem?_map, List.getElem?_range hi]
    rfl
  · rw [patch_normalize_rows]
    show (((radius * 2 + 1).toNat : Nat) : Int) = 2 * radius + 1
    rw [Int.toNat_of_nonneg (by omega)]
    ring
  · rw [patch_normalize_cols]
    show (((radius * 2 + 1).toNat : Nat) : Int) = 2 * radius + 1
    rw [Int.toNat_of_nonneg (by omega)]
    ring
  · exact patch_normalize_nonneg _ (patch_indicator_nonneg ops angle1_rad angle2_rad radius i)
  · rintro ⟨v, u, hv, hu, hs⟩
    rw [patch_normalize_rows] at hv
    rw [patch_normalize_cols] at hu
    refine patch_normalize_sum _ (patch_indicator_nonneg ops angle1_rad angle2_rad radius i)
      v u hv hu ?_
    have hv' : v < (radius * 2 + 1).toNat := hv
    have hu' : u < (radius * 2 + 1).toNat := hu
    show (if v < (radius * 2 + 1).toNat ∧ u < (radius * 2 + 1).toNat ∧
        patch_sector ops angle1_rad angle2_rad radius u v = some i then (1 : ℚ) else 0) = 1
    rw [if_pos ⟨hv', hu', hs⟩]
  · intro hne
    apply patch_normalize_zero
    intro v u
    show (if v < (radius * 2 + 1).toNat ∧ u < (radius * 2 + 1).toNat ∧
        patch_sector ops angle1_rad angle2_rad radius u v = some i then (1 : ℚ) else 0) = 0
    rw [if_neg]
    rintro ⟨hv, hu, hs⟩
    apply hne
    refine ⟨v, u, ?_, ?_, hs⟩
    · rw [patch_normalize_rows]; exact hv
    · rw [patch_normalize_cols]; exact hu

/-! ## Claims on the response map -/

theorem create_correlation_patch_eq (ops : ImgOps) (a1 a2 : ℚ) (radius : Int) :
    create_correlation_patch_custom ops a1 a2 radius =
      [patch_normalize (patch_indicator ops a1 a2 radius 0),
       patch_normalize (patch_indicator ops a1 a2 radius 1),
       patch_normalize (patch_indicator ops a1 a2 radius 2),
       patch_normalize (patch_indicator ops a1 a2 radius 3)] := rfl

theorem detect_corners_from_templates_header (ops : ImgOps) (gray : Mat) (a1 a2 : ℚ)
    (radius : Int) :
    (detect_corners_from_templates_custom gray
      (create_correlation_patch_custom ops a1 a2 radius)).rows = gray.rows ∧
    (detect_corners_from_templates_custom gray
      (create_correlation_patch_custom ops a1 a2 radius)).cols = gray.cols := by
  rw [create_correlation_patch_eq]
  exact ⟨rfl, rfl⟩

theorem response_step_data (ops : ImgOps) (gray out : Mat) (cfg : (ℚ × ℚ) × Int)
    (hg : gray.empty = false) (r c : Nat) :
    (response_step ops gray out cfg).data r c =
      max (config_response ops gray cfg r c) (out.data r c) := by
  have hh := detect_corners_from_templates_header ops gray cfg.1.1 cfg.1.2 cfg.2
  have he : (detect_corners_from_templates_custom gray
      (create_correlation_patch_custom ops cfg.1.1 cfg.1.2 cfg.2)).empty = false := by
    unfold Mat.empty at hg ⊢
    rw [hh.1, hh.2]
    exact hg
  unfold response_step
  simp only [he, Bool.not_false, if_true]
  rfl

theorem response_fold_data (ops : ImgOps) (gray : Mat) (hg : gray.empty = false) (r c : Nat) :
    ∀ (cfgs : List ((ℚ × ℚ) × Int)) (out : Mat),
      (cfgs.foldl (response_step ops gray) out).data r c =
        cfgs.foldl (fun acc cfg => max (config_response ops gray cfg r c) acc) (out.data r c) := by
  intro cfgs
  induction cfgs with
  | nil => intro out; rfl
  | cons cfg rest ih =>
    intro out
    simp only [List.foldl_cons]
    rw [ih, response_step_data ops gray out cfg hg]

theorem fold_max_spec {α : Type} (f : α → ℚ) :
    ∀ (l : List α) (v0 : ℚ),
      v0 ≤ l.foldl (fun acc a => max (f a) acc) v0 ∧
      (∀ a ∈ l, f a ≤ l.foldl (fun acc a => max (f a) acc) v0) ∧
      (l.foldl (fun acc a => max (f a) acc) v0 = v0 ∨
        ∃ a ∈ l, l.foldl (fun acc a => max (f a) acc) v0 = f a) := by
  intro l
  induction l with
  | nil => intro v0; simp
  | cons a rest ih =>
    intro v0
    simp only [List.foldl_cons, List.mem_cons, forall_eq_or_imp, exists_eq_or_imp]
    obtain ⟨h1, h2, h3⟩ := ih (max (f a) v0)
    refine ⟨le_trans (le_max_right _ _) h1, ⟨le_trans (le_max_left _ _) h1, h2⟩, ?_⟩
    rcases h3 with h3 | ⟨b, hb, h3⟩
    · rcases max_choice (f a) v0 with hm | hm
      · right; left; rw [h3, hm]
      · left; rw [h3, hm]
    · right; right; exact ⟨b, hb, h3⟩

/-- The value of the response map at a pixel is the greatest of 0 and the per-configuration
responses there. -/
theorem response_map_spec (ops : ImgOps) (gray : Mat) (radiuses : List Int)
    (hg : gray.empty = false) (r c : Nat) :
    0 ≤ (detect_all_corner_responses_custom ops gray radiuses).data r c ∧
    (∀ cfg ∈ response_configs radiuses,
      config_response ops gray cfg r c ≤
        (detect_all_corner_responses_custom ops gray radiuses).data r c) ∧
    ((detect_all_corner_responses_custom ops gray radiuses).data r c = 0 ∨
      ∃ cfg ∈ response_configs radiuses,
        (detect_all_corner_responses_custom ops gray radiuses).data r c =
          config_response ops gray cfg r c) := by
  unfold detect_all_corner_responses_custom
  rw [response_fold_data ops gray hg r c]
  exact fold_max_spec (fun cfg => config_response ops gray cfg r c) (response_configs radiuses) 0

/-- C10 (as the code behaves): for every non-empty normalized field and every radius list, the
map returned by `detect_all_corner_responses_custom` equals, at every pixel, the maximum of 0
and the per-configuration responses over all (angle pair, radius) configurations: it is at
least 0, at least every per-configuration response, and equal to 0 or to one of them. -/
theorem response_map_clamped_max (ops : ImgOps) (gray : Mat) (radiuses : List Int)
    (hg : gray.empty = false) (r c : Nat) :
    0 ≤ (detect_all_corner_responses_custom ops gray radiuses).data r c ∧
    (∀ cfg ∈ response_configs radiuses,
      config_response ops gray cfg r c ≤
        (detect_all_corner_responses_custom ops gray radiuses).data r c) ∧
    ((detect_all_corner_responses_custom ops gray radiuses).data r c = 0 ∨
      ∃ cfg ∈ response_configs radiuses,
        (detect_all_corner_responses_custom ops gray radiuses).data r c =
          config_response ops gray cfg r c) :=
  response_map_spec ops gray radiuses hg r c

theorem edge_field_responses_neg :
    ∀ cfg ∈ response_configs [2], config_response sampleImgOps edge_field cfg 2 2 < 0 := by
  decide!

/-- C10, counterexample: on the 5 x 5 step-edge field with radius list `[2]`, every
per-configuration response at pixel (2, 2) is negative, so their maximum is negative, while
the returned map holds 0 there. -/
theorem response_map_not_max :
    (detect_all_corner_responses_custom sampleImgOps edge_field [2]).data 2 2 = 0 ∧
    (response_configs [2]).all
      (fun cfg => decide (config_response sampleImgOps edge_field cfg 2 2 < 0)) = true := by
  refine ⟨?_, by simpa using edge_field_responses_neg⟩
  rcases (response_map_spec sampleImgOps edge_field [2] rfl 2 2).2.2 with h | ⟨cfg, hcfg, h⟩
  · exact h
  · have h0 := (response_map_spec sampleImgOps edge_field [2] rfl 2 2).1
    have hneg := edge_field_responses_neg cfg hcfg
    rw [h] at h0
    exact absurd hneg (not_lt.mpr h0)


/-! ## Lemmas on `minMaxLoc` -/

theorem foldl_pick_inv {α : Type} (P : α → Prop) (pick : α → α → Bool) :
    ∀ (l : List α) (init : α), P init → (∀ p ∈ l, P p) →
      P (l.foldl (fun best p => if pick p best then p else best) init) := by
  intro l
  induction l with
  | nil => intro init h _; exact h
  | cons a rest ih =>
    intro init h hl
    simp only [List.foldl_cons]
    apply ih
    · split
      · exact hl a (List.mem_cons_self _ _)
      · exact h
    · intro p hp
      exact hl p (List.mem_cons_of_mem _ hp)

theorem Mat.argBest_in_bounds (m : Mat) (better : ℚ → ℚ → Bool) (hr : 0 < m.rows)
    (hc : 0 < m.cols) :
    (m.argBest better).1 < m.rows ∧ (m.argBest better).2 < m.cols := by
  unfold Mat.argBest
  exact foldl_pick_inv (fun p : Nat × Nat => p.1 < m.rows ∧ p.2 < m.cols)
    (fun p best => better (m.data p.1 p.2) (m.data best.1 best.2)) m.positions (0, 0)
    ⟨hr, hc⟩ (fun p hp => (m.mem_positions p).mp hp)

theorem Mat.empty_eq_false (m : Mat) : m.empty = false ↔ 0 < m.rows ∧ 0 < m.cols := by
  unfold Mat.empty
  simp [Nat.pos_iff_ne_zero]

theorem minMaxLoc_const (m : Mat) (v : ℚ) (he : m.empty = false) (h : m.isConst v) :
    (minMaxLoc m).max_val = v ∧ (minMaxLoc m).min_val = v := by
  obtain ⟨hr, hc⟩ := (m.empty_eq_false).mp he
  unfold minMaxLoc
  simp only
  exact ⟨h _ _ (m.argBest_in_bounds _ hr hc).1 (m.argBest_in_bounds _ hr hc).2,
         h _ _ (m.argBest_in_bounds _ hr hc).1 (m.argBest_in_bounds _ hr hc).2⟩

/-! ## Lemmas on a uniform image -/

theorem normalize_gray_const (ops : ImgOps) (hops : ops.KeepsFlat) (img : Mat) (v : ℚ)
    (h : img.isConst v) :
    (∃ w, (normalize_gray ops img).isConst w) ∧
      (normalize_gray ops img).rows = img.rows ∧ (normalize_gray ops img).cols = img.cols := by
  unfold normalize_gray
  split
  · exact ⟨hops.cvtColor img v h, rfl, rfl⟩
  · exact ⟨⟨v, h⟩, rfl, rfl⟩

theorem normalize_clipped_const (ops : ImgOps) (hops : ops.KeepsFlat) (img : Mat) (v : ℚ)
    (h : img.isConst v) :
    (∃ w, (normalize_clipped ops img).isConst w) ∧
      (normalize_clipped ops img).rows = img.rows ∧
      (normalize_clipped ops img).cols = img.cols := by
  obtain ⟨⟨w0, hw0⟩, hrows, hcols⟩ := normalize_gray_const ops hops img v h
  have hgf : ({ normalize_gray ops img with depth := Depth.CV_32F } : Mat).isConst w0 := hw0
  obtain ⟨w1, hw1⟩ := hops.GaussianBlur _ 3 1 w0 hgf
  obtain ⟨w2, hw2⟩ := hops.blur _
    (if c_trunc (ops.sqrt ((((normalize_gray ops img).rows * (normalize_gray ops img).cols : Nat) : ℚ)) / 2) < 1
      then 1 else c_trunc (ops.sqrt ((((normalize_gray ops img).rows * (normalize_gray ops img).cols : Nat) : ℚ)) / 2))
    w1 hw1
  refine ⟨⟨min (max ((w1 - w2) / 255) (-(2/10))) (2/10) + 2/10, ?_⟩, hrows, hcols⟩
  intro r c hr hc
  have h1 := hw1 r c hr hc
  have h2 := hw2 r c hr hc
  simp only [Mat.withData] at h1 h2
  simp only [normalize_clipped, Mat.map, Mat.zipWith, Mat.withData]
  rw [h1, h2]

theorem c_abs_zero : c_abs 0 = 0 := by
  unfold c_abs; simp

theorem normalize_const (ops : ImgOps) (hops : ops.KeepsFlat) (img : Mat) (v : ℚ)
    (he : img.empty = false) (h : img.isConst v) :
    (∀ r c, (normalize_image_custom ops img).data r c = 0) ∧
      (normalize_image_custom ops img).rows = img.rows ∧
      (normalize_image_custom ops img).cols = img.cols := by
  obtain ⟨⟨w, hw⟩, hrows, hcols⟩ := normalize_clipped_const ops hops img v h
  have hce : (normalize_clipped ops img).empty = false := by
    unfold Mat.empty at he ⊢
    rw [hrows, hcols]; exact he
  obtain ⟨hmax, hmin⟩ := minMaxLoc_const _ w hce hw
  unfold normalize_image_custom
  simp only
  rw [hmax, hmin, sub_self, c_abs_zero, if_pos (by norm_num)]
  exact ⟨fun _ _ => rfl, hrows, hcols⟩

theorem filter2D_zero (src kernel : Mat) (h : ∀ r c, src.data r c = 0) (y x : Nat) :
    (filter2D src kernel).data y x = 0 := by
  unfold filter2D Mat.withData
  simp only
  apply List.sum_eq_zero
  intro v hv
  obtain ⟨p, _, rfl⟩ := List.mem_map.mp hv
  rw [h, mul_zero]

theorem corner_response_zero : corner_response 0 0 0 0 = 0 := by
  unfold corner_response; simp

theorem config_response_zero (ops : ImgOps) (gray : Mat) (h : ∀ r c, gray.data r c = 0)
    (cfg : (ℚ × ℚ) × Int) (r c : Nat) : config_response ops gray cfg r c = 0 := by
  unfold config_response
  rw [create_correlation_patch_eq]
  unfold detect_corners_from_templates_custom
  simp only [Mat.withData]
  rw [filter2D_zero gray _ h, filter2D_zero gray _ h, filter2D_zero gray _ h,
    filter2D_zero gray _ h, corner_response_zero]

theorem response_step_header (ops : ImgOps) (gray out : Mat) (cfg : (ℚ × ℚ) × Int) :
    (response_step ops gray out cfg).rows = out.rows ∧
    (response_step ops gray out cfg).cols = out.cols ∧
    (response_step ops gray out cfg).depth = out.depth ∧
    (response_step ops gray out cfg).channels = out.channels := by
  unfold response_step
  simp only
  split <;> exact ⟨rfl, rfl, rfl, rfl⟩

theorem response_fold_header (ops : ImgOps) (gray : Mat) :
    ∀ (cfgs : List ((ℚ × ℚ) × Int)) (out : Mat),
      (cfgs.foldl (response_step ops gray) out).rows = out.rows ∧
      (cfgs.foldl (response_step ops gray) out).cols = out.cols ∧
      (cfgs.foldl (response_step ops gray) out).depth = out.depth ∧
      (cfgs.foldl (response_step ops gray) out).channels = out.channels := by
  intro cfgs
  induction cfgs with
  | nil => intro out; exact ⟨rfl, rfl, rfl, rfl⟩
  | cons cfg rest ih =>
    intro out
    simp only [List.foldl_cons]
    obtain ⟨h1, h2, h3, h4⟩ := ih (response_step ops gray out cfg)
    obtain ⟨g1, g2, g3, g4⟩ := response_step_header ops gray out cfg
    exact ⟨h1.trans g1, h2.trans g2, h3.trans g3, h4.trans g4⟩

theorem response_map_header (ops : ImgOps) (gray : Mat) (radiuses : List Int) :
    (detect_all_corner_responses_custom ops gray radiuses).rows = gray.rows ∧
    (detect_all_corner_responses_custom ops gray radiuses).cols = gray.cols ∧
    (detect_all_corner_responses_custom ops gray radiuses).depth = Depth.CV_32F ∧
    (detect_all_corner_responses_custom ops gray radiuses).channels = 1 := by
  unfold detect_all_corner_responses_custom
  exact response_fold_header ops gray _ _

theorem response_map_zero (ops : ImgOps) (gray : Mat) (radiuses : List Int)
    (hg : gray.empty = false) (h : ∀ r c, gray.data r c = 0) (r c : Nat) :
    (detect_all_corner_responses_custom ops gray radiuses).data r c = 0 := by
  rcases (response_map_spec ops gray radiuses hg r c).2.2 with h0 | ⟨cfg, _, h0⟩
  · exact h0
  · rw [h0]; exact config_response_zero ops gray h cfg r c

theorem corr_blurred_zero (ops : ImgOps) (hops : ops.KeepsFlat) (gray : Mat) (winsize : Int)
    (hg : gray.empty = false) (h : ∀ r c, gray.data r c = 0) :
    (detect_corr_blurred ops gray winsize).isConst 0 ∧
    (detect_corr_blurred ops gray winsize).rows = gray.rows ∧
    (detect_corr_blurred ops gray winsize).cols = gray.cols ∧
    (detect_corr_blurred ops gray winsize).isCV_32F = true := by
  obtain ⟨h1, h2, h3, h4⟩ := response_map_header ops gray (detect_radiuses winsize)
  refine ⟨?_, h1, h2, ?_⟩
  · unfold detect_corr_blurred
    exact hops.GaussianBlur_zero _ 7 3
      (fun r c _ _ => response_map_zero ops gray (detect_radiuses winsize) hg h r c)
  · unfold detect_corr_blurred Mat.isCV_32F Mat.withData
    simp only [h3, h4]
    rfl

/-! ## Lemmas on the window scan -/

theorem Rect.inter_bounds (j i step : Int) (cols rows : Nat)
    (ha : (Rect.inter ⟨j, i, step, step⟩ ⟨0, 0, cols, rows⟩).area ≠ 0) :
    let rr := Rect.inter ⟨j, i, step, step⟩ ⟨0, 0, cols, rows⟩
    0 ≤ rr.x ∧ 0 ≤ rr.y ∧ 0 < rr.width ∧ 0 < rr.height ∧
      rr.x + rr.width ≤ cols ∧ rr.y + rr.height ≤ rows := by
  unfold Rect.inter Rect.area at *
  simp only at *
  split
  · rename_i h; rw [if_pos h] at ha; simp at ha
  · rename_i h
    push_neg at h
    simp only
    refine ⟨le_max_right _ _, le_max_right _ _, h.1, h.2, ?_, ?_⟩
    · have := min_le_right (j + step) (0 + (cols : Int))
      omega
    · have := min_le_right (i + step) (0 + (rows : Int))
      omega

theorem scan_window_const (corr_map : Mat) (step : Int) (threshold v : ℚ) (i j : Int)
    (st : ScanState) (h : corr_map.isConst v) (hv : ¬ v > threshold) :
    scan_window corr_map step threshold i j st = st := by
  unfold scan_window
  simp only
  split
  · rfl
  · rename_i ha
    obtain ⟨hx, hy, hw, hh, hxw, hyh⟩ := Rect.inter_bounds j i step corr_map.cols corr_map.rows ha
    have hconst : (corr_map.roi (Rect.inter ⟨j, i, step, step⟩
        ⟨0, 0, corr_map.cols, corr_map.rows⟩)).isConst v := by
      intro r c hr hc
      simp only [Mat.roi] at hr hc ⊢
      apply h <;> omega
    have hne : (corr_map.roi (Rect.inter ⟨j, i, step, step⟩
        ⟨0, 0, corr_map.cols, corr_map.rows⟩)).empty = false := by
      rw [Mat.empty_eq_false]
      simp only [Mat.roi]
      constructor <;> omega
    rw [(minMaxLoc_const _ v hne hconst).1, if_neg hv]

theorem scan_cols_inv (corr_map : Mat) (step : Int) (threshold : ℚ) (i : Int)
    (P : ScanState → Prop)
    (hP : ∀ j st, P st → P (scan_window corr_map step threshold i j st))
    (hstep : 1 ≤ Int.tdiv step 2) :
    ∀ (fuel : Nat) (j : Int) (st : ScanState), ((corr_map.cols : Int) - j).toNat < fuel → P st →
      ∃ st1, scan_cols corr_map step threshold i fuel j st = some st1 ∧ P st1 := by
  intro fuel
  induction fuel with
  | zero => intro j st h; omega
  | succ n ih =>
    intro j st h hst
    unfold scan_cols
    split
    · rename_i hj
      apply ih
      · omega
      · exact hP j st hst
    · exact ⟨st, rfl, hst⟩

theorem scan_rows_inv (corr_map : Mat) (step : Int) (threshold : ℚ) (col_fuel : Nat)
    (P : ScanState → Prop)
    (hP : ∀ i j st, P st → P (scan_window corr_map step threshold i j st))
    (hstep : 1 ≤ Int.tdiv step 2) (hcf : corr_map.cols < col_fuel) :
    ∀ (fuel : Nat) (i : Int) (st : ScanState), ((corr_map.rows : Int) - i).toNat < fuel → P st →
      ∃ st1, scan_rows corr_map step threshold col_fuel fuel i st = some st1 ∧ P st1 := by
  intro fuel
  induction fuel with
  | zero => intro i st h; omega
  | succ n ih =>
    intro i st h hst
    unfold scan_rows
    split
    · rename_i hi
      obtain ⟨st1, h1, hp1⟩ := scan_cols_inv corr_map step threshold i P (hP i) hstep
        col_fuel 0 st (by simpa using hcf) hst
      rw [h1]
      simp only
      apply ih
      · omega
      · exact hp1
    · exact ⟨st, rfl, hst⟩

theorem get_corner_candidates_inv (fuel : Nat) (corr_map : Mat) (step : Int) (threshold : ℚ)
    (P : ScanState → Prop)
    (hP : ∀ i j st, P st → P (scan_window corr_map step threshold i j st))
    (h0 : P ⟨[], []⟩)
    (hstep : 2 ≤ step) (hf : corr_map.rows < fuel ∧ corr_map.cols < fuel) :
    ∃ cands, get_corner_candidates_custom fuel corr_map step threshold = some cands ∧
      (cands = [] ∨ ∃ st, P st ∧ st.candidates = cands) := by
  have hd : 1 ≤ Int.tdiv step 2 := by
    have : Int.tdiv step 2 = step / 2 := Int.tdiv_eq_ediv (by omega) (by omega)
    omega
  unfold get_corner_candidates_custom
  split
  · exact ⟨[], rfl, Or.inl rfl⟩
  · obtain ⟨st1, h1, hp1⟩ := scan_rows_inv corr_map step threshold fuel P hP hd hf.2 fuel 0
      ⟨[], []⟩ (by simpa using hf.1) h0
    rw [h1]
    exact ⟨st1.candidates, rfl, Or.inr ⟨st1, hp1, rfl⟩⟩

theorem Mat.roi_const (m : Mat) (rect : Rect) (v : ℚ) (h : m.isConst v)
    (hx : 0 ≤ rect.x) (hy : 0 ≤ rect.y) (hw : 0 < rect.width) (hh : 0 < rect.height)
    (hxw : rect.x + rect.width ≤ m.cols) (hyh : rect.y + rect.height ≤ m.rows) :
    (m.roi rect).empty = false ∧ (m.roi rect).isConst v := by
  constructor
  · rw [Mat.empty_eq_false]
    simp only [Mat.roi]
    constructor <;> omega
  · intro r c hr hc
    simp only [Mat.roi] at hr hc ⊢
    apply h <;> omega

theorem trim_crop_bounds (gray : Mat) (stats : List CCStat) (rect : Rect)
    (h : trim_crop gray stats = some rect) :
    0 ≤ rect.x ∧ 0 ≤ rect.y ∧ 0 < rect.width ∧ 0 < rect.height ∧
      rect.x + rect.width ≤ gray.cols ∧ rect.y + rect.height ≤ gray.rows := by
  unfold trim_crop at h
  simp only at h
  split at h
  · simp at h
  · split at h
    · simp at h
    · split at h
      · simp at h
      · rename_i hcrop
        push_neg at hcrop
        simp only [Option.some.injEq] at h
        rw [← h]
        simp only
        refine ⟨le_max_left _ _, le_max_left _ _, by omega, by omega, ?_, ?_⟩
        · have := min_le_left (gray.cols : Int)
            ((stats.getD (best_component (stats.enum.drop 1)).1.toNat ⟨0, 0, 0, 0, 0⟩).left +
              (stats.getD (best_component (stats.enum.drop 1)).1.toNat ⟨0, 0, 0, 0, 0⟩).width + 50)
          omega
        · have := min_le_left (gray.rows : Int)
            ((stats.getD (best_component (stats.enum.drop 1)).1.toNat ⟨0, 0, 0, 0, 0⟩).top +
              (stats.getD (best_component (stats.enum.drop 1)).1.toNat ⟨0, 0, 0, 0, 0⟩).height + 50)
          omega

theorem trim_const (ops : ImgOps) (gray : Mat) (v : ℚ) (he : gray.empty = false)
    (h : gray.isConst v) :
    (trim_picture_custom ops gray).1.empty = false ∧ (trim_picture_custom ops gray).1.isConst v := by
  unfold trim_picture_custom
  rw [he]
  simp only [Bool.false_eq_true, if_false]
  split
  · exact ⟨he, h⟩
  · split
    · exact ⟨he, h⟩
    · rename_i rect hrect
      obtain ⟨h1, h2, h3, h4, h5, h6⟩ := trim_crop_bounds gray _ rect hrect
      exact Mat.roi_const gray rect v h h1 h2 h3 h4 h5 h6

theorem detect_current_gray_const (ops : ImgOps) (gray : Mat) (trim : Bool) (v : ℚ)
    (he : gray.empty = false) (h : gray.isConst v) :
    (detect_current_gray ops gray trim).1.empty = false ∧
      (detect_current_gray ops gray trim).1.isConst v := by
  unfold detect_current_gray
  split
  · exact trim_const ops gray v he h
  · exact ⟨he, h⟩

theorem detect_candidates_zero (ops : ImgOps) (hops : ops.KeepsFlat) (fuel : Nat) (gray : Mat)
    (winsize : Int) (hg : gray.empty = false) (h : ∀ r c, gray.data r c = 0)
    (hw : 0 ≤ winsize) (hf : gray.rows < fuel ∧ gray.cols < fuel) :
    detect_candidates ops fuel gray winsize = some [] := by
  obtain ⟨hz, hrows, hcols, _⟩ := corr_blurred_zero ops hops gray winsize hg h
  have hne : (detect_corr_blurred ops gray winsize).empty = false := by
    unfold Mat.empty at hg ⊢
    rw [hrows, hcols]; exact hg
  unfold detect_candidates
  simp only
  rw [(minMaxLoc_const _ 0 hne hz).1, zero_mul]
  obtain ⟨cands, hc, hP⟩ := get_corner_candidates_inv fuel (detect_corr_blurred ops gray winsize)
    (winsize + 2) 0 (fun st => st.candidates = [])
    (fun i j st hst => by
      rw [scan_window_const _ _ 0 0 i j st hz (lt_irrefl 0)]; exact hst)
    rfl (by omega) (by rw [hrows, hcols]; exact hf)
  rw [hc]
  rcases hP with hP | ⟨st, hst, hP⟩
  · rw [hP]
  · rw [← hP, hst]

theorem nms_nil (S : StdSortDesc) (m : ℚ) : non_maximum_suppression_custom S [] m = [] := rfl

theorem refine_nil (gops : GridOps) (gray : Mat) (winsize : Int) (check_only : Bool) :
    refine_corners_custom gops [] gray winsize check_only = some [] := by
  unfold refine_corners_custom
  split
  · rfl
  · simp only
    split <;> rfl

theorem reorder_nil (sqrt : ℚ → ℚ) (gops : GridOps) (gray : Mat) (board : Size) :
    reorder_checkerboard_custom sqrt gops [] gray board = some ReorderResult.failure := by
  unfold reorder_checkerboard_custom
  simp

theorem detect_reorder_nil (ops : ImgOps) (gops : GridOps) (gray : Mat) (board : Size)
    (winsize : Int) :
    detect_reorder ops gops [] gray board winsize = some ReorderResult.failure := by
  unfold detect_reorder
  simp only [refine_nil, candidates_for_reorder, List.take_nil, reorder_nil]
  simp [ReorderResult.failure]

theorem detect_no_candidates (ops : ImgOps) (gops : GridOps) (fuel : Nat) (gray_image : Mat)
    (board_size : Size) (winsize : Int) (trim : Bool) (prev : List Point2f)
    (he : gray_image.empty = false)
    (hc : detect_candidates ops fuel
      (normalize_image_custom ops (detect_current_gray ops gray_image trim).1) winsize = some []) :
    detect_checkerboard_custom ops gops fuel gray_image board_size prev winsize trim
      = some ⟨1, []⟩ := by
  unfold detect_checkerboard_custom
  simp only [vector_clear]
  rw [he]
  simp only [Bool.false_eq_true, if_false]
  split
  · rfl
  · rw [hc]
    simp only
    split
    · rfl
    · unfold detect_nms
      simp only [nms_nil]
      split
      · rfl
      · rw [detect_reorder_nil]
        simp [ReorderResult.failure]

/-- On a non-empty uniform image, with filters that keep flat images flat, `winsize ≥ 0` and
fuel above the image dimensions: the normalized field and the smoothed cornerness map are zero,
no candidate is extracted, and the detector rejects. -/
theorem detect_uniform_run (ops : ImgOps) (gops : GridOps) (hops : ops.KeepsFlat)
    (gray_image : Mat) (v : ℚ) (board_size : Size) (winsize : Int) (trim : Bool) (prev : List Point2f) (fuel : Nat)
    (he : gray_image.empty = false) (hflat : gray_image.isConst v) (hw : 0 ≤ winsize)
    (hf : (detect_current_gray ops gray_image trim).1.rows < fuel ∧
      (detect_current_gray ops gray_image trim).1.cols < fuel) :
    (∀ r c, (normalize_image_custom ops (detect_current_gray ops gray_image trim).1).data r c = 0) ∧
    (detect_corr_blurred ops
      (normalize_image_custom ops (detect_current_gray ops gray_image trim).1) winsize).isConst 0 ∧
    detect_candidates ops fuel
      (normalize_image_custom ops (detect_current_gray ops gray_image trim).1) winsize
        = some [] ∧
    detect_checkerboard_custom ops gops fuel gray_image board_size prev winsize trim
      = some ⟨1, []⟩ := by
  obtain ⟨hce, hcc⟩ := detect_current_gray_const ops gray_image trim v he hflat
  obtain ⟨hz, hrows, hcols⟩ := normalize_const ops hops _ v hce hcc
  have hne : (normalize_image_custom ops (detect_current_gray ops gray_image trim).1).empty
      = false := by
    unfold Mat.empty at hce ⊢
    rw [hrows, hcols]; exact hce
  have hc := detect_candidates_zero ops hops fuel _ winsize hne hz hw
    (by rw [hrows, hcols]; exact hf)
  exact ⟨hz, (corr_blurred_zero ops hops _ winsize hne hz).1, hc,
    detect_no_candidates ops gops fuel gray_image board_size winsize trim prev he hc⟩

theorem sampleImgOps_keepsFlat : sampleImgOps.KeepsFlat where
  cvtColor := fun _ v h => ⟨v, h⟩
  GaussianBlur := fun _ _ _ v h => ⟨v, h⟩
  GaussianBlur_zero := fun _ _ _ h => h
  blur := fun _ _ v h => ⟨v, h⟩

/-- For every non-empty image whose pixels all have the same value, every board size and
trim flag, and every window size with a positive scan stride (`winsize ≥ 0`), the normalized
field is all-zero, the smoothed cornerness map is all-zero, no candidate is registered, and
with enough fuel for the window scan `detect_checkerboard_custom` returns score 1.0 with empty
corners. The library filters are assumed to keep flat images flat (`ImgOps.KeepsFlat`). -/
theorem detect_uniform_image (ops : ImgOps) (gops : GridOps) (hops : ops.KeepsFlat)
    (gray_image : Mat) (v : ℚ) (board_size : Size) (winsize : Int) (trim : Bool) (prev : List Point2f)
    (he : gray_image.empty = false) (hflat : gray_image.isConst v) (hw : 0 ≤ winsize) :
    (∀ r c, (normalize_image_custom ops (detect_current_gray ops gray_image trim).1).data r c = 0) ∧
    (detect_corr_blurred ops
      (normalize_image_custom ops (detect_current_gray ops gray_image trim).1) winsize).isConst 0 ∧
    ∃ fuel0, ∀ fuel, fuel0 ≤ fuel →
      detect_candidates ops fuel
        (normalize_image_custom ops (detect_current_gray ops gray_image trim).1) winsize
          = some [] ∧
      detect_checkerboard_custom ops gops fuel gray_image board_size prev winsize trim
        = some ⟨1, []⟩ := by
  have h0 := detect_uniform_run ops gops hops gray_image v board_size winsize trim prev
    (max (detect_current_gray ops gray_image trim).1.rows
      (detect_current_gray ops gray_image trim).1.cols + 1) he hflat hw
    (by constructor <;> omega)
  refine ⟨h0.1, h0.2.1, max (detect_current_gray ops gray_image trim).1.rows
    (detect_current_gray ops gray_image trim).1.cols + 1, ?_⟩
  intro fuel hfuel
  have h1 := detect_uniform_run ops gops hops gray_image v board_size winsize trim prev fuel he hflat
    hw (by constructor <;> omega)
  exact ⟨h1.2.2.1, h1.2.2.2⟩

/-! ## Grid reconstruction on an exact lattice -/

theorem dist_sq_nonneg (a b : Point2f) : 0 ≤ dist_sq a b := by
  unfold dist_sq
  exact add_nonneg (mul_self_nonneg _) (mul_self_nonneg _)

theorem dist_sq_self (a : Point2f) : dist_sq a a = 0 := by
  unfold dist_sq; ring

theorem dist_sq_eq_zero (a b : Point2f) (h : dist_sq a b = 0) : a = b := by
  unfold dist_sq at h
  have hx : (a.x - b.x) * (a.x - b.x) = 0 := by nlinarith [mul_self_nonneg (a.x - b.x), mul_self_nonneg (a.y - b.y)]
  have hy : (a.y - b.y) * (a.y - b.y) = 0 := by nlinarith [mul_self_nonneg (a.x - b.x), mul_self_nonneg (a.y - b.y)]
  have hx' : a.x = b.x := by
    have := mul_self_eq_zero.mp hx; linarith
  have hy' : a.y = b.y := by
    have := mul_self_eq_zero.mp hy; linarith
  cases a; cases b; simp_all

theorem nn_of_mem (gops : GridOps) (pts : List Point2f) (hnn : ExactNN gops pts) (q : Point2f)
    (hq : q ∈ pts) :
    ∃ i : Int, (gops.knnSearch pts q 1).head? = some (i, 0) ∧ at_index pts i = some q := by
  obtain ⟨i, p, h1, h2, h3⟩ := hnn q
  have h0 : dist_sq q p = 0 :=
    le_antisymm (by have := h3 q hq; rwa [dist_sq_self] at this) (dist_sq_nonneg q p)
  have hp : q = p := dist_sq_eq_zero q p h0
  exact ⟨i, by rw [h1, h0], by rw [h2, hp]⟩

theorem foldl_max_ge (l : List ℚ) : ∀ v0 : ℚ, v0 ≤ l.foldl max v0 := by
  induction l with
  | nil => intro v0; exact le_refl _
  | cons a rest ih => intro v0; exact le_trans (le_max_left _ _) (ih (max v0 a))

theorem foldl_max_zero (l : List ℚ) (h : ∀ x ∈ l, x = 0) : l.foldl max 0 = 0 := by
  induction l with
  | nil => rfl
  | cons a rest ih =>
    simp only [List.foldl_cons]
    rw [h a (List.mem_cons_self _ _), max_self]
    exact ih (fun x hx => h x (List.mem_cons_of_mem _ hx))

theorem points_at_map (gops : GridOps) (pts : List Point2f) :
    ∀ (qs : List Point2f),
      (∀ q ∈ qs, ∃ (i : Int) (d : ℚ) (p : Point2f),
        (gops.knnSearch pts q 1).head? = some (i, d) ∧ at_index pts i = some p) →
      ∃ ps, points_at pts
        (List.map (fun f : Option (Int × ℚ) => (f.getD (0, 0)).1)
          (qs.map (fun q => (gops.knnSearch pts q 1).head?))) = some ps := by
  intro qs
  induction qs with
  | nil => intro _; exact ⟨[], rfl⟩
  | cons q rest ih =>
    intro h
    obtain ⟨ps, hps⟩ := ih (fun q hq => h q (List.mem_cons_of_mem _ hq))
    obtain ⟨i, d, p, h1, h2⟩ := h q (List.mem_cons_self _ _)
    refine ⟨p :: ps, ?_⟩
    simp only [List.map_cons, points_at, h1, Option.getD_some, h2, hps]

theorem points_at_map_self (gops : GridOps) (pts : List Point2f) :
    ∀ (qs : List Point2f),
      (∀ q ∈ qs, ∃ (i : Int),
        (gops.knnSearch pts q 1).head? = some (i, 0) ∧ at_index pts i = some q) →
      points_at pts
        (List.map (fun f : Option (Int × ℚ) => (f.getD (0, 0)).1)
          (qs.map (fun q => (gops.knnSearch pts q 1).head?))) = some qs := by
  intro qs
  induction qs with
  | nil => intro _; rfl
  | cons q rest ih =>
    intro h
    have hps := ih (fun q hq => h q (List.mem_cons_of_mem _ hq))
    obtain ⟨i, h1, h2⟩ := h q (List.mem_cons_self _ _)
    simp only [List.map_cons, points_at, h1, Option.getD_some, h2, hps]

theorem grid_hypothesis_defined (gops : GridOps) (pts : List Point2f) (board : Size)
    (hnn : ExactNN gops pts)
    (hlen : board.height.toNat * board.width.toNat = to_size_t (board.width * board.height))
    (s a b : Point2f) :
    ∃ hyp, grid_hypothesis gops pts board s a b = some hyp ∧ 0 ≤ hyp.1 := by
  obtain ⟨i1, p1, h1, g1, _⟩ := hnn (s.add a)
  obtain ⟨i2, p2, h2, g2, _⟩ := hnn (s.add b)
  obtain ⟨ps, hps⟩ := points_at_map gops pts
    (grid_queries board s
      ((Point2f.smul (6/10) a).add (Point2f.smul (4/10) (p1.sub s)))
      ((Point2f.smul (6/10) b).add (Point2f.smul (4/10) (p2.sub s))))
    (fun q _ => by
      obtain ⟨i, p, h, g, _⟩ := hnn q
      exact ⟨i, _, p, h, g⟩)
  have key : grid_hypothesis gops pts board s a b = some
      ((List.map (fun f : Option (Int × ℚ) => (f.getD (0, 0)).2)
        ((grid_queries board s
          ((Point2f.smul (6/10) a).add (Point2f.smul (4/10) (p1.sub s)))
          ((Point2f.smul (6/10) b).add (Point2f.smul (4/10) (p2.sub s)))).map
            (fun q => (gops.knnSearch pts q 1).head?))).foldl max 0, ps) := by
    unfold grid_hypothesis
    simp only [h1, h2, g1, g2, grid_queries_length, hlen, ne_eq, not_true_eq_false, if_false, hps]
    rw [if_neg]
    simp only [List.any_eq_true, List.mem_map, not_exists, not_and]
    rintro f ⟨q, _, rfl⟩
    obtain ⟨i, p, h, _, _⟩ := hnn q
    simp [h]
  exact ⟨_, key, foldl_max_ge _ 0⟩

theorem blend_axis (o u : Point2f) (q : Point2f) (hq : q = lattice_point o u u 0 1) :
    (Point2f.smul (6/10) u).add (Point2f.smul (4/10) (q.sub o)) = u := by
  subst hq
  cases o; cases u
  simp only [lattice_point, Point2f.add, Point2f.sub, Point2f.smul, Point2f.mk.injEq]
  constructor <;> push_cast <;> ring

theorem add_eq_lattice_col (o u v : Point2f) : o.add u = lattice_point o u v 0 1 := by
  cases o; cases u; cases v
  simp only [lattice_point, Point2f.add, Point2f.smul, Point2f.mk.injEq]
  constructor <;> push_cast <;> ring

theorem add_eq_lattice_row (o u v : Point2f) : o.add v = lattice_point o u v 1 0 := by
  cases o; cases u; cases v
  simp only [lattice_point, Point2f.add, Point2f.smul, Point2f.mk.injEq]
  constructor <;> push_cast <;> ring

theorem mem_grid_queries (board : Size) (o u v : Point2f) (r c : Nat)
    (hr : (r : Int) < board.height) (hc : (c : Int) < board.width) :
    lattice_point o u v r c ∈ grid_queries board o u v := by
  unfold grid_queries
  simp only [List.mem_flatMap, List.mem_range, List.mem_map]
  exact ⟨r, by omega, c, by omega, rfl⟩

theorem flatMap_range_length {α : Type} (f : Nat → Nat → α) (W : Nat) :
    ∀ H : Nat, ((List.range H).flatMap (fun r => (List.range W).map (f r))).length = H * W := by
  intro H
  induction H with
  | zero => simp
  | succ n ih =>
    rw [List.range_succ, List.flatMap_append, List.length_append, ih]
    simp [Nat.succ_mul]

theorem flatMap_range_getElem? {α : Type} (f : Nat → Nat → α) (W : Nat) :
    ∀ (H r c : Nat), r < H → c < W →
      ((List.range H).flatMap (fun r => (List.range W).map (f r)))[r * W + c]? = some (f r c) := by
  intro H
  induction H with
  | zero => intro r c hr; omega
  | succ n ih =>
    intro r c hr hc
    rw [List.range_succ, List.flatMap_append]
    by_cases hrn : r < n
    · rw [List.getElem?_append_left]
      · exact ih r c hrn hc
      · rw [flatMap_range_length]
        calc r * W + c < r * W + W := by omega
          _ = (r + 1) * W := by ring
          _ ≤ n * W := Nat.mul_le_mul_right W hrn
    · have hrn' : r = n := by omega
      subst hrn'
      rw [List.getElem?_append_right]
      · rw [flatMap_range_length]
        simp [hc]
      · rw [flatMap_range_length]; omega

theorem grid_queries_getElem? (board : Size) (o u v : Point2f) (r c : Nat)
    (hr : (r : Int) < board.height) (hc : (c : Int) < board.width) :
    (grid_queries board o u v)[r * board.width.toNat + c]? = some (lattice_point o u v r c) := by
  unfold grid_queries
  exact flatMap_range_getElem?
    (fun (r c : Nat) => (o.add (Point2f.smul (r : ℚ) v)).add (Point2f.smul (c : ℚ) u))
    board.width.toNat board.height.toNat r c (by omega) (by omega)

theorem grid_hypothesis_lattice (gops : GridOps) (pts : List Point2f) (board : Size)
    (o u v : Point2f) (hnn : ExactNN gops pts)
    (hlen : board.height.toNat * board.width.toNat = to_size_t (board.width * board.height))
    (hrows : 2 ≤ board.height) (hcols : 2 ≤ board.width)
    (hsub : ∀ q ∈ grid_queries board o u v, q ∈ pts) :
    grid_hypothesis gops pts board o u v = some (0, grid_queries board o u v) := by
  have hu : o.add u ∈ pts := by
    rw [add_eq_lattice_col o u v]
    exact hsub _ (mem_grid_queries board o u v 0 1 (by omega) (by omega))
  have hv : o.add v ∈ pts := by
    rw [add_eq_lattice_row o u v]
    exact hsub _ (mem_grid_queries board o u v 1 0 (by omega) (by omega))
  obtain ⟨i1, h1, g1⟩ := nn_of_mem gops pts hnn _ hu
  obtain ⟨i2, h2, g2⟩ := nn_of_mem gops pts hnn _ hv
  have b1 : (Point2f.smul (6/10) u).add (Point2f.smul (4/10) ((o.add u).sub o)) = u :=
    blend_axis o u _ (add_eq_lattice_col o u u)
  have b2 : (Point2f.smul (6/10) v).add (Point2f.smul (4/10) ((o.add v).sub o)) = v :=
    blend_axis o v _ (add_eq_lattice_col o v v)
  have hq : ∀ q ∈ grid_queries board o u v, ∃ i : Int,
      (gops.knnSearch pts q 1).head? = some (i, 0) ∧ at_index pts i = some q :=
    fun q hq => nn_of_mem gops pts hnn q (hsub q hq)
  have hps := points_at_map_self gops pts (grid_queries board o u v) hq
  unfold grid_hypothesis
  simp only [h1, h2, g1, g2, b1, b2, grid_queries_length, hlen, ne_eq, not_true_eq_false,
    if_false, hps]
  rw [if_neg]
  · congr 2
    apply foldl_max_zero
    intro x hx
    simp only [List.mem_map] at hx
    obtain ⟨f, ⟨q, hqm, rfl⟩, rfl⟩ := hx
    obtain ⟨i, hi, _⟩ := hq q hqm
    simp [hi]
  · simp only [List.any_eq_true, List.mem_map, not_exists, not_and]
    rintro f ⟨q, _, rfl⟩
    obtain ⟨i, p, h, _, _⟩ := hnn q
    simp [h]

theorem grid_search_keep (gops : GridOps) (pts : List Point2f) (board : Size)
    (hnn : ExactNN gops pts)
    (hlen : board.height.toNat * board.width.toNat = to_size_t (board.width * board.height))
    (g : List Point2f) :
    ∀ hyps : List (Point2f × Point2f × Point2f),
      grid_search gops pts board hyps ⟨g, some 0⟩ = some ⟨g, some 0⟩ := by
  intro hyps
  induction hyps with
  | nil => rfl
  | cons h rest ih =>
    obtain ⟨hyp, hh, h0⟩ := grid_hypothesis_defined gops pts board hnn hlen h.1 h.2.1 h.2.2
    unfold grid_search
    rw [hh]
    simp only
    have : grid_update ⟨g, some 0⟩ hyp = ⟨g, some 0⟩ := by
      unfold grid_update
      simp only
      rw [if_neg (not_lt.mpr h0)]
    rw [this]
    exact ih

theorem insertionSort_head_min {α : Type} (r : α → α → Prop) [DecidableRel r] [IsTotal α r]
    [IsTrans α r] (l : List α) (hl : l ≠ []) :
    ∃ x xs, List.insertionSort r l = x :: xs ∧ x ∈ l ∧ ∀ y ∈ l, r x y := by
  have hperm := List.perm_insertionSort r l
  have hsorted := List.sorted_insertionSort r l
  cases hs : List.insertionSort r l with
  | nil =>
    rw [hs] at hperm
    exact absurd (List.Perm.nil_eq hperm).symm hl
  | cons x xs =>
    rw [hs] at hperm hsorted
    refine ⟨x, xs, rfl, hperm.subset (List.mem_cons_self _ _), ?_⟩
    intro y hy
    have hy' : y ∈ x :: xs := hperm.symm.subset hy
    rcases List.mem_cons.mp hy' with h | h
    · subst h
      rcases total_of r y y with h | h <;> exact h
    · exact List.rel_of_sorted_cons hsorted y h

theorem pair_le_total : IsTotal (ℚ × Nat) (fun a b => a.1 < b.1 ∨ (a.1 = b.1 ∧ a.2 ≤ b.2)) :=
  ⟨fun a b => by
    rcases lt_trichotomy a.1 b.1 with h | h | h
    · exact Or.inl (Or.inl h)
    · rcases le_total a.2 b.2 with h2 | h2
      · exact Or.inl (Or.inr ⟨h, h2⟩)
      · exact Or.inr (Or.inr ⟨h.symm, h2⟩)
    · exact Or.inr (Or.inl h)⟩

theorem pair_le_trans : IsTrans (ℚ × Nat) (fun a b => a.1 < b.1 ∨ (a.1 = b.1 ∧ a.2 ≤ b.2)) :=
  ⟨fun a b c hab hbc => by
    rcases hab with h | ⟨h, h2⟩ <;> rcases hbc with g | ⟨g, g2⟩
    · exact Or.inl (lt_trans h g)
    · exact Or.inl (g ▸ h)
    · exact Or.inl (h ▸ g)
    · exact Or.inr ⟨h.trans g, le_trans h2 g2⟩⟩

theorem grid_hypotheses_head (pts : List Point2f) (o u v : Point2f) (ho : o ∈ pts)
    (horigin : ∀ p ∈ pts, p ≠ o → o.dot (u.add v) < p.dot (u.add v)) :
    ∃ rest, grid_hypotheses_list pts u v = (o, u, v) :: rest := by
  have hne : pts.enum.map (fun ip => (ip.2.dot (u.add v), ip.1)) ≠ [] := by
    intro h
    have := congrArg List.length h
    simp only [List.length_map, List.enum_length, List.length_nil] at this
    exact List.ne_nil_of_mem ho (List.length_eq_zero.mp this)
  haveI := pair_le_total
  haveI := pair_le_trans
  obtain ⟨x, xs, hs, hx, hmin⟩ :=
    insertionSort_head_min (fun a b : ℚ × Nat => a.1 < b.1 ∨ (a.1 = b.1 ∧ a.2 ≤ b.2)) _ hne
  obtain ⟨⟨i, p⟩, hip, hxe⟩ := List.mem_map.mp hx
  have hpi : pts[i]? = some p := List.mk_mem_enum_iff_getElem?.mp hip
  have hpm : p ∈ pts := List.mem_iff_getElem?.mpr ⟨i, hpi⟩
  have hpo : p = o := by
    by_contra hne'
    obtain ⟨io, hio⟩ := List.mem_iff_getElem?.mp ho
    have hom : (o.dot (u.add v), io) ∈ pts.enum.map (fun ip => (ip.2.dot (u.add v), ip.1)) :=
      List.mem_map.mpr ⟨(io, o), List.mk_mem_enum_iff_getElem?.mpr hio, rfl⟩
    have h1 := hmin _ hom
    have h2 := horigin p hpm hne'
    rw [← hxe] at h1
    simp only at h1
    rcases h1 with h1 | ⟨h1, _⟩ <;> linarith
  have hget : pts.getD x.2 ⟨0, 0⟩ = o := by
    rw [← hxe]
    simp only [List.getD_eq_getElem?_getD, hpi, Option.getD_some, hpo]
  unfold grid_hypotheses_list start_candidates_scores
  simp only [hs, List.length_cons]
  have : min 2 (xs.length + 1) = (min 1 xs.length) + 1 := by omega
  rw [this, List.take_succ_cons, List.flatMap_cons, hget]
  exact ⟨_, rfl⟩

theorem reorder_lattice_aux (sqrt : ℚ → ℚ) (gops : GridOps) (candidates : List CornerCandidate)
    (gray : Mat) (board : Size) (o u v : Point2f)
    (hrows : 2 ≤ board.height) (hcols : 2 ≤ board.width)
    (hsize : board.width * board.height < 2 ^ 31)
    (hgray : gray.empty = false ∧ gray.isCV_32F = true)
    (hlattice : List.Perm (candidates.map (fun cand => cand.point)) (grid_queries board o u v))
    (haxes : reorder_axes sqrt gops (candidates.map (fun cand => cand.point)) gray
      = some (some (u, v)))
    (horigin : ∀ p ∈ candidates.map (fun cand => cand.point), p ≠ o →
      o.dot (u.add v) < p.dot (u.add v))
    (hnn : ExactNN gops (candidates.map (fun cand => cand.point))) :
    reorder_checkerboard_custom sqrt gops candidates gray board
      = some ⟨true, grid_queries board o u v, some 0⟩ := by
  have hprod : (0 : Int) ≤ board.width * board.height := by positivity
  have hlen : board.height.toNat * board.width.toNat
      = to_size_t (board.width * board.height) := by
    rw [to_size_t_of_lt _ hprod (lt_trans hsize (by norm_num))]
    zify
    rw [Int.toNat_of_nonneg (by omega), Int.toNat_of_nonneg (by omega),
      Int.toNat_of_nonneg hprod]
    ring
  have hclen : candidates.length = board.height.toNat * board.width.toNat := by
    have := hlattice.length_eq
    rwa [List.length_map, grid_queries_length] at this
  have hsub : ∀ q ∈ grid_queries board o u v, q ∈ candidates.map (fun cand => cand.point) :=
    fun q hq => hlattice.symm.subset hq
  have ho : o ∈ candidates.map (fun cand => cand.point) := by
    have h0 := mem_grid_queries board o u v 0 0 (by omega) (by omega)
    have : lattice_point o u v 0 0 = o := by
      cases o; cases u; cases v
      simp [lattice_point, Point2f.add, Point2f.smul]
    rw [this] at h0
    exact hsub o h0
  have hne : candidates.isEmpty = false := by
    cases candidates with
    | nil => simp at ho
    | cons a l => rfl
  obtain ⟨rest, hhead⟩ := grid_hypotheses_head _ o u v ho horigin
  unfold reorder_checkerboard_custom
  simp only [hne, hgray.1, hgray.2, Bool.or_self, Bool.not_true, Bool.false_eq_true, if_false]
  rw [if_neg (by rw [hclen, hlen]; exact lt_irrefl _)]
  rw [haxes]
  simp only
  rw [hhead]
  unfold grid_search
  rw [grid_hypothesis_lattice gops _ board o u v hnn hlen hrows hcols hsub]
  simp only [grid_update]
  rw [grid_search_keep gops _ board hnn hlen]
  simp only [grid_queries_length, hlen, if_true]

/-- C6: for `rows ≥ 2` and `cols ≥ 2`, if the candidate positions are exactly the lattice
`o + r*v + c*u` (`0 ≤ r < rows`, `0 ≤ c < cols`), the detected axes are `ax1 = u` and
`ax2 = v`, `o` is the candidate with the smallest projection onto `ax1 + ax2`, and
nearest-neighbour queries are exact, then `reorder_checkerboard_custom` succeeds with maximum
snap distance 0 and `ordered_corners[r*cols + c] = o + r*v + c*u` for every `r` and `c`. -/
theorem reorder_lattice_row_major (sqrt : ℚ → ℚ) (gops : GridOps)
    (candidates : List CornerCandidate) (gray : Mat) (board : Size) (o u v : Point2f)
    (hrows : 2 ≤ board.height) (hcols : 2 ≤ board.width)
    (hsize : board.width * board.height < 2 ^ 31)
    (hgray : gray.empty = false ∧ gray.isCV_32F = true)
    (hlattice : List.Perm (candidates.map (fun cand => cand.point)) (grid_queries board o u v))
    (haxes : reorder_axes sqrt gops (candidates.map (fun cand => cand.point)) gray
      = some (some (u, v)))
    (horigin : ∀ p ∈ candidates.map (fun cand => cand.point), p ≠ o →
      o.dot (u.add v) < p.dot (u.add v))
    (hnn : ExactNN gops (candidates.map (fun cand => cand.point))) :
    ∃ res, reorder_checkerboard_custom sqrt gops candidates gray board = some res ∧
      res.ok = true ∧ res.out_max_reorder_dist = some 0 ∧
      ∀ r c : Nat, (r : Int) < board.height → (c : Int) < board.width →
        res.ordered_corners[r * board.width.toNat + c]? = some (lattice_point o u v r c) :=
  ⟨⟨true, grid_queries board o u v, some 0⟩,
   reorder_lattice_aux sqrt gops candidates gray board o u v hrows hcols hsize hgray hlattice
     haxes horigin hnn,
   rfl, rfl, fun r c hr hc => grid_queries_getElem? board o u v r c hr hc⟩

theorem exact_knn_exact (pts : List Point2f) (hne : pts ≠ []) : ExactNN sampleGridOps pts := by
  intro q
  have hne' : pts.enum.map (fun ip => (dist_sq q ip.2, ip.1)) ≠ [] := by
    intro h
    have := congrArg List.length h
    simp only [List.length_map, List.enum_length, List.length_nil] at this
    exact hne (List.length_eq_zero.mp this)
  haveI := pair_le_total
  haveI := pair_le_trans
  obtain ⟨x, xs, hs, hx, hmin⟩ :=
    insertionSort_head_min (fun a b : ℚ × Nat => a.1 < b.1 ∨ (a.1 = b.1 ∧ a.2 ≤ b.2)) _ hne'
  obtain ⟨⟨i, p⟩, hip, hxe⟩ := List.mem_map.mp hx
  have hpi : pts[i]? = some p := List.mk_mem_enum_iff_getElem?.mp hip
  refine ⟨(i : Int), p, ?_, ?_, ?_⟩
  · show (exact_knn pts q 1).head? = _
    unfold exact_knn
    rw [hs, ← hxe]
    rfl
  · unfold at_index
    rw [if_neg (by omega)]
    simpa using hpi
  · intro p' hp'
    obtain ⟨i', hi'⟩ := List.mem_iff_getElem?.mp hp'
    have hm : (dist_sq q p', i') ∈ pts.enum.map (fun ip => (dist_sq q ip.2, ip.1)) :=
      List.mem_map.mpr ⟨(i', p'), List.mk_mem_enum_iff_getElem?.mpr hi', rfl⟩
    have h1 := hmin _ hm
    rw [← hxe] at h1
    simp only at h1
    rcases h1 with h1 | ⟨h1, _⟩
    · exact h1.le
    · exact h1.le

theorem nms_mark_zip_or (ci : CornerCandidate) (m : ℚ) :
    ∀ (rest : List CornerCandidate) (flags : List Bool) (c : CornerCandidate),
      (c, false) ∈ rest.zip flags →
      (c, false) ∈ rest.zip (nms_mark ci m rest flags) ∨ dist_sq ci.point c.point < m := by
  intro rest
  induction rest with
  | nil => intro flags c h; simp at h
  | cons a rest ih =>
    intro flags c h
    cases flags with
    | nil => simp at h
    | cons s flags =>
      simp only [nms_mark, List.zipWith_cons_cons, List.zip_cons_cons, List.mem_cons] at h ⊢
      rcases h with h | h
      · obtain ⟨rfl, rfl⟩ := Prod.mk.inj h
        by_cases hd : dist_sq ci.point c.point < m
        · exact Or.inr hd
        · exact Or.inl (Or.inl (by simp [hd]))
      · rcases ih flags c h with h' | h'
        · exact Or.inl (Or.inr h')
        · exact Or.inr h'

theorem nms_loop_complete (m : ℚ) :
    ∀ (rest : List CornerCandidate) (flags : List Bool), flags.length = rest.length →
      List.Sorted (fun a b : CornerCandidate => b.score ≤ a.score) rest →
      ∀ c, (c, false) ∈ rest.zip flags →
        c ∈ nms_loop m rest flags ∨
          ∃ a ∈ nms_loop m rest flags, dist_sq a.point c.point < m ∧ c.score ≤ a.score := by
  intro rest
  induction rest with
  | nil => intro flags _ _ c h; simp at h
  | cons a rest ih =>
    intro flags hlen hs c h
    cases flags with
    | nil => simp at hlen
    | cons s flags =>
      have hlen' : flags.length = rest.length := by simpa using hlen
      have hs' := List.Sorted.of_cons hs
      have hrel := List.rel_of_sorted_cons hs
      cases s with
      | true =>
        simp only [nms_loop, List.headD_cons, List.tail_cons, if_true]
        simp only [List.zip_cons_cons, List.mem_cons, Prod.mk.injEq, Bool.false_eq_true,
          and_false, false_or] at h
        exact ih flags hlen' hs' c h
      | false =>
        simp only [nms_loop, List.headD_cons, List.tail_cons, Bool.false_eq_true, if_false,
          List.mem_cons]
        simp only [List.zip_cons_cons, List.mem_cons, Prod.mk.injEq, and_true] at h
        rcases h with h | h
        · exact Or.inl (Or.inl h)
        · rcases nms_mark_zip_or a m rest flags c h with h' | h'
          · rcases ih (nms_mark a m rest flags) (nms_mark_length a m rest flags hlen') hs' c h'
              with h1 | ⟨b, hb, hd, hsc⟩
            · exact Or.inl (Or.inr h1)
            · exact Or.inr ⟨b, Or.inr hb, hd, hsc⟩
          · exact Or.inr ⟨a, Or.inl rfl, h', hrel c (List.of_mem_zip h).1⟩

theorem mem_zip_replicate_false {α : Type} :
    ∀ (l : List α) (c : α), c ∈ l → (c, false) ∈ l.zip (List.replicate l.length false) := by
  intro l
  induction l with
  | nil => intro c h; simp at h
  | cons a l ih =>
    intro c h
    simp only [List.length_cons, List.replicate_succ, List.zip_cons_cons, List.mem_cons,
      Prod.mk.injEq, and_true]
    rcases List.mem_cons.mp h with h | h
    · exact Or.inl h
    · exact Or.inr (ih c h)

/-- C20: greedy suppression is complete. For every candidate list and `min_dist_sq`, each
input candidate is in the output of `non_maximum_suppression_custom` or lies at squared
distance below `min_dist_sq` from an output candidate whose score is at least its own; and the
output is a sub-multiset of the input. -/
theorem nms_complete (S : StdSortDesc) (candidates : List CornerCandidate) (min_dist_sq : ℚ) :
    (∀ c ∈ candidates,
      c ∈ non_maximum_suppression_custom S candidates min_dist_sq ∨
      ∃ a ∈ non_maximum_suppression_custom S candidates min_dist_sq,
        dist_sq a.point c.point < min_dist_sq ∧ c.score ≤ a.score) ∧
    List.Subperm (non_maximum_suppression_custom S candidates min_dist_sq) candidates := by
  refine ⟨?_, (nms_sublist_sort S candidates min_dist_sq).subperm.trans (S.perm candidates).subperm⟩
  intro c hc
  unfold non_maximum_suppression_custom
  split
  · rename_i he
    rw [List.isEmpty_iff] at he
    rw [he] at hc
    simp at hc
  · have hlen : (S.sort candidates).length = candidates.length := (S.perm candidates).length_eq
    have hmem : c ∈ S.sort candidates := (S.perm candidates).mem_iff.mpr hc
    have hz := mem_zip_replicate_false (S.sort candidates) c hmem
    rw [hlen] at hz
    exact nms_loop_complete min_dist_sq _ _ (by rw [List.length_replicate, hlen])
      (S.sorted candidates) c hz

/-! ## Claims on refinement -/

theorem tdiv_two_nonpos (a : Int) (h : a < 2) : Int.tdiv a 2 ≤ 0 := by
  by_cases h1 : 0 ≤ a
  · rw [Int.tdiv_eq_ediv h1 (by omega)]; omega
  · have h2 := Int.neg_tdiv (-a) 2
    rw [neg_neg] at h2
    rw [h2, Int.tdiv_eq_ediv (by omega) (by omega)]
    omega

theorem tdiv_two_pos (a : Int) (h : 2 ≤ a) : 0 < Int.tdiv a 2 := by
  rw [Int.tdiv_eq_ediv (by omega) (by omega)]; omega

theorem solve_patch_corner_det (patch_dx patch_dy : Mat)
    (h : ¬ ((solve_patch_corner_custom patch_dx patch_dy).x = -1 ∧
            (solve_patch_corner_custom patch_dx patch_dy).y = -1)) :
    1/1000000000 ≤ structure_tensor_det patch_dx patch_dy := by
  unfold solve_patch_corner_custom at h
  split at h
  · exact absurd ⟨rfl, rfl⟩ h
  · simp only at h
    split at h
    · exact absurd ⟨rfl, rfl⟩ h
    · rename_i hd
      exact not_lt.mp hd

theorem refine_one_refined (sobel_dx sobel_dy : Mat) (winsize half_win : Int) (check_only : Bool)
    (cand r : CornerCandidate)
    (h : refine_one sobel_dx sobel_dy winsize half_win check_only cand = some (some r)) :
    refined_from sobel_dx sobel_dy winsize half_win check_only cand r := by
  unfold refine_one at h
  simp only at h
  split at h
  · simp at h
  · rename_i hb
    split at h
    · simp at h
    · rename_i hi
      split at h
      · simp at h
      · rename_i hs
        split at h
        · simp at h
        · rename_i ho
          have hdet := solve_patch_corner_det _ _ hs
          rw [not_or, not_lt, not_lt] at ho
          simp only [Bool.not_eq_true, Bool.not_eq_eq_eq_not, Bool.not_false, Bool.not_true] at hb hi
          unfold refined_from
          simp only
          refine ⟨by simpa using hb, by simpa using hi, hdet, ho.1, ho.2, ?_, ?_⟩
          · split at h <;> simp only [Option.some.injEq] at h <;> rw [← h]
          · split at h
            · rename_i hc
              simp only [Option.some.injEq] at h
              rw [← h, if_pos hc]
            · rename_i hc
              simp only [Option.some.injEq] at h
              rw [← h, if_neg hc]

/-- For an odd window size `2 * half_win + 1` the bounds test implies that the window lies
inside the gradient image. -/
theorem refine_window_inside_odd (sobel_dx : Mat) (half_win x y : Int) (hh : 0 ≤ half_win)
    (hb : refine_bounds_ok sobel_dx half_win x y = true) :
    sobel_dx.roi_inside (refine_window (2 * half_win + 1) half_win x y) = true := by
  unfold refine_bounds_ok at hb
  unfold Mat.roi_inside refine_window
  simp only [Bool.not_eq_true', Bool.or_eq_false_iff, decide_eq_false_iff_not, not_lt,
    Bool.and_eq_true, decide_eq_true_eq, gt_iff_lt] at hb ⊢
  omega

theorem refine_one_odd (sobel_dx sobel_dy : Mat) (half_win : Int) (check_only : Bool)
    (cand : CornerCandidate) (hh : 0 ≤ half_win) :
    refine_one sobel_dx sobel_dy (2 * half_win + 1) half_win check_only cand ≠ none := by
  unfold refine_one
  simp only
  split
  · simp
  · rename_i hb
    rw [refine_window_inside_odd sobel_dx half_win _ _ hh (by simpa using hb)]
    simp only [Bool.not_true, Bool.false_eq_true, if_false]
    split
    · simp
    · split
      · simp
      · split <;> simp

theorem refine_corners_unfold (gops : GridOps) (candidates : List CornerCandidate) (gray : Mat)
    (winsize : Int) (check_only : Bool) (hg : gray.empty = false) (ht : gray.isCV_32F = true)
    (hw : 0 < Int.tdiv (winsize - 1) 2) :
    refine_corners_custom gops candidates gray winsize check_only =
      refine_loop (refine_one (refine_sobel gops gray 1 0) (refine_sobel gops gray 0 1) winsize
        (Int.tdiv (winsize - 1) 2) check_only) candidates := by
  unfold refine_corners_custom refine_sobel
  simp [hg, ht, not_le.mpr hw]

/-- C17 (amended): for an empty or non-`CV_32F` image, or a window size below 3 (half-size
`h = (winsize - 1) / 2 <= 0`), `refine_corners_custom` returns its input unchanged. For a
non-empty `CV_32F` image and `winsize >= 3` it returns a list whenever `winsize` is odd, and
every candidate of a list it returns is a successful refinement of an input candidate: the
window passed the bounds test and lies inside the gradient image, the structure tensor is not
singular, the offset is within `h + 1` on both axes. -/
theorem refine_output_refined (gops : GridOps) (candidates : List CornerCandidate) (gray : Mat)
    (winsize : Int) (check_only : Bool) :
    (gray.empty = true ∨ gray.isCV_32F = false ∨ winsize < 3 →
      refine_corners_custom gops candidates gray winsize check_only = some candidates) ∧
    (gray.empty = false → gray.isCV_32F = true → 3 ≤ winsize →
      (winsize % 2 = 1 →
        ∃ out, refine_corners_custom gops candidates gray winsize check_only = some out) ∧
      ∀ out, refine_corners_custom gops candidates gray winsize check_only = some out →
        ∀ r ∈ out, ∃ cand ∈ candidates,
          refined_from (refine_sobel gops gray 1 0) (refine_sobel gops gray 0 1) winsize
            (Int.tdiv (winsize - 1) 2) check_only cand r) := by
  constructor
  · intro h
    unfold refine_corners_custom
    rcases h with h | h | h
    · simp [h]
    · simp [h]
    · have : Int.tdiv (winsize - 1) 2 ≤ 0 := tdiv_two_nonpos (winsize - 1) (by omega)
      simp [this]
  · intro hg ht hw
    have hh : 0 < Int.tdiv (winsize - 1) 2 := tdiv_two_pos (winsize - 1) (by omega)
    rw [refine_corners_unfold gops candidates gray winsize check_only hg ht hh]
    constructor
    · intro hodd
      have hwin : winsize = 2 * Int.tdiv (winsize - 1) 2 + 1 := by
        rw [Int.tdiv_eq_ediv (by omega) (by omega)]; omega
      refine ⟨_, refine_loop_total _ candidates (fun c _ => ?_)⟩
      have := refine_one_odd (refine_sobel gops gray 1 0) (refine_sobel gops gray 0 1)
        (Int.tdiv (winsize - 1) 2) check_only c hh.le
      rw [← hwin] at this
      exact this
    · intro out hout r hr
      rw [refine_loop_some _ _ _ hout, List.mem_filterMap] at hr
      obtain ⟨cand, hc, hj⟩ := hr
      refine ⟨cand, hc, refine_one_refined _ _ _ _ _ _ _ ?_⟩
      cases hb : refine_one (refine_sobel gops gray 1 0) (refine_sobel gops gray 0 1) winsize
          (Int.tdiv (winsize - 1) 2) check_only cand with
      | none => rw [hb] at hj; simp at hj
      | some o => rw [hb] at hj; simp only [Option.join, Option.some_bind, id] at hj; rw [hj]

/-! ## Claims on the quality score -/

theorem score_scan_nil (sqrt : ℚ → ℚ) (m : ℚ) : score_scan sqrt [] m = ScoreScan.running m := rfl

theorem score_scan_cons (sqrt : ℚ → ℚ) (t : Point2f × Point2f × Point2f)
    (ts : List (Point2f × Point2f × Point2f)) (m : ℚ) :
    score_scan sqrt (t :: ts) m =
      match score_triple sqrt m t with
      | ScoreScan.degenerate => ScoreScan.degenerate
      | ScoreScan.running m1 => score_scan sqrt ts m1 := rfl

theorem score_triple_eq (sqrt : ℚ → ℚ) (m : ℚ) (t : Point2f × Point2f × Point2f) :
    score_triple sqrt m t =
      if triple_degenerate sqrt t then ScoreScan.degenerate
      else ScoreScan.running (max m (triple_defect sqrt t)) := by
  unfold score_triple triple_degenerate triple_defect
  simp only [decide_eq_true_eq]

theorem score_scan_degenerate (sqrt : ℚ → ℚ) :
    ∀ (ts : List (Point2f × Point2f × Point2f)) (m : ℚ),
      (∃ t ∈ ts, triple_degenerate sqrt t = true) → score_scan sqrt ts m = ScoreScan.degenerate := by
  intro ts
  induction ts with
  | nil => intro m h; simp at h
  | cons a ts ih =>
    intro m h
    rw [score_scan_cons, score_triple_eq]
    by_cases ha : triple_degenerate sqrt a = true
    · rw [if_pos ha]
    · rw [if_neg ha]
      apply ih
      obtain ⟨t, ht, hd⟩ := h
      rcases List.mem_cons.mp ht with rfl | ht
      · exact absurd hd ha
      · exact ⟨t, ht, hd⟩

theorem score_scan_running (sqrt : ℚ → ℚ) :
    ∀ (ts : List (Point2f × Point2f × Point2f)) (m : ℚ),
      (∀ t ∈ ts, triple_degenerate sqrt t = false) →
      score_scan sqrt ts m = ScoreScan.running ((ts.map (triple_defect sqrt)).foldl max m) := by
  intro ts
  induction ts with
  | nil => intro m _; rfl
  | cons a ts ih =>
    intro m h
    have ha : ¬ triple_degenerate sqrt a = true := by
      rw [h a (List.mem_cons_self _ _)]; decide
    rw [score_scan_cons, score_triple_eq, if_neg ha, List.map_cons, List.foldl_cons]
    exact ih _ (fun t ht => h t (List.mem_cons_of_mem _ ht))

theorem spec_local_defect_eq (sqrt : ℚ → ℚ) (t : Point2f × Point2f × Point2f)
    (h : triple_degenerate sqrt t = false) : spec_local_defect sqrt t = triple_defect sqrt t := by
  unfold triple_degenerate at h
  unfold spec_local_defect triple_defect
  rw [if_neg (by simpa using h)]
  have hadd : t.1.add t.2.2 = t.2.2.add t.1 := by
    simp only [Point2f.add, Point2f.mk.injEq]
    exact ⟨add_comm _ _, add_comm _ _⟩
  rw [hadd]

theorem foldl_max_map {α : Type} (f : α → ℚ) :
    ∀ (l : List α) (v : ℚ),
      l.foldl (fun acc a => max (f a) acc) v = (l.map f).foldl max v := by
  intro l
  induction l with
  | nil => intro v; rfl
  | cons a l ih => intro v; simp only [List.foldl_cons, List.map_cons]; rw [max_comm]; exact ih _

/-- C12 (amended): for every point list of length `width * height`, if some interior triple
of a row or a column is degenerate (`||next - prev|| < 1e-9`), `checkerboard_score_custom`
returns 1.0 at once, whatever the other defects are; if no interior triple is degenerate, it
returns the maximum of the local defects `||(prev + next) - 2 curr|| / ||next - prev||` over
all interior triples (0 when there is none): an upper bound of all of them that is 0 or is
attained by one of them. -/
theorem checkerboard_score_max (sqrt : ℚ → ℚ) (corners_vec : List Point2f) (board_size : Size)
    (hlen : corners_vec.length = to_size_t (board_size.width * board_size.height)) :
    ((∃ t ∈ score_triples corners_vec board_size, triple_degenerate sqrt t = true) →
      checkerboard_score_custom sqrt corners_vec board_size = 1) ∧
    ((∀ t ∈ score_triples corners_vec board_size, triple_degenerate sqrt t = false) →
      checkerboard_score_custom sqrt corners_vec board_size =
        max_of ((score_triples corners_vec board_size).map (spec_local_defect sqrt)) ∧
      (∀ t ∈ score_triples corners_vec board_size,
        spec_local_defect sqrt t ≤ checkerboard_score_custom sqrt corners_vec board_size) ∧
      (checkerboard_score_custom sqrt corners_vec board_size = 0 ∨
        ∃ t ∈ score_triples corners_vec board_size,
          checkerboard_score_custom sqrt corners_vec board_size = spec_local_defect sqrt t)) := by
  constructor
  · rintro ⟨t, ht, hd⟩
    unfold checkerboard_score_custom
    rw [if_neg (by simpa using hlen)]
    rcases List.mem_append.mp ht with ht | ht
    · rw [score_scan_degenerate sqrt _ 0 ⟨t, ht, hd⟩]
    · cases hrow : score_scan sqrt (row_triples corners_vec board_size) 0 with
      | degenerate => rfl
      | running m1 =>
        simp only
        rw [score_scan_degenerate sqrt _ m1 ⟨t, ht, hd⟩]
  · intro h
    have hmap : (score_triples corners_vec board_size).map (spec_local_defect sqrt) =
        (score_triples corners_vec board_size).map (triple_defect sqrt) :=
      List.map_congr_left (fun t ht => spec_local_defect_eq sqrt t (h t ht))
    have hval : checkerboard_score_custom sqrt corners_vec board_size =
        max_of ((score_triples corners_vec board_size).map (triple_defect sqrt)) := by
      unfold checkerboard_score_custom
      rw [if_neg (by simpa using hlen),
        score_scan_running sqrt (row_triples corners_vec board_size) 0
          (fun t ht => h t (List.mem_append_left _ ht))]
      simp only
      rw [score_scan_running sqrt (col_triples corners_vec board_size) _
          (fun t ht => h t (List.mem_append_right _ ht))]
      simp only
      unfold max_of score_triples
      rw [List.map_append, List.foldl_append]
    have hspec := fold_max_spec (triple_defect sqrt) (score_triples corners_vec board_size) 0
    rw [foldl_max_map] at hspec
    rw [hmap, hval]
    refine ⟨rfl, fun t ht => ?_, ?_⟩
    · rw [spec_local_defect_eq sqrt t (h t ht)]
      exact hspec.2.1 t ht
    · rcases hspec.2.2 with h0 | ⟨t, ht, hv⟩
      · exact Or.inl h0
      · exact Or.inr ⟨t, ht, by rw [spec_local_defect_eq sqrt t (h t ht)]; exact hv⟩

theorem score_scan_zero (sqrt : ℚ → ℚ) :
    ∀ (ts : List (Point2f × Point2f × Point2f)),
      (∀ t ∈ ts, score_triple sqrt 0 t = ScoreScan.running 0) →
      score_scan sqrt ts 0 = ScoreScan.running 0 := by
  intro ts
  induction ts with
  | nil => intro _; rfl
  | cons a ts ih =>
    intro h
    rw [score_scan_cons, h a (List.mem_cons_self _ _)]
    exact ih (fun t ht => h t (List.mem_cons_of_mem _ ht))

theorem get_corner_lattice (board : Size) (o u v : Point2f) (r c : Nat)
    (hr : (r : Int) < board.height) (hc : (c : Int) < board.width) :
    get_corner (grid_queries board o u v) board r c = lattice_point o u v r c := by
  unfold get_corner
  have hidx : ((r : Int) * board.width + (c : Int)).toNat = r * board.width.toNat + c := by
    have hw : ((board.width.toNat : Nat) : Int) = board.width := Int.toNat_of_nonneg (by omega)
    have : (r : Int) * board.width + (c : Int) = ((r * board.width.toNat + c : Nat) : Int) := by
      push_cast; rw [hw]
    rw [this, Int.toNat_natCast]
  rw [hidx, List.getD_eq_getElem?_getD, grid_queries_getElem? board o u v r c hr hc]
  rfl

/-- A triple of equally spaced collinear points with a non-degenerate span has defect 0. -/
theorem score_triple_even (sqrt : ℚ → ℚ) (d : Point2f) (h0 : sqrt 0 = 0)
    (hd : 1/1000000000 ≤ c_abs (norm2f sqrt (Point2f.smul 2 d))) (a b c : Point2f)
    (hb : b = a.add d) (hc : c = b.add d) :
    score_triple sqrt 0 (a, b, c) = ScoreScan.running 0 := by
  subst hb hc
  unfold score_triple
  simp only
  have hbot : ((a.add d).add d).sub a = Point2f.smul 2 d := by
    simp only [Point2f.add, Point2f.sub, Point2f.smul, Point2f.mk.injEq]
    constructor <;> ring
  have htop : ((((a.add d).add d).add a).sub (Point2f.smul 2 (a.add d))) = ⟨0, 0⟩ := by
    simp only [Point2f.add, Point2f.sub, Point2f.smul, Point2f.mk.injEq]
    constructor <;> ring
  rw [hbot, htop, if_neg (not_lt.mpr hd)]
  have : norm2f sqrt ⟨0, 0⟩ = 0 := by
    unfold norm2f; simp [h0]
  rw [this, zero_div, max_self]

theorem lattice_point_succ_col (o u v : Point2f) (r c : Nat) :
    lattice_point o u v r (c + 1) = (lattice_point o u v r c).add u := by
  simp only [lattice_point, Point2f.add, Point2f.smul, Point2f.mk.injEq]
  constructor <;> push_cast <;> ring

theorem lattice_point_succ_row (o u v : Point2f) (r c : Nat) :
    lattice_point o u v (r + 1) c = (lattice_point o u v r c).add v := by
  simp only [lattice_point, Point2f.add, Point2f.smul, Point2f.mk.injEq]
  constructor <;> push_cast <;> ring

/-- C11 (amended): for every board size with positive width and height (product within `int`
range) and every evenly spaced straight grid `p(r,c) = o + r*v + c*u` stored row-major, if
`sqrt 0 = 0` and the span `||2u||` of a row triple (when the width is at least 3) and the span
`||2v||` of a column triple (when the height is at least 3) are not below `1e-9`, then
`checkerboard_score_custom` returns 0. -/
theorem checkerboard_score_lattice (sqrt : ℚ → ℚ) (board : Size) (o u v : Point2f)
    (hw : 0 < board.width) (hh : 0 < board.height)
    (hsize : board.width * board.height < 2 ^ 31)
    (h0 : sqrt 0 = 0)
    (hu : 3 ≤ board.width → 1/1000000000 ≤ c_abs (norm2f sqrt (Point2f.smul 2 u)))
    (hv : 3 ≤ board.height → 1/1000000000 ≤ c_abs (norm2f sqrt (Point2f.smul 2 v))) :
    checkerboard_score_custom sqrt (grid_queries board o u v) board = 0 := by
  have hlen : (grid_queries board o u v).length = to_size_t (board.width * board.height) := by
    rw [grid_queries_length, to_size_t_of_lt _ (by positivity) (by omega)]
    have h1 : ((board.height.toNat * board.width.toNat : Nat) : Int) = board.width * board.height := by
      push_cast
      rw [Int.toNat_of_nonneg hw.le, Int.toNat_of_nonneg hh.le, mul_comm]
    omega
  have hrow : score_scan sqrt (row_triples (grid_queries board o u v) board) 0
      = ScoreScan.running 0 := by
    apply score_scan_zero
    intro t ht
    unfold row_triples at ht
    simp only [List.mem_flatMap, List.mem_range, List.mem_map, List.mem_range'_1] at ht
    obtain ⟨r, hr, c, hc, rfl⟩ := ht
    have hw3 : 3 ≤ board.width := by omega
    obtain ⟨c', rfl⟩ : ∃ c', c = c' + 1 := ⟨c - 1, by omega⟩
    rw [Nat.add_sub_cancel, get_corner_lattice board o u v r c' (by omega) (by omega),
      get_corner_lattice board o u v r (c' + 1) (by omega) (by omega),
      get_corner_lattice board o u v r (c' + 1 + 1) (by omega) (by omega)]
    exact score_triple_even sqrt u h0 (hu hw3) _ _ _ (lattice_point_succ_col o u v r c')
      (lattice_point_succ_col o u v r (c' + 1))
  have hcol : score_scan sqrt (col_triples (grid_queries board o u v) board) 0
      = ScoreScan.running 0 := by
    apply score_scan_zero
    intro t ht
    unfold col_triples at ht
    simp only [List.mem_flatMap, List.mem_range, List.mem_map, List.mem_range'_1] at ht
    obtain ⟨c, hc, r, hr, rfl⟩ := ht
    have hh3 : 3 ≤ board.height := by omega
    obtain ⟨r', rfl⟩ : ∃ r', r = r' + 1 := ⟨r - 1, by omega⟩
    rw [Nat.add_sub_cancel, get_corner_lattice board o u v r' c (by omega) (by omega),
      get_corner_lattice board o u v (r' + 1) c (by omega) (by omega),
      get_corner_lattice board o u v (r' + 1 + 1) c (by omega) (by omega)]
    exact score_triple_even sqrt v h0 (hv hh3) _ _ _ (lattice_point_succ_row o u v r' c)
      (lattice_point_succ_row o u v (r' + 1) c)
  unfold checkerboard_score_custom
  rw [if_neg (by simpa using hlen), hrow]
  simp only
  rw [hcol]

/-! ## Claims on reconstruction and on the returned corners -/

/-- C16: for every input with fewer than `rows * cols` candidates (the product within `int`
range), `reorder_checkerboard_custom` returns `false` with an empty `ordered_corners`: the
result is the failure outcome, and no partial grid is returned. -/
theorem reorder_insufficient (sqrt : ℚ → ℚ) (gops : GridOps) (candidates : List CornerCandidate)
    (gray : Mat) (board : Size)
    (hsize : board.width * board.height < 2 ^ 31)
    (h : (candidates.length : Int) < board.width * board.height) :
    ∃ res, reorder_checkerboard_custom sqrt gops candidates gray board = some res ∧
      res.ok = false ∧ res.ordered_corners = [] := by
  refine ⟨⟨false, [], none⟩, ?_, rfl, rfl⟩
  unfold reorder_checkerboard_custom
  split
  · rfl
  · simp only
    rw [if_pos (lt_to_size_t _ _ h (by omega))]
    rfl

theorem trim_offset_cases (ops : ImgOps) (gray_image : Mat) :
    (trim_picture_custom ops gray_image = (gray_image, ⟨0, 0⟩)) ∨
    ∃ stats rect, trim_components ops gray_image = some stats ∧
      trim_crop gray_image stats = some rect ∧
      trim_picture_custom ops gray_image = (gray_image.roi rect, ⟨rect.x, rect.y⟩) := by
  unfold trim_picture_custom
  split
  · exact Or.inl rfl
  · cases hc : trim_components ops gray_image with
    | none => exact Or.inl rfl
    | some stats =>
      cases hr : trim_crop gray_image stats with
      | none => simp only [hr]; exact Or.inl trivial
      | some rect => simp only [hr]; exact Or.inr ⟨stats, rect, rfl, hr, rfl⟩

theorem map_add_zero (l : List Point2f) :
    l.map (fun p => p.add ⟨(((⟨0, 0⟩ : Point).x : Int) : ℚ), (((⟨0, 0⟩ : Point).y : Int) : ℚ)⟩) = l := by
  induction l with
  | nil => rfl
  | cons a l ih =>
    rw [List.map_cons, ih]
    congr 1
    simp [Point2f.add]

/-- C13: on every successful detection (a returned score that does not exceed 0.3) the
returned corners are the points of the reconstructed ordered grid, each shifted by the crop
offset: the `i`-th corner is the `i`-th grid point plus the offset, for every `i`. With `trim`
set the offset is the one returned by `trim_picture_custom`; when `trim` is false, or trimming
leaves the image unchanged and returns `(0, 0)`, the offset is `(0, 0)` and the corners are the
grid points unshifted. -/
theorem detect_corners_shifted (ops : ImgOps) (gops : GridOps) (fuel : Nat) (gray_image : Mat)
    (board_size : Size) (winsize : Int) (trim : Bool) (prev : List Point2f) (res : DetectionResult)
    (h : detect_checkerboard_custom ops gops fuel gray_image board_size prev winsize trim = some res)
    (hs : res.score ≤ 3/10) :
    ∃ cands r,
      detect_candidates ops fuel
        (normalize_image_custom ops (detect_current_gray ops gray_image trim).1) winsize
          = some cands ∧
      detect_reorder ops gops (detect_nms ops cands winsize)
        (normalize_image_custom ops (detect_current_gray ops gray_image trim).1)
        board_size winsize = some r ∧
      r.ok = true ∧
      res.corners.length = r.ordered_corners.length ∧
      (∀ (i : Nat) (p : Point2f), r.ordered_corners[i]? = some p →
        res.corners[i]? = some ⟨p.x + ((detect_current_gray ops gray_image trim).2.x : ℚ),
                                p.y + ((detect_current_gray ops gray_image trim).2.y : ℚ)⟩) ∧
      (trim = true →
        (detect_current_gray ops gray_image trim).2 = (trim_picture_custom ops gray_image).2) ∧
      (trim = false ∨ trim_picture_custom ops gray_image = (gray_image, ⟨0, 0⟩) →
        (detect_current_gray ops gray_image trim).2 = ⟨0, 0⟩ ∧
        res.corners = r.ordered_corners) := by
  rcases detect_cases ops gops fuel gray_image board_size winsize trim prev res h with
    hres | ⟨cands, r, hc, hr, hok, hres⟩
  · rw [hres] at hs
    exact absurd hs (by norm_num)
  · have hfin : res.corners = r.ordered_corners.map
        (fun p => p.add ⟨((detect_current_gray ops gray_image trim).2.x : ℚ),
                         ((detect_current_gray ops gray_image trim).2.y : ℚ)⟩) := by
      rw [hres] at hs ⊢
      unfold detect_finish at hs ⊢
      simp only at hs ⊢
      split
      · rename_i hgt
        rw [if_pos hgt] at hs
        exact absurd hs (not_le.mpr hgt)
      · rfl
    refine ⟨cands, r, hc, hr, hok, by rw [hfin, List.length_map], ?_, ?_, ?_⟩
    · intro i p hp
      rw [hfin, List.getElem?_map, hp]
      rfl
    · intro ht
      rw [ht]
      rfl
    · intro ht
      have hoff : (detect_current_gray ops gray_image trim).2 = ⟨0, 0⟩ := by
        unfold detect_current_gray
        rcases ht with ht | ht
        · rw [ht]; rfl
        · split
          · rw [ht]
          · rfl
      refine ⟨hoff, ?_⟩
      rw [hfin, hoff]
      exact map_add_zero _

/-! ## Claims on the calibration board -/

/-- C14: for a board that uses the custom detector on a chessboard (`board_rows * board_cols`
within `int` range): on an empty image `find_corners_in_image` reports `found = false` with
`CAL_CORNER_DET_ERR` without calling the detector; otherwise, for the result `det` of
`detect_checkerboard_custom` (default window size 9, no trimming), it reports `found = true`
with `CAL_OK` if and only if the score is strictly below 0.3 and the corner list is non-empty
with exactly `board_rows * board_cols` points, and `found = false` with `CAL_CORNER_DET_ERR`
in every other case. -/
theorem find_corners_custom_found (ops : ImgOps) (gops : GridOps) (bops : BoardOps) (fuel : Nat)
    (board : CalibBoard) (image : Mat)
    (hcustom : board.use_custom_detector_ = true)
    (hpattern : board.pattern_type_ = CalibPatternType.CHESSBOARD)
    (hsize : board.board_rows_ * board.board_cols_ < 2 ^ 31) :
    (image.empty = true →
      ∃ result, board.find_corners_in_image ops gops bops fuel image = some result ∧
        result.found = false ∧ result.error_code = CalibErrType.CAL_CORNER_DET_ERR) ∧
    (image.empty = false →
      ∀ det, detect_checkerboard_custom ops gops fuel (find_corners_gray ops image)
          ⟨board.board_rows_, board.board_cols_⟩ [] 9 false = some det →
        ∃ result, board.find_corners_in_image ops gops bops fuel image = some result ∧
          result.corners = det.corners ∧
          ((result.found = true ∧ result.error_code = CalibErrType.CAL_OK) ↔
            (det.score < 3/10 ∧ det.corners ≠ [] ∧
              (det.corners.length : Int) = board.board_rows_ * board.board_cols_)) ∧
          (¬ (det.score < 3/10 ∧ det.corners ≠ [] ∧
              (det.corners.length : Int) = board.board_rows_ * board.board_cols_) →
            result.found = false ∧ result.error_code = CalibErrType.CAL_CORNER_DET_ERR)) := by
  constructor
  · intro he
    refine ⟨⟨"", false, [], [], CalibErrType.CAL_CORNER_DET_ERR⟩, ?_, rfl, rfl⟩
    unfold CalibBoard.find_corners_in_image
    simp [he]
  · intro he det hdet
    have hshape := detect_corners_shape ops gops fuel (find_corners_gray ops image)
      ⟨board.board_rows_, board.board_cols_⟩ 9 false [] det hdet
    simp only at hshape
    have hrun : board.find_corners_in_image ops gops bops fuel image =
        some (find_corners_custom board ⟨"", false, [], [], CalibErrType.CAL_CORNER_DET_ERR⟩
          det.score det.corners) := by
      unfold CalibBoard.find_corners_in_image
      simp only [he, Bool.false_eq_true, if_false, hcustom, hpattern, and_self, if_true, hdet]
    have hcond : (det.score < 3/10 ∧ ¬ det.corners.isEmpty ∧
        det.corners.length = to_size_t (board.board_rows_ * board.board_cols_)) ↔
        (det.score < 3/10 ∧ det.corners ≠ [] ∧
          (det.corners.length : Int) = board.board_rows_ * board.board_cols_) := by
      have hne : (¬ det.corners.isEmpty) ↔ det.corners ≠ [] := by
        rw [List.isEmpty_iff]
      constructor
      · rintro ⟨h1, h2, _⟩
        have h2' := hne.mp h2
        rcases hshape with h | ⟨h, _, _⟩
        · exact absurd h h2'
        · exact ⟨h1, h2', h⟩
      · rintro ⟨h1, h2, h3⟩
        refine ⟨h1, hne.mpr h2, ?_⟩
        rw [to_size_t_of_lt _ (by rw [← h3]; exact Int.ofNat_nonneg _) (by omega), ← h3]
        rfl
    refine ⟨_, hrun, ?_, ?_, ?_⟩
    · unfold find_corners_custom
      simp only
      split <;> rfl
    · rw [← hcond]
      unfold find_corners_custom
      simp only
      split
      · rename_i hc
        exact ⟨fun _ => hc, fun _ => ⟨rfl, rfl⟩⟩
      · rename_i hc
        exact ⟨fun h => by simp at h, fun h => absurd h hc⟩
    · intro hn
      rw [← hcond] at hn
      unfold find_corners_custom
      simp only
      rw [if_neg hn]
      exact ⟨rfl, rfl⟩

/-! ## Claims on the rotation conversions -/

section
variable {K : Type} [LinearOrderedField K]

theorem Rot.cof {a b c d e f g h i : K} (H : Rot a b c d e f g h i) :
    a = e*i - f*h ∧ b = f*g - d*i ∧ c = d*h - e*g ∧
    d = c*h - b*i ∧ e = a*i - c*g ∧ f = b*g - a*h ∧
    g = b*f - c*e ∧ h = c*d - a*f ∧ i = a*e - b*d := by
  obtain ⟨r00, r11, r22, r01, r02, r12, det⟩ := H
  refine ⟨?_, ?_, ?_, ?_, ?_, ?_, ?_, ?_, ?_⟩
  · linear_combination (e*i - f*h) * r00 + (c*h - b*i) * r01 + (b*f - c*e) * r02 - a * det
  · linear_combination (f*g - d*i) * r00 + (a*i - c*g) * r01 + (c*d - a*f) * r02 - b * det
  · linear_combination (d*h - e*g) * r00 + (b*g - a*h) * r01 + (a*e - b*d) * r02 - c * det
  · linear_combination (e*i - f*h) * r01 + (c*h - b*i) * r11 + (b*f - c*e) * r12 - d * det
  · linear_combination (f*g - d*i) * r01 + (a*i - c*g) * r11 + (c*d - a*f) * r12 - e * det
  · linear_combination (d*h - e*g) * r01 + (b*g - a*h) * r11 + (a*e - b*d) * r12 - f * det
  · linear_combination (e*i - f*h) * r02 + (c*h - b*i) * r12 + (b*f - c*e) * r22 - g * det
  · linear_combination (f*g - d*i) * r02 + (a*i - c*g) * r12 + (c*d - a*f) * r22 - h * det
  · linear_combination (d*h - e*g) * r02 + (b*g - a*h) * r12 + (a*e - b*d) * r22 - i * det

theorem Rot.cols {a b c d e f g h i : K} (H : Rot a b c d e f g h i) :
    a*a + d*d + g*g = 1 ∧ b*b + e*e + h*h = 1 ∧ c*c + f*f + i*i = 1 ∧
    a*b + d*e + g*h = 0 ∧ a*c + d*f + g*i = 0 ∧ b*c + e*f + h*i = 0 := by
  obtain ⟨ca, cb, cc, cd, ce, cf, cg, ch, ci⟩ := H.cof
  obtain ⟨r00, r11, r22, r01, r02, r12, det⟩ := H
  refine ⟨?_, ?_, ?_, ?_, ?_, ?_⟩
  · linear_combination a * ca + d * cd + g * cg + det
  · linear_combination b * cb + e * ce + h * ch + det
  · linear_combination c * cc + f * cf + i * ci + det
  · linear_combination a * cb + d * ce + g * ch
  · linear_combination a * cc + d * cf + g * ci
  · linear_combination b * cc + e * cf + h * ci

/-- The products of the quantities `4ww, 4xx, 4yy, 4zz, 4wx, ...` that the entries of a
rotation matrix determine. -/
theorem Rot.products {a b c d e f g h i : K} (H : Rot a b c d e f g h i) :
    (h - f) * (h - f) = (1 + a + e + i) * (1 + a - e - i) ∧
    (c - g) * (c - g) = (1 + a + e + i) * (1 - a + e - i) ∧
    (d - b) * (d - b) = (1 + a + e + i) * (1 - a - e + i) ∧
    (b + d) * (b + d) = (1 + a - e - i) * (1 - a + e - i) ∧
    (c + g) * (c + g) = (1 + a - e - i) * (1 - a - e + i) ∧
    (f + h) * (f + h) = (1 - a + e - i) * (1 - a - e + i) ∧
    (h - f) * (c - g) = (1 + a + e + i) * (b + d) ∧
    (h - f) * (d - b) = (1 + a + e + i) * (c + g) ∧
    (c - g) * (d - b) = (1 + a + e + i) * (f + h) ∧
    (h - f) * (b + d) = (1 + a - e - i) * (c - g) ∧
    (h - f) * (c + g) = (1 + a - e - i) * (d - b) ∧
    (b + d) * (c + g) = (1 + a - e - i) * (f + h) ∧
    (c - g) * (b + d) = (1 - a + e - i) * (h - f) ∧
    (c - g) * (f + h) = (1 - a + e - i) * (d - b) ∧
    (b + d) * (f + h) = (1 - a + e - i) * (c + g) ∧
    (d - b) * (c + g) = (1 - a - e + i) * (h - f) ∧
    (d - b) * (f + h) = (1 - a - e + i) * (c - g) ∧
    (c + g) * (f + h) = (1 - a - e + i) * (b + d) := by
  obtain ⟨ca, cb, cc, cd, ce, cf, cg, ch, ci⟩ := H.cof
  obtain ⟨k00, k11, k22, k01, k02, k12⟩ := H.cols
  obtain ⟨r00, r11, r22, r01, r02, r12, det⟩ := H
  refine ⟨?_, ?_, ?_, ?_, ?_, ?_, ?_, ?_, ?_, ?_, ?_, ?_, ?_, ?_, ?_, ?_, ?_, ?_⟩ <;>
    linarith

theorem pivot_self (P σ : K) (hσ : σ * σ = P) :
    4 * ((1/4) * (2 * σ)) * ((1/4) * (2 * σ)) = P := by
  linear_combination hσ

theorem pivot_cross (σ n : K) (h0 : σ ≠ 0) :
    4 * ((1/4) * (2 * σ)) * (n / (2 * σ)) = n := by
  field_simp

theorem pivot_pair (P σ n m T : K) (hσ : σ * σ = P) (h0 : σ ≠ 0) (hnm : n * m = P * T) :
    4 * (n / (2 * σ)) * (m / (2 * σ)) = T := by
  field_simp
  linear_combination 4 * hnm - 4 * T * hσ

theorem trace_self (P σ : K) (hσ : σ * σ = P) :
    4 * ((1/4) / ((1/2) / σ)) * ((1/4) / ((1/2) / σ)) = P := by
  field_simp
  linear_combination 4 * hσ

theorem trace_cross (σ n : K) (h0 : σ ≠ 0) :
    4 * ((1/4) / ((1/2) / σ)) * (n * ((1/2) / σ)) = n := by
  field_simp

theorem trace_pair (P σ n m T : K) (hσ : σ * σ = P) (h0 : σ ≠ 0) (hnm : n * m = P * T) :
    4 * (n * ((1/2) / σ)) * (m * ((1/2) / σ)) = T := by
  field_simp
  linear_combination 4 * hnm - 4 * T * hσ

theorem sqrt_ne_zero_of_exact (sqrt : K → K) (P : K) (hP : 0 < P)
    (hs : 0 ≤ sqrt P ∧ sqrt P * sqrt P = P) : sqrt P * sqrt P = P ∧ sqrt P ≠ 0 := by
  refine ⟨hs.2, fun h0 => ?_⟩
  have h2 := hs.2
  rw [h0, mul_zero] at h2
  exact absurd h2.symm (ne_of_gt hP)

theorem sqrt_one_of_exact (sqrt : K → K) (hs : 0 ≤ sqrt 1 ∧ sqrt 1 * sqrt 1 = 1) :
    sqrt 1 = 1 := by
  obtain ⟨h1, h2⟩ := hs
  have h3 : (sqrt 1 - 1) * (sqrt 1 + 1) = 0 := by linear_combination h2
  rcases mul_eq_zero.mp h3 with h | h
  · linear_combination h
  · exfalso; linarith

theorem MatD.IsRotation.rot {R : MatD K} (hR : R.IsRotation) :
    Rot (R.data 0 0) (R.data 0 1) (R.data 0 2) (R.data 1 0) (R.data 1 1) (R.data 1 2)
      (R.data 2 0) (R.data 2 1) (R.data 2 2) :=
  ⟨hR.r00, hR.r11, hR.r22, hR.r01, hR.r02, hR.r12, hR.det⟩

theorem QuatOf.norm_sq {a b c d e f g h i w x y z : K} (Q : QuatOf a b c d e f g h i w x y z) :
    w * w + x * x + y * y + z * z = 1 := by
  linarith [Q.ww, Q.xx, Q.yy, Q.zz]

/-- The quaternion computed before normalisation is a quaternion of the rotation. -/
theorem raw_quaternion_of_rotation (sqrt : K → K) (R : MatD K)
    (hs : ∀ x ∈ sqrt_arguments R, 0 ≤ x → 0 ≤ sqrt x ∧ sqrt x * sqrt x = x)
    (hR : R.IsRotation) :
    QuatOf (R.data 0 0) (R.data 0 1) (R.data 0 2) (R.data 1 0) (R.data 1 1) (R.data 1 2)
      (R.data 2 0) (R.data 2 1) (R.data 2 2)
      (rotation_matrix_to_quaternion_raw sqrt R).q0 (rotation_matrix_to_quaternion_raw sqrt R).q1
      (rotation_matrix_to_quaternion_raw sqrt R).q2 (rotation_matrix_to_quaternion_raw sqrt R).q3 := by
  obtain ⟨p1, p2, p3, p4, p5, p6, p7, p8, p9, p10, p11, p12, p13, p14, p15, p16, p17, p18⟩ :=
    hR.rot.products
  unfold rotation_matrix_to_quaternion_raw
  simp only
  split
  · rename_i ht
    have hP : 0 < R.data 0 0 + R.data 1 1 + R.data 2 2 + 1 := by linarith
    obtain ⟨hσ, h0⟩ := sqrt_ne_zero_of_exact sqrt _ hP
      (hs _ (by simp [sqrt_arguments]) hP.le)
    refine ⟨?_, ?_, ?_, ?_, ?_, ?_, ?_, ?_, ?_, ?_⟩
    · rw [trace_self _ _ hσ]; ring
    · exact trace_pair _ _ _ _ _ hσ h0 (by linear_combination p1)
    · exact trace_pair _ _ _ _ _ hσ h0 (by linear_combination p2)
    · exact trace_pair _ _ _ _ _ hσ h0 (by linear_combination p3)
    · exact trace_cross _ _ h0
    · exact trace_cross _ _ h0
    · exact trace_cross _ _ h0
    · exact trace_pair _ _ _ _ _ hσ h0 (by linear_combination p7)
    · exact trace_pair _ _ _ _ _ hσ h0 (by linear_combination p8)
    · exact trace_pair _ _ _ _ _ hσ h0 (by linear_combination p9)
  · rename_i ht
    split
    · rename_i hx
      have hP : 0 < 1 + R.data 0 0 - R.data 1 1 - R.data 2 2 := by linarith [hx.1, hx.2]
      obtain ⟨hσ, h0⟩ := sqrt_ne_zero_of_exact sqrt _ hP
        (hs _ (by simp [sqrt_arguments]) hP.le)
      refine ⟨?_, ?_, ?_, ?_, ?_, ?_, ?_, ?_, ?_, ?_⟩
      · exact pivot_pair _ _ _ _ _ hσ h0 (by linear_combination p1)
      · exact pivot_self _ _ hσ
      · exact pivot_pair _ _ _ _ _ hσ h0 (by linear_combination p4)
      · exact pivot_pair _ _ _ _ _ hσ h0 (by linear_combination p5)
      · rw [mul_assoc, mul_comm (_ / _), ← mul_assoc]; exact pivot_cross _ _ h0
      · exact pivot_pair _ _ _ _ _ hσ h0 (by linear_combination p10)
      · exact pivot_pair _ _ _ _ _ hσ h0 (by linear_combination p11)
      · exact pivot_cross _ _ h0
      · exact pivot_cross _ _ h0
      · exact pivot_pair _ _ _ _ _ hσ h0 (by linear_combination p12)
    · rename_i hx
      split
      · rename_i hy
        have hmax : R.data 0 0 ≤ R.data 1 1 := by
          by_contra hc
          exact hx ⟨not_le.mp hc, lt_trans hy (not_le.mp hc)⟩
        have hP : 0 < 1 + R.data 1 1 - R.data 0 0 - R.data 2 2 := by linarith
        obtain ⟨hσ, h0⟩ := sqrt_ne_zero_of_exact sqrt _ hP
          (hs _ (by simp [sqrt_arguments]) hP.le)
        refine ⟨?_, ?_, ?_, ?_, ?_, ?_, ?_, ?_, ?_, ?_⟩
        · exact pivot_pair _ _ _ _ _ hσ h0 (by linear_combination p2)
        · exact pivot_pair _ _ _ _ _ hσ h0 (by linear_combination p4)
        · rw [pivot_self _ _ hσ]; ring
        · exact pivot_pair _ _ _ _ _ hσ h0 (by linear_combination p6)
        · exact pivot_pair _ _ _ _ _ hσ h0 (by linear_combination p13)
        · rw [mul_assoc, mul_comm (_ / _), ← mul_assoc]; exact pivot_cross _ _ h0
        · exact pivot_pair _ _ _ _ _ hσ h0 (by linear_combination p14)
        · rw [mul_assoc, mul_comm (_ / _), ← mul_assoc]; exact pivot_cross _ _ h0
        · exact pivot_pair _ _ _ _ _ hσ h0 (by linear_combination p15)
        · exact pivot_cross _ _ h0
      · rename_i hy
        have hyz : R.data 1 1 ≤ R.data 2 2 := not_lt.mp hy
        have hxz : R.data 0 0 ≤ R.data 2 2 := by
          by_contra hc
          exact hx ⟨lt_of_le_of_lt hyz (not_le.mp hc), not_le.mp hc⟩
        have hP : 0 < 1 + R.data 2 2 - R.data 0 0 - R.data 1 1 := by linarith
        obtain ⟨hσ, h0⟩ := sqrt_ne_zero_of_exact sqrt _ hP
          (hs _ (by simp [sqrt_arguments]) hP.le)
        refine ⟨?_, ?_, ?_, ?_, ?_, ?_, ?_, ?_, ?_, ?_⟩
        · exact pivot_pair _ _ _ _ _ hσ h0 (by linear_combination p3)
        · exact pivot_pair _ _ _ _ _ hσ h0 (by linear_combination p5)
        · exact pivot_pair _ _ _ _ _ hσ h0 (by linear_combination p6)
        · rw [pivot_self _ _ hσ]; ring
        · exact pivot_pair _ _ _ _ _ hσ h0 (by linear_combination p16)
        · exact pivot_pair _ _ _ _ _ hσ h0 (by linear_combination p17)
        · rw [mul_assoc, mul_comm (_ / _), ← mul_assoc]; exact pivot_cross _ _ h0
        · exact pivot_pair _ _ _ _ _ hσ h0 (by linear_combination p18)
        · rw [mul_assoc, mul_comm (_ / _), ← mul_assoc]; exact pivot_cross _ _ h0
        · rw [mul_assoc, mul_comm (_ / _), ← mul_assoc]; exact pivot_cross _ _ h0

theorem Vec4d.div_one (q : Vec4d K) : q.div 1 = q := by
  cases q
  simp [Vec4d.div]

theorem rotation_matrix_to_quaternion_eq_raw (sqrt : K → K) (R : MatD K)
    (hs : ∀ x ∈ sqrt_arguments R, 0 ≤ x → 0 ≤ sqrt x ∧ sqrt x * sqrt x = x)
    (hR : R.IsRotation) :
    rotation_matrix_to_quaternion sqrt R = rotation_matrix_to_quaternion_raw sqrt R ∧
    (rotation_matrix_to_quaternion_raw sqrt R).norm sqrt = 1 := by
  have hn : (rotation_matrix_to_quaternion_raw sqrt R).norm sqrt = 1 := by
    unfold Vec4d.norm
    rw [(raw_quaternion_of_rotation sqrt R hs hR).norm_sq]
    exact sqrt_one_of_exact sqrt (hs 1 (by simp [sqrt_arguments]) zero_le_one)
  refine ⟨?_, hn⟩
  unfold rotation_matrix_to_quaternion
  rw [if_neg (by simp [hR.rows, hR.cols])]
  simp only
  rw [hn, if_pos (by norm_num), Vec4d.div_one]

/-- A quaternion of norm 1 whose products are those of the rotation `R` is mapped back to a
3 x 3 matrix with the entries of `R`. -/
theorem quaternion_back (sqrt : K → K) (R : MatD K) (q : Vec4d K) (hn : q.norm sqrt = 1)
    (Q : QuatOf (R.data 0 0) (R.data 0 1) (R.data 0 2) (R.data 1 0) (R.data 1 1) (R.data 1 2)
      (R.data 2 0) (R.data 2 1) (R.data 2 2) q.q0 q.q1 q.q2 q.q3) :
    (quaternion_to_rotation_matrix sqrt q).rows = 3 ∧
    (quaternion_to_rotation_matrix sqrt q).cols = 3 ∧
    ∀ r c : Nat, r < 3 → c < 3 → (quaternion_to_rotation_matrix sqrt q).data r c = R.data r c := by
  unfold quaternion_to_rotation_matrix
  simp only
  rw [hn, if_neg (by norm_num), Vec4d.div_one]
  refine ⟨rfl, rfl, ?_⟩
  intro r c hr hc
  interval_cases r <;> interval_cases c <;> simp only
  · linarith [Q.yy, Q.zz]
  · linarith [Q.xy, Q.wz]
  · linarith [Q.xz, Q.wy]
  · linarith [Q.xy, Q.wz]
  · linarith [Q.xx, Q.zz]
  · linarith [Q.yz, Q.wx]
  · linarith [Q.xz, Q.wy]
  · linarith [Q.yz, Q.wx]
  · linarith [Q.xx, Q.yy]

/-- Over the real numbers, with the real square root, the round trip holds for every rotation
matrix. -/
theorem quaternion_roundtrip_real (R : MatD ℝ) (hR : R.IsRotation) :
    (rotation_matrix_to_quaternion Real.sqrt R).norm Real.sqrt = 1 ∧
    ∀ r c : Nat, r < 3 → c < 3 →
      (quaternion_to_rotation_matrix Real.sqrt (rotation_matrix_to_quaternion Real.sqrt R)).data
        r c = R.data r c := by
  have hs : ∀ x ∈ sqrt_arguments R, 0 ≤ x → 0 ≤ Real.sqrt x ∧ Real.sqrt x * Real.sqrt x = x :=
    fun x _ hx => ⟨Real.sqrt_nonneg x, Real.mul_self_sqrt hx⟩
  obtain ⟨heq, hn⟩ := rotation_matrix_to_quaternion_eq_raw Real.sqrt R hs hR
  rw [heq]
  exact ⟨hn, (quaternion_back Real.sqrt R _ hn (raw_quaternion_of_rotation Real.sqrt R hs hR)).2.2⟩
end

/-- C18: for every rotation matrix `R` (3 x 3, `R * Rᵀ = I`, `det R = 1`), in exact arithmetic
(a `sqrt` that is exact on the arguments the two functions pass to it), the quaternion
returned by `rotation_matrix_to_quaternion` has unit norm (the sum of its squared components
is 1, and so is `cv::norm`), and `quaternion_to_rotation_matrix` maps it to a 3 x 3 matrix
with the entries of `R`. -/
theorem quaternion_roundtrip {K : Type} [LinearOrderedField K] (sqrt : K → K) (R : MatD K)
    (hs : ∀ x ∈ sqrt_arguments R, 0 ≤ x → 0 ≤ sqrt x ∧ sqrt x * sqrt x = x)
    (hR : R.IsRotation) :
    (rotation_matrix_to_quaternion sqrt R).q0 * (rotation_matrix_to_quaternion sqrt R).q0 +
      (rotation_matrix_to_quaternion sqrt R).q1 * (rotation_matrix_to_quaternion sqrt R).q1 +
      (rotation_matrix_to_quaternion sqrt R).q2 * (rotation_matrix_to_quaternion sqrt R).q2 +
      (rotation_matrix_to_quaternion sqrt R).q3 * (rotation_matrix_to_quaternion sqrt R).q3 = 1 ∧
    (rotation_matrix_to_quaternion sqrt R).norm sqrt = 1 ∧
    (quaternion_to_rotation_matrix sqrt (rotation_matrix_to_quaternion sqrt R)).rows = 3 ∧
    (quaternion_to_rotation_matrix sqrt (rotation_matrix_to_quaternion sqrt R)).cols = 3 ∧
    ∀ r c : Nat, r < 3 → c < 3 →
      (quaternion_to_rotation_matrix sqrt (rotation_matrix_to_quaternion sqrt R)).data r c
        = R.data r c := by
  obtain ⟨heq, hn⟩ := rotation_matrix_to_quaternion_eq_raw sqrt R hs hR
  have Q := raw_quaternion_of_rotation sqrt R hs hR
  have hback := quaternion_back sqrt R _ hn Q
  rw [heq]
  exact ⟨Q.norm_sq, hn, hback.1, hback.2.1, hback.2.2⟩

/-! ## Claims on the stereo matcher parameters -/

theorem tdiv_of_nonpos (a b : Int) (ha : a ≤ 0) (hb : 0 ≤ b) : a.tdiv b = -((-a) / b) := by
  have h := Int.neg_tdiv (-a) b
  rw [neg_neg] at h
  rw [h, Int.tdiv_eq_ediv (by omega) hb]

theorem tmod_eq_sub (a b : Int) : a.tmod b = a - b * a.tdiv b := by
  have := Int.tmod_add_tdiv a b
  omega

theorem validate_numDisparities_spec (n : Int) (hlo : INT_MIN ≤ n) (hhi : n ≤ 2147483632) :
    ∃ m, validate_numDisparities n = some m ∧ 0 < m ∧ m % 16 = 0 ∧ m ≤ INT_MAX ∧
      (0 < n → n % 16 = 0 → m = n) := by
  unfold INT_MIN at hlo
  unfold validate_numDisparities int_result INT_MIN INT_MAX
  rcases le_or_lt n 0 with hn | hn
  · rw [if_pos (Or.inl hn), tdiv_of_nonpos n 16 hn (by norm_num)]
    rw [if_pos (by constructor <;> omega)]
    simp only
    refine ⟨_, rfl, ?_, ?_, ?_, ?_⟩
    · split <;> omega
    · split <;> omega
    · split <;> omega
    · intro h; omega
  · have hmod : Int.tmod n 16 = n % 16 := Int.tmod_eq_emod hn.le (by norm_num)
    have hdiv : Int.tdiv n 16 = n / 16 := Int.tdiv_eq_ediv hn.le (by norm_num)
    rw [hmod, hdiv]
    by_cases h16 : n % 16 = 0
    · rw [if_neg (by omega)]
      exact ⟨n, rfl, hn, h16, by omega, fun _ _ => rfl⟩
    · rw [if_pos (Or.inr h16), if_pos (by constructor <;> omega)]
      simp only
      refine ⟨_, rfl, ?_, ?_, ?_, ?_⟩
      · split <;> omega
      · split <;> omega
      · split <;> omega
      · intro _ h; exact absurd h h16

theorem validate_blockSize_spec (b : Int) (hlo : INT_MIN ≤ b) (hhi : b ≤ INT_MAX) :
    ∃ m, validate_blockSize b = some m ∧ m % 2 = 1 ∧ 1 ≤ m ∧ m ≤ INT_MAX ∧
      (b % 2 = 1 → 1 ≤ b → m = b) := by
  unfold INT_MIN at hlo
  unfold INT_MAX at hhi
  unfold validate_blockSize int_result INT_MIN INT_MAX
  rw [tmod_eq_sub]
  rcases le_or_lt b 0 with hn | hn
  · rw [tdiv_of_nonpos b 2 hn (by norm_num)]
    by_cases h2 : b - 2 * -(-b / 2) = 0
    · rw [if_pos h2, if_pos (by constructor <;> omega)]
      simp only
      exact ⟨_, rfl, by split <;> omega, by split <;> omega, by split <;> omega,
        fun _ h => by omega⟩
    · rw [if_neg h2]
      simp only
      exact ⟨_, rfl, by split <;> omega, by split <;> omega, by split <;> omega,
        fun _ h => by omega⟩
  · rw [Int.tdiv_eq_ediv hn.le (by norm_num)]
    by_cases h2 : b - 2 * (b / 2) = 0
    · rw [if_pos h2, if_pos (by constructor <;> omega)]
      simp only
      exact ⟨_, rfl, by split <;> omega, by split <;> omega, by split <;> omega,
        fun h _ => by omega⟩
    · rw [if_neg h2]
      simp only
      exact ⟨_, rfl, by split <;> omega, by split <;> omega, by split <;> omega,
        fun _ _ => by rw [if_neg (by omega)]⟩

/-- C19: for every `SgbmParams` value with `int` members on which `validate` does not
overflow (`numDisparities <= 2147483632`), `validate` returns, and afterwards `numDisparities`
is positive and divisible by 16 and `blockSize` is odd and at least 1; no other member
changes; parameters that already satisfy these conditions are left unchanged; and validating
the result again changes nothing (`validate` is idempotent). -/
theorem sgbm_validate_valid (p : SgbmParams)
    (hn : INT_MIN ≤ p.numDisparities ∧ p.numDisparities ≤ 2147483632)
    (hb : INT_MIN ≤ p.blockSize ∧ p.blockSize ≤ INT_MAX) :
    ∃ p', p.validate = some p' ∧ p'.valid ∧
      p' = { p with numDisparities := p'.numDisparities, blockSize := p'.blockSize } ∧
      (p.valid → p' = p) ∧
      p'.validate = some p' := by
  obtain ⟨n, hn1, hn2, hn3, hn4, hn5⟩ := validate_numDisparities_spec p.numDisparities hn.1 hn.2
  obtain ⟨b, hb1, hb2, hb3, hb4, hb5⟩ := validate_blockSize_spec p.blockSize hb.1 hb.2
  have hINT : INT_MIN ≤ 0 := by decide
  obtain ⟨n', hn1', _, _, _, hn5'⟩ :=
    validate_numDisparities_spec n (by unfold INT_MIN; omega) (by unfold INT_MAX at hn4; omega)
  obtain ⟨b', hb1', _, _, _, hb5'⟩ :=
    validate_blockSize_spec b (by unfold INT_MIN; omega) hb4
  refine ⟨{ p with numDisparities := n, blockSize := b }, ?_, ⟨hn2, hn3, hb2, hb3⟩, rfl, ?_, ?_⟩
  · unfold SgbmParams.validate
    rw [hn1, hb1]
  · intro hv
    obtain ⟨v1, v2, v3, v4⟩ := hv
    rw [hn5 v1 v2, hb5 v3 v4]
  · unfold SgbmParams.validate
    simp only
    rw [hn1', hb1', hn5' hn2 hn3, hb5' hb2 hb3]

/-! ## Claims on the candidate extraction -/

theorem foldl_argmax {α : Type} (val : α → ℚ) :
    ∀ (l : List α) (init : α),
      val init ≤ val (l.foldl (fun best p => if decide (val best < val p) then p else best) init) ∧
      ∀ p ∈ l,
        val p ≤ val (l.foldl (fun best p => if decide (val best < val p) then p else best) init) := by
  intro l
  induction l with
  | nil => intro init; exact ⟨le_refl _, fun p hp => by simp at hp⟩
  | cons a rest ih =>
    intro init
    simp only [List.foldl_cons, List.mem_cons, forall_eq_or_imp]
    by_cases h : val init < val a
    · simp only [h, decide_True, if_true]
      obtain ⟨h1, h2⟩ := ih a
      exact ⟨le_trans h.le h1, h1, h2⟩
    · simp only [h, decide_False, Bool.false_eq_true, if_false]
      obtain ⟨h1, h2⟩ := ih init
      exact ⟨h1, le_trans (not_lt.mp h) h1, h2⟩

theorem minMaxLoc_max (m : Mat) (hr : 0 < m.rows) (hc : 0 < m.cols) :
    ∃ r c : Nat, r < m.rows ∧ c < m.cols ∧
      (minMaxLoc m).max_loc = ⟨(c : Int), (r : Int)⟩ ∧ (minMaxLoc m).max_val = m.data r c ∧
      ∀ r' c', r' < m.rows → c' < m.cols → m.data r' c' ≤ m.data r c := by
  have hb := m.argBest_in_bounds (fun v b => decide (b < v)) hr hc
  refine ⟨(m.argBest (fun v b => decide (b < v))).1, (m.argBest (fun v b => decide (b < v))).2,
    hb.1, hb.2, rfl, rfl, ?_⟩
  intro r' c' hr' hc'
  have h := (foldl_argmax (fun p : Nat × Nat => m.data p.1 p.2) m.positions (0, 0)).2 (r', c')
    ((m.mem_positions (r', c')).mpr ⟨hr', hc'⟩)
  exact h

/-- What one window does: the state is unchanged, or the window is non-empty, its maximum
exceeds the threshold and a candidate at a maximum of the window is pushed. In both cases a
maximum above the threshold ends up registered. -/
theorem scan_window_cases (corr_map : Mat) (step : Int) (threshold : ℚ) (i j : Int)
    (st : ScanState) (rr : Rect)
    (hrr : rr = Rect.inter ⟨j, i, step, step⟩ ⟨0, 0, corr_map.cols, corr_map.rows⟩) :
    (rr.area = 0 ∧ scan_window corr_map step threshold i j st = st) ∨
    (rr.area ≠ 0 ∧ ∃ x y : Nat,
      rr.x ≤ x ∧ (x : Int) < rr.x + rr.width ∧ rr.y ≤ y ∧ (y : Int) < rr.y + rr.height ∧
      x < corr_map.cols ∧ y < corr_map.rows ∧
      (∀ x' y' : Nat, rr.x ≤ x' → (x' : Int) < rr.x + rr.width → rr.y ≤ y' →
        (y' : Int) < rr.y + rr.height → corr_map.data y' x' ≤ corr_map.data y x) ∧
      ((¬ corr_map.data y x > threshold ∧ scan_window corr_map step threshold i j st = st) ∨
       (corr_map.data y x > threshold ∧ ((y : Int), (x : Int)) ∈ st.checked_max_coords ∧
          scan_window corr_map step threshold i j st = st) ∨
       (corr_map.data y x > threshold ∧ ((y : Int), (x : Int)) ∉ st.checked_max_coords ∧
          scan_window corr_map step threshold i j st =
            { candidates := st.candidates ++ [⟨⟨(x : ℚ), (y : ℚ)⟩, corr_map.data y x⟩],
              checked_max_coords := ((y : Int), (x : Int)) :: st.checked_max_coords }))) := by
  by_cases ha : rr.area = 0
  · left
    refine ⟨ha, ?_⟩
    unfold scan_window
    simp only
    rw [← hrr, if_pos ha]
  · right
    refine ⟨ha, ?_⟩
    obtain ⟨hx, hy, hw, hh, hxw, hyh⟩ : 0 ≤ rr.x ∧ 0 ≤ rr.y ∧ 0 < rr.width ∧ 0 < rr.height ∧
        rr.x + rr.width ≤ corr_map.cols ∧ rr.y + rr.height ≤ corr_map.rows := by
      rw [hrr] at ha ⊢
      exact Rect.inter_bounds j i step corr_map.cols corr_map.rows ha
    have hrows : 0 < (corr_map.roi rr).rows := by
      simp only [Mat.roi]; omega
    have hcols : 0 < (corr_map.roi rr).cols := by
      simp only [Mat.roi]; omega
    obtain ⟨r, c, hr, hc, hloc, hval, hmax⟩ := minMaxLoc_max (corr_map.roi rr) hrows hcols
    have hval2 : (minMaxLoc (corr_map.roi rr)).max_val
        = corr_map.data (r + rr.y.toNat) (c + rr.x.toNat) := hval
    simp only [Mat.roi] at hr hc hmax
    have hxe : ((c + rr.x.toNat : Nat) : Int) = (c : Int) + rr.x := by
      push_cast; rw [Int.toNat_of_nonneg hx]
    have hye : ((r + rr.y.toNat : Nat) : Int) = (r : Int) + rr.y := by
      push_cast; rw [Int.toNat_of_nonneg hy]
    refine ⟨c + rr.x.toNat, r + rr.y.toNat, by omega, by omega, by omega, by omega, by omega,
      by omega, ?_, ?_⟩
    · intro x' y' h1 h2 h3 h4
      have := hmax (y' - rr.y.toNat) (x' - rr.x.toNat) (by omega) (by omega)
      have e1 : y' - rr.y.toNat + rr.y.toNat = y' := by omega
      have e2 : x' - rr.x.toNat + rr.x.toNat = x' := by omega
      rw [e1, e2] at this
      exact this
    · unfold scan_window
      simp only
      rw [← hrr, if_neg ha]
      show _ ∨ _ ∨ _
      rw [hloc, hval2]
      simp only
      by_cases ht : corr_map.data (r + rr.y.toNat) (c + rr.x.toNat) > threshold
      · right
        rw [if_pos ht, ← hxe, ← hye]
        by_cases hm : (((r + rr.y.toNat : Nat) : Int), ((c + rr.x.toNat : Nat) : Int))
            ∈ st.checked_max_coords
        · left
          exact ⟨ht, hm, by rw [if_pos hm]⟩
        · right
          refine ⟨ht, hm, ?_⟩
          rw [if_neg hm]
          simp only [Int.cast_natCast]
      · left
        exact ⟨ht, by rw [if_neg ht]⟩

theorem scan_inv_window (corr_map : Mat) (step : Int) (threshold : ℚ) (i j : Int)
    (st : ScanState) (h : scan_inv corr_map threshold st) :
    scan_inv corr_map threshold (scan_window corr_map step threshold i j st) := by
  rcases scan_window_cases corr_map step threshold i j st _ rfl with
    ⟨_, he⟩ | ⟨_, x, y, _, _, _, _, hxc, hyr, _, hcase⟩
  · rw [he]; exact h
  · rcases hcase with ⟨_, he⟩ | ⟨_, _, he⟩ | ⟨ht, hm, he⟩
    · rw [he]; exact h
    · rw [he]; exact h
    · rw [he]
      obtain ⟨h1, h2, h3, h4⟩ := h
      refine ⟨?_, ?_, ?_, ?_⟩
      · intro cand hc
        rcases List.mem_append.mp hc with hc | hc
        · exact h1 cand hc
        · rw [List.mem_singleton.mp hc]
          exact ⟨x, y, hxc, hyr, rfl, rfl, ht⟩
      · intro cand hc
        rcases List.mem_append.mp hc with hc | hc
        · obtain ⟨x', y', hp, hmem⟩ := h2 cand hc
          exact ⟨x', y', hp, List.mem_cons_of_mem _ hmem⟩
        · rw [List.mem_singleton.mp hc]
          exact ⟨x, y, by simp, List.mem_cons_self _ _⟩
      · intro yx hyx
        rcases List.mem_cons.mp hyx with hyx | hyx
        · exact ⟨_, List.mem_append_right _ (List.mem_singleton_self _), by rw [hyx]; simp⟩
        · obtain ⟨cand, hc, hp⟩ := h3 yx hyx
          exact ⟨cand, List.mem_append_left _ hc, hp⟩
      · rw [List.pairwise_append]
        refine ⟨h4, List.pairwise_singleton _ _, ?_⟩
        intro a ha b hb
        rw [List.mem_singleton.mp hb]
        obtain ⟨x', y', hp, hmem⟩ := h2 a ha
        intro heq
        rw [hp] at heq
        simp only [Point2f.mk.injEq] at heq
        have ex : x' = (x : Int) := by exact_mod_cast heq.1
        have ey : y' = (y : Int) := by exact_mod_cast heq.2
        rw [ex, ey] at hmem
        exact hm hmem

theorem scan_inv_init (corr_map : Mat) (threshold : ℚ) : scan_inv corr_map threshold ⟨[], []⟩ :=
  ⟨fun _ h => by simp at h, fun _ h => by simp at h, fun _ h => by simp at h, List.Pairwise.nil⟩

/-- C21: with enough fuel for the two loops and `step >= 2`, `get_corner_candidates_custom`
returns a list in which every candidate has natural-number coordinates `(x, y)` inside the map,
a score equal to the map value at row `y`, column `x` and strictly greater than the threshold,
and in which no two candidates have the same coordinates. -/
theorem corner_candidates_valid (fuel : Nat) (corr_map : Mat) (step : Int) (threshold : ℚ)
    (hstep : 2 ≤ step) (hf : corr_map.rows < fuel ∧ corr_map.cols < fuel) :
    ∃ cands, get_corner_candidates_custom fuel corr_map step threshold = some cands ∧
      (∀ cand ∈ cands, ∃ x y : Nat, x < corr_map.cols ∧ y < corr_map.rows ∧
        cand.point = ⟨(x : ℚ), (y : ℚ)⟩ ∧ cand.score = corr_map.data y x ∧
        cand.score > threshold) ∧
      List.Pairwise (fun a b : CornerCandidate => a.point ≠ b.point) cands := by
  obtain ⟨cands, hc, hcase⟩ := get_corner_candidates_inv fuel corr_map step threshold
    (scan_inv corr_map threshold) (fun i j st h => scan_inv_window corr_map step threshold i j st h)
    (scan_inv_init corr_map threshold) hstep hf
  refine ⟨cands, hc, ?_⟩
  rcases hcase with h | ⟨st, hst, hcs⟩
  · rw [h]
    exact ⟨fun _ h => by simp at h, List.Pairwise.nil⟩
  · rw [← hcs]
    exact ⟨hst.1, hst.2.2.2⟩
theorem scan_window_mono (corr_map : Mat) (step : Int) (threshold : ℚ) (i j : Int)
    (st : ScanState) (cand : CornerCandidate) (h : cand ∈ st.candidates) :
    cand ∈ (scan_window corr_map step threshold i j st).candidates := by
  rcases scan_window_cases corr_map step threshold i j st _ rfl with
    ⟨_, he⟩ | ⟨_, x, y, _, _, _, _, _, _, _, hcase⟩
  · rw [he]; exact h
  · rcases hcase with ⟨_, he⟩ | ⟨_, _, he⟩ | ⟨_, _, he⟩
    · rw [he]; exact h
    · rw [he]; exact h
    · rw [he]; exact List.mem_append_left _ h

theorem scan_has_window (corr_map : Mat) (step : Int) (threshold M : ℚ) (i j : Int)
    (st : ScanState) (h : scan_has corr_map M st) :
    scan_has corr_map M (scan_window corr_map step threshold i j st) := by
  obtain ⟨cand, hc, hrest⟩ := h
  exact ⟨cand, scan_window_mono corr_map step threshold i j st cand hc, hrest⟩

/-- A window that contains a pixel with the global maximum `M > threshold` registers a
candidate of score `M`, unless one is registered already. -/
theorem scan_window_hit (corr_map : Mat) (step : Int) (threshold : ℚ) (i j : Int)
    (st : ScanState) (ys xs : Nat) (hys : ys < corr_map.rows) (hxs : xs < corr_map.cols)
    (hmax : ∀ r c, r < corr_map.rows → c < corr_map.cols →
      corr_map.data r c ≤ corr_map.data ys xs)
    (ht : corr_map.data ys xs > threshold)
    (hi : i ≤ ys ∧ (ys : Int) < i + step) (hj : j ≤ xs ∧ (xs : Int) < j + step)
    (hinv : scan_inv corr_map threshold st) :
    scan_has corr_map (corr_map.data ys xs) (scan_window corr_map step threshold i j st) := by
  have hrr : (Rect.inter ⟨j, i, step, step⟩ ⟨0, 0, corr_map.cols, corr_map.rows⟩).x ≤ xs ∧
      (xs : Int) < (Rect.inter ⟨j, i, step, step⟩ ⟨0, 0, corr_map.cols, corr_map.rows⟩).x +
        (Rect.inter ⟨j, i, step, step⟩ ⟨0, 0, corr_map.cols, corr_map.rows⟩).width ∧
      (Rect.inter ⟨j, i, step, step⟩ ⟨0, 0, corr_map.cols, corr_map.rows⟩).y ≤ ys ∧
      (ys : Int) < (Rect.inter ⟨j, i, step, step⟩ ⟨0, 0, corr_map.cols, corr_map.rows⟩).y +
        (Rect.inter ⟨j, i, step, step⟩ ⟨0, 0, corr_map.cols, corr_map.rows⟩).height ∧
      (Rect.inter ⟨j, i, step, step⟩ ⟨0, 0, corr_map.cols, corr_map.rows⟩).area ≠ 0 := by
    unfold Rect.inter Rect.area
    simp only
    have hx1 : (xs : Int) + 1 ≤ min (j + step) (0 + (corr_map.cols : Int)) :=
      le_min (by omega) (by omega)
    have hx2 : max j 0 ≤ (xs : Int) := max_le hj.1 (by omega)
    have hy1 : (ys : Int) + 1 ≤ min (i + step) (0 + (corr_map.rows : Int)) :=
      le_min (by omega) (by omega)
    have hy2 : max i 0 ≤ (ys : Int) := max_le hi.1 (by omega)
    have h1 : ¬ (min (j + step) (0 + (corr_map.cols : Int)) - max j 0 ≤ 0 ∨
        min (i + step) (0 + (corr_map.rows : Int)) - max i 0 ≤ 0) := by
      rw [not_or]
      constructor <;> omega
    rw [if_neg h1]
    simp only
    rw [not_or] at h1
    refine ⟨hx2, by omega, hy2, by omega, ?_⟩
    exact mul_ne_zero (by omega) (by omega)
  rcases scan_window_cases corr_map step threshold i j st _ rfl with
    ⟨ha, _⟩ | ⟨_, x, y, _, _, _, _, hxc, hyr, hwin, hcase⟩
  · exact absurd ha hrr.2.2.2.2
  · have hge := hwin xs ys hrr.1 hrr.2.1 hrr.2.2.1 hrr.2.2.2.1
    have hle := hmax y x hyr hxc
    have hM : corr_map.data y x = corr_map.data ys xs := le_antisymm hle hge
    rcases hcase with ⟨hn, _⟩ | ⟨_, hm, he⟩ | ⟨_, _, he⟩
    · rw [hM] at hn
      exact absurd ht hn
    · rw [he]
      obtain ⟨cand, hc, hp⟩ := hinv.2.2.1 _ hm
      obtain ⟨x', y', hx', hy', hp', hs', _⟩ := hinv.1 cand hc
      simp only at hp
      rw [hp'] at hp
      simp only [Point2f.mk.injEq, Int.cast_natCast, Nat.cast_inj] at hp
      rw [hp.1, hp.2] at hs'
      exact ⟨cand, hc, by rw [hs', hM], x, y, hxc, hyr, by rw [hp', hp.1, hp.2], hM⟩
    · rw [he]
      exact ⟨_, List.mem_append_right _ (List.mem_singleton_self _), hM, x, y, hxc, hyr, rfl, hM⟩

/-- The column loop started at `j`, with stride `s >= 1`, visits the column `j + k * s` when
that is inside the map: if the window there establishes `Q` and every window keeps `P` and
`Q`, the loop ends in a state with `P` and `Q`. -/
theorem scan_cols_hit (corr_map : Mat) (step : Int) (threshold : ℚ) (i : Int)
    (P Q : ScanState → Prop)
    (hP : ∀ j st, P st → P (scan_window corr_map step threshold i j st))
    (hQ : ∀ j st, Q st → Q (scan_window corr_map step threshold i j st))
    (hstep : 1 ≤ Int.tdiv step 2) (j0 : Int) (hj0 : j0 < corr_map.cols)
    (hhit : ∀ st, P st → Q (scan_window corr_map step threshold i j0 st)) :
    ∀ (fuel : Nat) (k : Nat) (j : Int) (st : ScanState),
      ((corr_map.cols : Int) - j).toNat < fuel → P st → j0 = j + k * Int.tdiv step 2 →
      ∃ st1, scan_cols corr_map step threshold i fuel j st = some st1 ∧ P st1 ∧ Q st1 := by
  intro fuel
  induction fuel with
  | zero => intro k j st h; omega
  | succ n ih =>
    intro k j st h hst hk
    unfold scan_cols
    have hjle : j ≤ j0 := by
      rw [hk]
      have := mul_nonneg (Int.ofNat_nonneg k) (le_trans zero_le_one hstep)
      omega
    rw [if_pos (by omega)]
    cases k with
    | zero =>
      have hj : j = j0 := by rw [hk]; simp
      obtain ⟨st1, h1, hp1⟩ := scan_cols_inv corr_map step threshold i (fun s => P s ∧ Q s)
        (fun j st h => ⟨hP j st h.1, hQ j st h.2⟩) hstep n (j + Int.tdiv step 2)
        (scan_window corr_map step threshold i j st) (by omega)
        ⟨hP j st hst, by rw [hj]; exact hhit st hst⟩
      exact ⟨st1, h1, hp1⟩
    | succ k =>
      have hlt : j + Int.tdiv step 2 ≤ j0 := by
        rw [hk]
        have := mul_nonneg (Int.ofNat_nonneg k) (le_trans zero_le_one hstep)
        push_cast
        nlinarith
      exact ih k (j + Int.tdiv step 2) (scan_window corr_map step threshold i j st) (by omega)
        (hP j st hst) (by rw [hk]; push_cast; ring)

theorem scan_rows_hit (corr_map : Mat) (step : Int) (threshold : ℚ) (col_fuel : Nat)
    (P Q : ScanState → Prop)
    (hP : ∀ i j st, P st → P (scan_window corr_map step threshold i j st))
    (hQ : ∀ i j st, Q st → Q (scan_window corr_map step threshold i j st))
    (hstep : 1 ≤ Int.tdiv step 2) (hcf : corr_map.cols < col_fuel)
    (i0 j0 : Int) (kj : Nat) (hi0 : i0 < corr_map.rows) (hj0 : j0 < corr_map.cols)
    (hkj : j0 = 0 + kj * Int.tdiv step 2)
    (hhit : ∀ st, P st → Q (scan_window corr_map step threshold i0 j0 st)) :
    ∀ (fuel : Nat) (k : Nat) (i : Int) (st : ScanState),
      ((corr_map.rows : Int) - i).toNat < fuel → P st → i0 = i + k * Int.tdiv step 2 →
      ∃ st1, scan_rows corr_map step threshold col_fuel fuel i st = some st1 ∧ P st1 ∧ Q st1 := by
  intro fuel
  induction fuel with
  | zero => intro k i st h; omega
  | succ n ih =>
    intro k i st h hst hk
    unfold scan_rows
    have hile : i ≤ i0 := by
      rw [hk]
      have := mul_nonneg (Int.ofNat_nonneg k) (le_trans zero_le_one hstep)
      omega
    rw [if_pos (by omega)]
    cases k with
    | zero =>
      have hi : i = i0 := by rw [hk]; simp
      obtain ⟨st1, h1, hp1, hq1⟩ := scan_cols_hit corr_map step threshold i P Q (hP i) (hQ i)
        hstep j0 hj0 (by rw [hi]; exact hhit) col_fuel kj 0 st (by simpa using hcf) hst hkj
      rw [h1]
      simp only
      obtain ⟨st2, h2, hp2⟩ := scan_rows_inv corr_map step threshold col_fuel
        (fun s => P s ∧ Q s) (fun i j st h => ⟨hP i j st h.1, hQ i j st h.2⟩) hstep hcf n
        (i + Int.tdiv step 2) st1 (by omega) ⟨hp1, hq1⟩
      exact ⟨st2, h2, hp2⟩
    | succ k =>
      obtain ⟨st1, h1, hp1⟩ := scan_cols_inv corr_map step threshold i P (hP i) hstep
        col_fuel 0 st (by simpa using hcf) hst
      rw [h1]
      simp only
      exact ih k (i + Int.tdiv step 2) st1 (by omega) hp1 (by rw [hk]; push_cast; ring)

/-- C26: for a non-empty `CV_32F` map, `step >= 2` and enough fuel, the value `M` that
`minMaxLoc` reports as maximum bounds every entry of the map, and when `M` exceeds the threshold
(in particular for the threshold `M * 0.2` with `M > 0`) the returned list holds a candidate
with score `M` located at a pixel where the map has the value `M`. -/
theorem strongest_response_found (fuel : Nat) (corr_map : Mat) (step : Int) (threshold : ℚ)
    (hne : corr_map.empty = false) (htype : corr_map.isCV_32F = true)
    (hstep : 2 ≤ step) (hf : corr_map.rows < fuel ∧ corr_map.cols < fuel)
    (hM : (minMaxLoc corr_map).max_val > threshold ∨
      (0 < (minMaxLoc corr_map).max_val ∧ threshold = (minMaxLoc corr_map).max_val * (2/10))) :
    (∀ r c, r < corr_map.rows → c < corr_map.cols →
      corr_map.data r c ≤ (minMaxLoc corr_map).max_val) ∧
    ∃ cands, get_corner_candidates_custom fuel corr_map step threshold = some cands ∧
      ∃ cand ∈ cands, cand.score = (minMaxLoc corr_map).max_val ∧
        ∃ x y : Nat, x < corr_map.cols ∧ y < corr_map.rows ∧
          cand.point = ⟨(x : ℚ), (y : ℚ)⟩ ∧
          corr_map.data y x = (minMaxLoc corr_map).max_val := by
  have hM : (minMaxLoc corr_map).max_val > threshold := by
    rcases hM with h | ⟨h0, ht⟩
    · exact h
    · rw [ht]; linarith
  obtain ⟨hr, hc⟩ := (corr_map.empty_eq_false).mp hne
  obtain ⟨ys, xs, hys, hxs, _, hval, hmax⟩ := minMaxLoc_max corr_map hr hc
  rw [hval] at hM ⊢
  refine ⟨hmax, ?_⟩
  have hd : Int.tdiv step 2 = step / 2 := Int.tdiv_eq_ediv (by omega) (by omega)
  have hs1 : 1 ≤ Int.tdiv step 2 := by omega
  have hdiv : ∀ n : Nat, ∃ k : Nat, ((k : Int) * Int.tdiv step 2 ≤ n) ∧
      (n : Int) < (k : Int) * Int.tdiv step 2 + step := by
    intro n
    refine ⟨((n : Int) / Int.tdiv step 2).toNat, ?_, ?_⟩
    · have h0 : 0 ≤ (n : Int) / Int.tdiv step 2 := Int.ediv_nonneg (Int.ofNat_nonneg n) (by omega)
      rw [Int.toNat_of_nonneg h0]
      exact Int.ediv_mul_le _ (by omega)
    · have h0 : 0 ≤ (n : Int) / Int.tdiv step 2 := Int.ediv_nonneg (Int.ofNat_nonneg n) (by omega)
      rw [Int.toNat_of_nonneg h0]
      have h1 := Int.lt_ediv_add_one_mul_self (n : Int) (show 0 < Int.tdiv step 2 by omega)
      have h2 : Int.tdiv step 2 ≤ step := by omega
      nlinarith
  obtain ⟨ki, hki1, hki2⟩ := hdiv ys
  obtain ⟨kj, hkj1, hkj2⟩ := hdiv xs
  unfold get_corner_candidates_custom
  rw [if_neg (by simp [hne, htype])]
  obtain ⟨st1, h1, _, hq1⟩ := scan_rows_hit corr_map step threshold fuel
    (scan_inv corr_map threshold) (scan_has corr_map (corr_map.data ys xs))
    (fun i j st h => scan_inv_window corr_map step threshold i j st h)
    (fun i j st h => scan_has_window corr_map step threshold _ i j st h)
    hs1 hf.2 ((ki : Int) * Int.tdiv step 2) ((kj : Int) * Int.tdiv step 2) kj
    (by omega) (by omega) (by ring)
    (fun st hst => scan_window_hit corr_map step threshold _ _ st ys xs hys hxs hmax hM
      ⟨hki1, hki2⟩ ⟨hkj1, hkj2⟩ hst)
    fuel ki 0 ⟨[], []⟩ (by simpa using hf.1) (scan_inv_init corr_map threshold) (by ring)
  rw [h1]
  obtain ⟨cand, hcm, hrest⟩ := hq1
  exact ⟨st1.candidates, rfl, cand, hcm, hrest⟩

/-- With stride 0 the column loop never leaves its first window. -/
theorem scan_cols_stuck (corr_map : Mat) (step : Int) (threshold : ℚ) (i j : Int)
    (hs : Int.tdiv step 2 = 0) (hj : j < corr_map.cols) :
    ∀ (fuel : Nat) (st : ScanState), scan_cols corr_map step threshold i fuel j st = none := by
  intro fuel
  induction fuel with
  | zero => intro st; rfl
  | succ n ih =>
    intro st
    unfold scan_cols
    rw [if_pos hj, hs, add_zero]
    exact ih _

/-- With `step = 1` the stride `step / 2` is 0: on a non-empty `CV_32F` map the scan produces
no result, whatever the fuel. -/
theorem scan_stuck (corr_map : Mat) (threshold : ℚ) (hne : corr_map.empty = false)
    (htype : corr_map.isCV_32F = true) (fuel : Nat) :
    get_corner_candidates_custom fuel corr_map 1 threshold = none := by
  obtain ⟨hr, hc⟩ := (corr_map.empty_eq_false).mp hne
  unfold get_corner_candidates_custom
  rw [if_neg (by simp [hne, htype])]
  cases fuel with
  | zero => rfl
  | succ n =>
    unfold scan_rows
    rw [if_pos (by exact_mod_cast hr),
      scan_cols_stuck corr_map 1 threshold 0 0 (by decide) (by exact_mod_cast hc)]
    rfl

/-- For window size `-1` the scan is called with `step = winsize + 2 = 1`: on a non-empty
uniform image the detector produces no result, whatever the fuel. -/
theorem detect_uniform_stuck (ops : ImgOps) (gops : GridOps) (hops : ops.KeepsFlat)
    (gray_image : Mat) (v : ℚ) (board_size : Size) (trim : Bool)
    (prev : List Point2f) (he : gray_image.empty = false) (hflat : gray_image.isConst v)
    (fuel : Nat) :
    detect_checkerboard_custom ops gops fuel gray_image board_size prev (-1) trim = none := by
  obtain ⟨hce, hcc⟩ := detect_current_gray_const ops gray_image trim v he hflat
  obtain ⟨hz, hrows, hcols⟩ := normalize_const ops hops _ v hce hcc
  have hne : (normalize_image_custom ops (detect_current_gray ops gray_image trim).1).empty
      = false := by
    unfold Mat.empty at hce ⊢
    rw [hrows, hcols]; exact hce
  obtain ⟨_, hr2, hc2, h32⟩ := corr_blurred_zero ops hops _ (-1) hne hz
  have hbe : (detect_corr_blurred ops
      (normalize_image_custom ops (detect_current_gray ops gray_image trim).1) (-1)).empty
      = false := by
    unfold Mat.empty at hne ⊢
    rw [hr2, hc2]; exact hne
  have hc : detect_candidates ops fuel
      (normalize_image_custom ops (detect_current_gray ops gray_image trim).1) (-1) = none := by
    unfold detect_candidates
    exact scan_stuck _ _ hbe h32 fuel
  unfold detect_checkerboard_custom
  simp only [vector_clear, he, hce, Bool.and_false, Bool.false_eq_true, if_false, hc]

/-- C29: the window scan does not terminate for `step = 1`. On the blank 3 x 3 map the scan
with `step = 1` produces no result for any amount of fuel (the stride `1 / 2` is 0, the column
loop never advances), and so does the detector called with window size `-1`, which passes
`step = 1`; with `step = 2` the same scan ends after 4 loop tests per loop. -/
theorem scan_step_one_never_ends :
    (∀ fuel, get_corner_candidates_custom fuel blank3 1 0 = none) ∧
    (∀ fuel, detect_checkerboard_custom sampleImgOps sampleGridOps fuel blank3 ⟨3, 2⟩ [] (-1) false
      = none) ∧
    Int.tdiv 1 2 = 0 ∧
    get_corner_candidates_custom 4 blank3 2 0 = some [] :=
  ⟨fun fuel => scan_stuck blank3 0 rfl rfl fuel,
   fun fuel => detect_uniform_stuck sampleImgOps sampleGridOps sampleImgOps_keepsFlat blank3 0
     ⟨3, 2⟩ false [] rfl (fun _ _ _ _ => rfl) fuel,
   by decide, by decide!⟩

/-- With a stride that is not positive the column loop never reaches the right border. -/
theorem scan_cols_stuck_nonpos (corr_map : Mat) (step : Int) (threshold : ℚ) (i : Int)
    (hs : Int.tdiv step 2 ≤ 0) :
    ∀ (fuel : Nat) (j : Int) (st : ScanState), j < corr_map.cols →
      scan_cols corr_map step threshold i fuel j st = none := by
  intro fuel
  induction fuel with
  | zero => intro j st _; rfl
  | succ n ih =>
    intro j st hj
    unfold scan_cols
    rw [if_pos hj]
    exact ih _ _ (by omega)

/-- For `step <= 1` the stride `step / 2` is not positive: on a non-empty `CV_32F` map the scan
produces no result, whatever the fuel. -/
theorem scan_stuck_small (corr_map : Mat) (step : Int) (threshold : ℚ) (hstep : step ≤ 1)
    (hne : corr_map.empty = false) (htype : corr_map.isCV_32F = true) (fuel : Nat) :
    get_corner_candidates_custom fuel corr_map step threshold = none := by
  obtain ⟨hr, hc⟩ := (corr_map.empty_eq_false).mp hne
  have hs : Int.tdiv step 2 ≤ 0 := tdiv_two_nonpos step (by omega)
  unfold get_corner_candidates_custom
  rw [if_neg (by simp [hne, htype])]
  cases fuel with
  | zero => rfl
  | succ n =>
    unfold scan_rows
    rw [if_pos (by exact_mod_cast hr),
      scan_cols_stuck_nonpos corr_map step threshold 0 hs (n + 1) 0 ⟨[], []⟩ (by exact_mod_cast hc)]
    rfl

/-- For every negative window size the scan is called with `step = winsize + 2 <= 1`: on a
non-empty uniform image the detector produces no result, whatever the fuel. -/
theorem detect_uniform_stuck_neg (ops : ImgOps) (gops : GridOps) (hops : ops.KeepsFlat)
    (gray_image : Mat) (v : ℚ) (board_size : Size) (winsize : Int) (trim : Bool)
    (prev : List Point2f) (he : gray_image.empty = false) (hflat : gray_image.isConst v)
    (hw : winsize < 0) (fuel : Nat) :
    detect_checkerboard_custom ops gops fuel gray_image board_size prev winsize trim = none := by
  obtain ⟨hce, hcc⟩ := detect_current_gray_const ops gray_image trim v he hflat
  obtain ⟨hz, hrows, hcols⟩ := normalize_const ops hops _ v hce hcc
  have hne : (normalize_image_custom ops (detect_current_gray ops gray_image trim).1).empty
      = false := by
    unfold Mat.empty at hce ⊢
    rw [hrows, hcols]; exact hce
  obtain ⟨_, hr2, hc2, h32⟩ := corr_blurred_zero ops hops _ winsize hne hz
  have hbe : (detect_corr_blurred ops
      (normalize_image_custom ops (detect_current_gray ops gray_image trim).1) winsize).empty
      = false := by
    unfold Mat.empty at hne ⊢
    rw [hr2, hc2]; exact hne
  have hc : detect_candidates ops fuel
      (normalize_image_custom ops (detect_current_gray ops gray_image trim).1) winsize = none := by
    unfold detect_candidates
    exact scan_stuck_small _ _ _ (by omega) hbe h32 fuel
  unfold detect_checkerboard_custom
  simp only [vector_clear, he, hce, Bool.and_false, Bool.false_eq_true, if_false, hc]

/-- C4: evaluation at a failing input. On the uniform 3 x 3 image of value 128 with window
size -2 the window scan is called with `step = 0`, whose stride is 0, and the detector
produces no result for any amount of fuel: it returns neither a score nor corners. The same
holds with window size -5 (stride -1) and trimming. With window size 0 (`step = 2`) the
detector returns score 1.0 with empty corners on the same image. -/
theorem detect_uniform_never_returns :
    uniform3.empty = false ∧ uniform3.isConst 128 ∧
    (∀ fuel, detect_checkerboard_custom sampleImgOps sampleGridOps fuel uniform3 ⟨7, 5⟩ [] (-2)
      false = none) ∧
    (∀ fuel, detect_checkerboard_custom sampleImgOps sampleGridOps fuel uniform3 ⟨7, 5⟩ [] (-5)
      true = none) ∧
    Int.tdiv (-2 + 2) 2 = 0 ∧ Int.tdiv (-5 + 2) 2 = -1 ∧
    detect_checkerboard_custom sampleImgOps sampleGridOps 10 uniform3 ⟨7, 5⟩ [] 0 false
      = some ⟨1, []⟩ :=
  ⟨rfl, fun _ _ _ _ => rfl,
   fun fuel => detect_uniform_stuck_neg sampleImgOps sampleGridOps sampleImgOps_keepsFlat uniform3
     128 ⟨7, 5⟩ (-2) false [] rfl (fun _ _ _ _ => rfl) (by decide) fuel,
   fun fuel => detect_uniform_stuck_neg sampleImgOps sampleGridOps sampleImgOps_keepsFlat uniform3
     128 ⟨7, 5⟩ (-5) true [] rfl (fun _ _ _ _ => rfl) (by decide) fuel,
   by decide, by decide,
   (detect_uniform_run sampleImgOps sampleGridOps sampleImgOps_keepsFlat uniform3 128 ⟨7, 5⟩ 0
     false [] 10 rfl (fun _ _ _ _ => rfl) (by decide) ⟨by decide, by decide⟩).2.2.2⟩

/-! ## Claims on the corner solver -/

/-- The determinant tested by the function is the determinant of the accumulated matrix. -/
theorem patch_sums_det (patch_dx patch_dy : Mat) :
    structure_tensor_det patch_dx patch_dy =
      (patch_sums patch_dx patch_dy).m00 * (patch_sums patch_dx patch_dy).m11 -
        (patch_sums patch_dx patch_dy).m01 * (patch_sums patch_dx patch_dy).m10 := rfl

/-- Past both guards the function returns the closed-form solution of the 2 x 2 system. -/
theorem solve_patch_corner_eq (patch_dx patch_dy : Mat)
    (hne : patch_dx.empty = false ∧ patch_dy.empty = false)
    (hsize : patch_dx.rows = patch_dy.rows ∧ patch_dx.cols = patch_dy.cols)
    (htype : patch_dx.isCV_64F = true ∧ patch_dy.isCV_64F = true)
    (hdet : 1/1000000000 ≤ structure_tensor_det patch_dx patch_dy) :
    solve_patch_corner_custom patch_dx patch_dy =
      ⟨(-(patch_sums patch_dx patch_dy).m10 * (patch_sums patch_dx patch_dy).b0 +
          (patch_sums patch_dx patch_dy).m00 * (patch_sums patch_dx patch_dy).b1) /
          structure_tensor_det patch_dx patch_dy,
       ((patch_sums patch_dx patch_dy).m11 * (patch_sums patch_dx patch_dy).b0 -
          (patch_sums patch_dx patch_dy).m01 * (patch_sums patch_dx patch_dy).b1) /
          structure_tensor_det patch_dx patch_dy⟩ := by
  unfold solve_patch_corner_custom
  rw [if_neg (by simp [hne.1, hne.2, hsize.1, hsize.2, htype.1, htype.2])]
  simp only
  have hd : ¬ structure_tensor_det patch_dx patch_dy < 1/1000000000 := not_lt.mpr hdet
  unfold structure_tensor_det at hd
  simp only at hd
  rw [if_neg hd]
  rfl

/-- A 2 x 2 system with non-zero determinant has exactly the solution of the closed form. -/
theorem solves_unique (s : PatchSums) (hdet : s.m00 * s.m11 - s.m01 * s.m10 ≠ 0)
    (p_row p_col : ℚ) :
    s.solves p_row p_col ↔
      p_row = (s.m11 * s.b0 - s.m01 * s.b1) / (s.m00 * s.m11 - s.m01 * s.m10) ∧
      p_col = (-s.m10 * s.b0 + s.m00 * s.b1) / (s.m00 * s.m11 - s.m01 * s.m10) := by
  unfold PatchSums.solves
  constructor
  · rintro ⟨h0, h1⟩
    constructor
    · rw [eq_div_iff hdet]
      linear_combination s.m11 * h0 - s.m01 * h1
    · rw [eq_div_iff hdet]
      linear_combination s.m00 * h1 - s.m10 * h0
  · rintro ⟨h0, h1⟩
    rw [eq_div_iff hdet] at h0 h1
    constructor
    · have : (s.m00 * p_row + s.m01 * p_col - s.b0) * (s.m00 * s.m11 - s.m01 * s.m10) = 0 := by
        linear_combination s.m00 * h0 + s.m01 * h1
      rcases mul_eq_zero.mp this with h | h
      · linear_combination h
      · exact absurd h hdet
    · have : (s.m10 * p_row + s.m11 * p_col - s.b1) * (s.m00 * s.m11 - s.m01 * s.m10) = 0 := by
        linear_combination s.m10 * h0 + s.m11 * h1
      rcases mul_eq_zero.mp this with h | h
      · linear_combination h
      · exact absurd h hdet

/-- If every gradient is orthogonal to the offset from `(a, b)`, then `b = S * (a, b)`. -/
theorem sum_orthogonal (dx dy : Nat × Nat → ℚ) (a b : ℚ) :
    ∀ l : List (Nat × Nat),
      (∀ p ∈ l, dy p * ((p.1 : ℚ) - a) + dx p * ((p.2 : ℚ) - b) = 0) →
      (l.map (fun p => dy p * dy p * (p.1 : ℚ) + dy p * dx p * (p.2 : ℚ))).sum =
        (l.map (fun p => dy p * dy p)).sum * a + (l.map (fun p => dy p * dx p)).sum * b ∧
      (l.map (fun p => dx p * dy p * (p.1 : ℚ) + dx p * dx p * (p.2 : ℚ))).sum =
        (l.map (fun p => dx p * dy p)).sum * a + (l.map (fun p => dx p * dx p)).sum * b := by
  intro l
  induction l with
  | nil => intro _; simp
  | cons q l ih =>
    intro h
    obtain ⟨ih0, ih1⟩ := ih (fun p hp => h p (List.mem_cons_of_mem _ hp))
    have hq := h q (List.mem_cons_self _ _)
    simp only [List.map_cons, List.sum_cons]
    constructor
    · rw [ih0]; linear_combination dy q * hq
    · rw [ih1]; linear_combination dx q * hq

/-- C22: for `CV_64F` derivative patches of equal size whose accumulated matrix `S` has
determinant at least `1e-9` (so that the patches are not empty), the point `(x, y)` returned by `solve_patch_corner_custom`
satisfies `S * (y, x) = b`; every solution `(p_row, p_col)` of `S * p = b` is returned as the
point `(p_col, p_row)`, so the solution is unique; and if at every pixel `(r, c)` the gradient
`(dx, dy)` is orthogonal to `(c - p0_col, r - p0_row)`, the result is `(p0_col, p0_row)`. -/
theorem solve_patch_corner_solution (patch_dx patch_dy : Mat)
    (hsize : patch_dx.rows = patch_dy.rows ∧ patch_dx.cols = patch_dy.cols)
    (htype : patch_dx.isCV_64F = true ∧ patch_dy.isCV_64F = true)
    (hdet : 1/1000000000 ≤ structure_tensor_det patch_dx patch_dy) :
    (patch_sums patch_dx patch_dy).solves (solve_patch_corner_custom patch_dx patch_dy).y
      (solve_patch_corner_custom patch_dx patch_dy).x ∧
    (∀ p_row p_col, (patch_sums patch_dx patch_dy).solves p_row p_col →
      solve_patch_corner_custom patch_dx patch_dy = ⟨p_col, p_row⟩) ∧
    (∀ p0_row p0_col : ℚ,
      (∀ r c, r < patch_dx.rows → c < patch_dx.cols →
        patch_dy.data r c * ((r : ℚ) - p0_row) + patch_dx.data r c * ((c : ℚ) - p0_col) = 0) →
      solve_patch_corner_custom patch_dx patch_dy = ⟨p0_col, p0_row⟩) := by
  have hd0 : (patch_sums patch_dx patch_dy).m00 * (patch_sums patch_dx patch_dy).m11 -
      (patch_sums patch_dx patch_dy).m01 * (patch_sums patch_dx patch_dy).m10 ≠ 0 := by
    rw [← patch_sums_det]
    intro h
    rw [h] at hdet
    norm_num at hdet
  have hne : patch_dx.empty = false ∧ patch_dy.empty = false := by
    have hx : patch_dx.empty = false := by
      by_contra he
      have hpos : patch_dx.positions = [] := by
        have he2 : patch_dx.rows = 0 ∨ patch_dx.cols = 0 := by
          by_contra hno
          apply he
          rw [Mat.empty_eq_false]
          omega
        unfold Mat.positions
        rcases he2 with h0 | h0
        · rw [h0]; rfl
        · rw [h0]; simp
      apply hd0
      unfold patch_sums
      simp only [hpos, List.map_nil, List.sum_nil]
      norm_num
    refine ⟨hx, ?_⟩
    unfold Mat.empty at hx ⊢
    rw [← hsize.1, ← hsize.2]
    exact hx
  have heq := solve_patch_corner_eq patch_dx patch_dy hne hsize htype hdet
  rw [patch_sums_det] at heq
  have huniq : ∀ p_row p_col, (patch_sums patch_dx patch_dy).solves p_row p_col →
      solve_patch_corner_custom patch_dx patch_dy = ⟨p_col, p_row⟩ := by
    intro p_row p_col h
    obtain ⟨h0, h1⟩ := (solves_unique _ hd0 p_row p_col).mp h
    rw [heq, h0, h1]
  refine ⟨?_, huniq, ?_⟩
  · rw [heq]
    exact (solves_unique _ hd0 _ _).mpr ⟨rfl, rfl⟩
  · intro p0_row p0_col horth
    apply huniq
    obtain ⟨h0, h1⟩ := sum_orthogonal (fun p => patch_dx.data p.1 p.2)
      (fun p => patch_dy.data p.1 p.2) p0_row p0_col patch_dx.positions
      (fun p hp => horth p.1 p.2 ((patch_dx.mem_positions p).mp hp).1
        ((patch_dx.mem_positions p).mp hp).2)
    exact ⟨h0.symm, h1.symm⟩

/-! ## Claims on the hypothesis search -/

/-- The points looked up by index are points of the list. -/
theorem points_at_mem (pts : List Point2f) :
    ∀ (idxs : List Int) (ps : List Point2f), points_at pts idxs = some ps →
      ∀ p ∈ ps, p ∈ pts := by
  intro idxs
  induction idxs with
  | nil => intro ps h p hp; simp [points_at] at h; rw [h] at hp; simp at hp
  | cons i rest ih =>
    intro ps h p hp
    unfold points_at at h
    split at h
    · rename_i q ps1 h1 h2
      simp only [Option.some.injEq] at h
      rw [← h] at hp
      rcases List.mem_cons.mp hp with hp | hp
      · rw [hp]
        unfold at_index at h1
        split at h1
        · simp at h1
        · exact List.mem_iff_getElem?.mpr ⟨_, h1⟩
      · exact ih ps1 h2 p hp
    · simp at h

/-- Every point of a snapped grid is one of the candidate points. -/
theorem grid_hypothesis_mem (gops : GridOps) (pts : List Point2f) (board : Size)
    (s a b : Point2f) (hyp : ℚ × List Point2f)
    (h : grid_hypothesis gops pts board s a b = some hyp) : ∀ p ∈ hyp.2, p ∈ pts := by
  unfold grid_hypothesis at h
  simp only at h
  split at h
  · split at h
    · split_ifs at h
      split at h
      · simp at h
      · rename_i ps hps
        simp only [Option.some.injEq] at h
        rw [← h]
        exact points_at_mem pts _ ps hps
    · simp at h
  · simp at h

/-- One pass of the hypothesis loop body keeps the best-so-far invariant. -/
theorem best_of_update (gops : GridOps) (pts : List Point2f) (board : Size)
    (seen : List (Point2f × Point2f × Point2f)) (best : GridBest)
    (h : Point2f × Point2f × Point2f) (hyp : ℚ × List Point2f)
    (hb : best_of gops pts board seen best)
    (hh : grid_hypothesis gops pts board h.1 h.2.1 h.2.2 = some hyp) :
    best_of gops pts board (seen ++ [h]) (grid_update best hyp) := by
  right
  rcases hb with ⟨hs, hbest⟩ | ⟨h0, hm, d, hd, hbd, hmin⟩
  · rw [hs, hbest]
    refine ⟨h, by simp, hyp.1, ?_, rfl, ?_⟩
    · simpa [grid_update] using hh
    · intro h' hm'
      simp only [List.nil_append, List.mem_singleton] at hm'
      rw [hm']
      exact ⟨hyp, hh, le_refl _⟩
  · unfold grid_update
    rw [hbd]
    simp only
    by_cases hlt : hyp.1 < d
    · rw [if_pos hlt]
      refine ⟨h, by simp, hyp.1, by simpa using hh, rfl, ?_⟩
      intro h' hm'
      rcases List.mem_append.mp hm' with hm' | hm'
      · obtain ⟨hyp', e, hle⟩ := hmin h' hm'
        exact ⟨hyp', e, le_trans hlt.le hle⟩
      · rw [List.mem_singleton.mp hm']
        exact ⟨hyp, hh, le_refl _⟩
    · rw [if_neg hlt]
      refine ⟨h0, List.mem_append_left _ hm, d, hd, hbd, ?_⟩
      intro h' hm'
      rcases List.mem_append.mp hm' with hm' | hm'
      · exact hmin h' hm'
      · rw [List.mem_singleton.mp hm']
        exact ⟨hyp, hh, not_lt.mp hlt⟩

/-- The hypothesis loops end with the best of all hypotheses visited. -/
theorem grid_search_best (gops : GridOps) (pts : List Point2f) (board : Size) :
    ∀ (hyps seen : List (Point2f × Point2f × Point2f)) (best res : GridBest),
      best_of gops pts board seen best →
      grid_search gops pts board hyps best = some res →
      best_of gops pts board (seen ++ hyps) res := by
  intro hyps
  induction hyps with
  | nil =>
    intro seen best res hb h
    simp only [grid_search, Option.some.injEq] at h
    rw [← h, List.append_nil]
    exact hb
  | cons hd rest ih =>
    intro seen best res hb h
    unfold grid_search at h
    split at h
    · simp at h
    · rename_i hyp hh
      have := ih (seen ++ [hd]) (grid_update best hyp) res
        (best_of_update gops pts board seen best hd hyp hb hh) h
      rw [List.append_assoc] at this
      exact this

/-- Both axis orders are tried for each of the `min(2, n)` origins. -/
theorem grid_hypotheses_list_length (pts : List Point2f) (ax1 ax2 : Point2f) :
    (grid_hypotheses_list pts ax1 ax2).length = 2 * min 2 pts.length := by
  unfold grid_hypotheses_list
  simp only
  have hlen : (start_candidates_scores pts ax1 ax2).length = pts.length := by
    unfold start_candidates_scores
    simp [List.length_insertionSort]
  rw [hlen]
  generalize hl : List.take (min 2 pts.length) (start_candidates_scores pts ax1 ax2) = l
  have hll : l.length = min 2 pts.length := by
    rw [← hl, List.length_take, hlen]
    omega
  rw [← hll]
  clear hl hll hlen
  induction l with
  | nil => rfl
  | cons a l ih =>
    simp only [List.flatMap_cons, List.length_append, List.length_cons, List.length_nil, ih]
    omega

/-- C23: whenever `reorder_checkerboard_custom` succeeds, the two axes were found, the list
of evaluated (origin, axis 1, axis 2) hypotheses has `2 * min(2, number of candidates)` entries
(the lowest-projection origins, each with both axis-role assignments), the returned grid is the
snapped grid of one of them, `out_max_reorder_dist` is its maximum snap distance `d`, every
evaluated hypothesis has a maximum snap distance of at least `d`, and every returned point is
the position of one of the input candidates. -/
theorem reorder_minimal_hypothesis (sqrt : ℚ → ℚ) (gops : GridOps)
    (candidates : List CornerCandidate) (gray : Mat) (board : Size) (res : ReorderResult)
    (h : reorder_checkerboard_custom sqrt gops candidates gray board = some res)
    (hok : res.ok = true) :
    ∃ ax1 ax2,
      reorder_axes sqrt gops (candidates.map (fun cand => cand.point)) gray
        = some (some (ax1, ax2)) ∧
      (grid_hypotheses_list (candidates.map (fun cand => cand.point)) ax1 ax2).length
        = 2 * min 2 candidates.length ∧
      (∃ hsel ∈ grid_hypotheses_list (candidates.map (fun cand => cand.point)) ax1 ax2, ∃ d,
        grid_hypothesis gops (candidates.map (fun cand => cand.point)) board
          hsel.1 hsel.2.1 hsel.2.2 = some (d, res.ordered_corners) ∧
        res.out_max_reorder_dist = some d ∧
        ∀ h' ∈ grid_hypotheses_list (candidates.map (fun cand => cand.point)) ax1 ax2,
          ∃ hyp', grid_hypothesis gops (candidates.map (fun cand => cand.point)) board
            h'.1 h'.2.1 h'.2.2 = some hyp' ∧ d ≤ hyp'.1) ∧
      ∀ p ∈ res.ordered_corners, ∃ cand ∈ candidates, cand.point = p := by
  unfold reorder_checkerboard_custom at h
  split at h
  · simp only [Option.some.injEq] at h; rw [← h] at hok; simp [ReorderResult.failure] at hok
  · rename_i hguard
    simp only at h
    split at h
    · simp only [Option.some.injEq] at h; rw [← h] at hok; simp [ReorderResult.failure] at hok
    · split at h
      · simp at h
      · simp only [Option.some.injEq] at h; rw [← h] at hok; simp [ReorderResult.failure] at hok
      · rename_i ax1 ax2 hax
        split at h
        · simp at h
        · rename_i best hbest
          split at h
          · simp only [Option.some.injEq] at h
            have hb := grid_search_best gops _ board _ [] ⟨[], none⟩ best (Or.inl ⟨rfl, rfl⟩) hbest
            rw [List.nil_append] at hb
            have hlen := grid_hypotheses_list_length (candidates.map (fun cand => cand.point))
              ax1 ax2
            rw [List.length_map] at hlen
            have hcne : candidates ≠ [] := by
              intro hc
              rw [hc] at hguard
              simp at hguard
            have hpos : 0 < candidates.length := List.length_pos.mpr hcne
            refine ⟨ax1, ax2, hax, hlen, ?_, ?_⟩
            · rcases hb with ⟨hnil, _⟩ | ⟨hsel, hm, d, hd, hbd, hmin⟩
              · rw [hnil] at hlen
                simp only [List.length_nil] at hlen
                omega
              · rw [← h]
                exact ⟨hsel, hm, d, hd, hbd, hmin⟩
            · rcases hb with ⟨hnil, _⟩ | ⟨hsel, hm, d, hd, hbd, hmin⟩
              · rw [hnil] at hlen
                simp only [List.length_nil] at hlen
                omega
              · rw [← h]
                intro p hp
                have := grid_hypothesis_mem gops _ board _ _ _ _ hd p hp
                obtain ⟨cand, hc, he⟩ := List.mem_map.mp this
                exact ⟨cand, hc, he⟩
          · simp only [Option.some.injEq] at h; rw [← h] at hok; simp [ReorderResult.failure] at hok

/-! ## Claims on the symmetries of the response -/

/-- The sum over all pixel positions as a double sum. -/
theorem positions_sum (rows cols : Nat) (f : Nat → Nat → ℚ) :
    (((List.range rows).flatMap (fun r => (List.range cols).map (fun c => (r, c)))).map
      (fun p => f p.1 p.2)).sum
      = ∑ r in Finset.range rows, ∑ c in Finset.range cols, f r c := by
  have inner : ∀ (r n : Nat), (((List.range n).map (fun c => (r, c))).map
      (fun p : Nat × Nat => f p.1 p.2)).sum = ∑ c in Finset.range n, f r c := by
    intro r n
    induction n with
    | zero => simp
    | succ n ih =>
      rw [List.range_succ, List.map_append, List.map_append, List.sum_append, ih,
        Finset.sum_range_succ]
      simp
  induction rows with
  | zero => simp
  | succ n ih =>
    rw [List.range_succ, List.flatMap_append, List.map_append, List.sum_append, ih,
      Finset.sum_range_succ]
    simp only [List.flatMap_cons, List.flatMap_nil, List.append_nil]
    rw [inner]

/-- Flipping a matrix around both axes keeps the sum of its entries. -/
theorem Mat.sum_flip (m : Mat) : (flip_both m).sum = m.sum := by
  unfold Mat.sum Mat.positions flip_both Mat.withData
  simp only
  rw [positions_sum m.rows m.cols (fun r c => m.data (m.rows - 1 - r) (m.cols - 1 - c)),
    positions_sum m.rows m.cols (fun r c => m.data r c)]
  rw [Finset.sum_range_reflect (fun r => ∑ c in Finset.range m.cols, m.data r (m.cols - 1 - c))]
  apply Finset.sum_congr rfl
  intro r _
  exact Finset.sum_range_reflect (fun c => m.data r c) m.cols

/-- Matrices with equal size and equal entries inside have the same sum. -/
theorem Mat.sum_congr (a b : Mat) (hr : a.rows = b.rows) (hc : a.cols = b.cols)
    (h : ∀ r c, r < a.rows → c < a.cols → a.data r c = b.data r c) : a.sum = b.sum := by
  unfold Mat.sum
  have hp : a.positions = b.positions := by unfold Mat.positions; rw [hr, hc]
  rw [← hp]
  congr 1
  apply List.map_congr_left
  intro p hp
  exact h p.1 p.2 ((a.mem_positions p).mp hp).1 ((a.mem_positions p).mp hp).2

/-- The filter result depends only on the size of the kernel and its entries inside. -/
theorem filter2D_congr (src a b : Mat) (hr : a.rows = b.rows) (hc : a.cols = b.cols)
    (h : ∀ r c, r < a.rows → c < a.cols → a.data r c = b.data r c) :
    filter2D src a = filter2D src b := by
  unfold filter2D
  have hp : a.positions = b.positions := by unfold Mat.positions; rw [hr, hc]
  rw [← hp, ← hr, ← hc]
  congr 1
  funext y x
  congr 1
  apply List.map_congr_left
  intro p hp
  rw [h p.1 p.2 ((a.mem_positions p).mp hp).1 ((a.mem_positions p).mp hp).2]

/-- The pixel mirrored through the kernel centre lies in the opposite sector. -/
theorem patch_sector_flip (ops : ImgOps) (a1 a2 : ℚ) (radius : Int) (u v : Nat)
    (hu : u < (radius * 2 + 1).toNat) (hv : v < (radius * 2 + 1).toNat) :
    patch_sector ops a1 a2 radius ((radius * 2 + 1).toNat - 1 - u)
        ((radius * 2 + 1).toNat - 1 - v)
      = (patch_sector ops a1 a2 radius u v).map opposite_sector := by
  have hr : 0 ≤ radius := by omega
  have h1u : (((radius * 2 + 1).toNat - 1 - u : Nat) : Int) = radius * 2 - u := by omega
  have h1v : (((radius * 2 + 1).toNat - 1 - v : Nat) : Int) = radius * 2 - v := by omega
  have h2u : (((radius * 2 + 1).toNat - 1 - u : Nat) : ℚ) - (radius : ℚ)
      = -((u : ℚ) - (radius : ℚ)) := by
    have : (((radius * 2 + 1).toNat - 1 - u : Nat) : ℚ) = (radius : ℚ) * 2 - (u : ℚ) := by
      exact_mod_cast h1u
    rw [this]; ring
  have h2v : (((radius * 2 + 1).toNat - 1 - v : Nat) : ℚ) - (radius : ℚ)
      = -((v : ℚ) - (radius : ℚ)) := by
    have : (((radius * 2 + 1).toNat - 1 - v : Nat) : ℚ) = (radius : ℚ) * 2 - (v : ℚ) := by
      exact_mod_cast h1v
    rw [this]; ring
  unfold patch_sector
  simp only [h2u, h2v, norm2f, Point2f.dot]
  generalize (u : ℚ) - (radius : ℚ) = a
  generalize (v : ℚ) - (radius : ℚ) = b
  have hn : -a * -a + -b * -b = a * a + b * b := by ring
  rw [hn]
  have hs1 : -a * -ops.sin a1 + -b * ops.cos a1 = -(a * -ops.sin a1 + b * ops.cos a1) := by ring
  have hs2 : -a * -ops.sin a2 + -b * ops.cos a2 = -(a * -ops.sin a2 + b * ops.cos a2) := by ring
  rw [hs1, hs2]
  have key : ∀ (d rad s1 s2 : ℚ),
      (if d ≤ rad then
        if -s1 ≤ -(1 / 10) ∧ -s2 ≤ -(1 / 10) then some 0
        else if -s1 ≥ 1 / 10 ∧ -s2 ≥ 1 / 10 then some 1
        else if -s1 ≤ -(1 / 10) ∧ -s2 ≥ 1 / 10 then some 2
        else if -s1 ≥ 1 / 10 ∧ -s2 ≤ -(1 / 10) then some 3 else none
      else none) =
      Option.map opposite_sector
        (if d ≤ rad then
          if s1 ≤ -(1 / 10) ∧ s2 ≤ -(1 / 10) then some 0
          else if s1 ≥ 1 / 10 ∧ s2 ≥ 1 / 10 then some 1
          else if s1 ≤ -(1 / 10) ∧ s2 ≥ 1 / 10 then some 2
          else if s1 ≥ 1 / 10 ∧ s2 ≤ -(1 / 10) then some 3 else none
        else none) := by
    intro d rad s1 s2
    by_cases hd : d ≤ rad
    · have e1 : (-s1 ≤ -(1 / 10)) ↔ (s1 ≥ 1 / 10) := neg_le_neg_iff
      have e2 : (-s2 ≤ -(1 / 10)) ↔ (s2 ≥ 1 / 10) := neg_le_neg_iff
      have e3 : (-s1 ≥ 1 / 10) ↔ (s1 ≤ -(1 / 10)) := le_neg
      have e4 : (-s2 ≥ 1 / 10) ↔ (s2 ≤ -(1 / 10)) := le_neg
      simp only [hd, if_true, e1, e2, e3, e4]
      by_cases hA1 : s1 ≤ -(1 / 10) <;> by_cases hB1 : s1 ≥ 1 / 10 <;>
        by_cases hA2 : s2 ≤ -(1 / 10) <;> by_cases hB2 : s2 ≥ 1 / 10 <;>
        first
        | (exfalso; linarith)
        | simp only [hA1, hB1, hA2, hB2, and_self, and_true, and_false, true_and, false_and,
            if_true, if_false, Option.map_some', Option.map_none', opposite_sector]
    · simp only [hd, if_false]
      rfl
  exact key _ _ _ _

/-- Taking the opposite sector twice gives the sector back. -/
theorem opposite_sector_invol (n : Nat) : opposite_sector (opposite_sector n) = n := by
  match n with
  | 0 => rfl
  | 1 => rfl
  | 2 => rfl
  | 3 => rfl
  | _ + 4 => rfl

/-- Inside the kernel, the flipped indicator of sector `i` is the indicator of the opposite
sector. -/
theorem patch_indicator_flip (ops : ImgOps) (a1 a2 : ℚ) (radius : Int) (i r c : Nat)
    (hr : r < (radius * 2 + 1).toNat) (hc : c < (radius * 2 + 1).toNat) :
    (flip_both (patch_indicator ops a1 a2 radius i)).data r c
      = (patch_indicator ops a1 a2 radius (opposite_sector i)).data r c := by
  unfold flip_both patch_indicator Mat.withData
  simp only
  rw [patch_sector_flip ops a1 a2 radius c r hc hr]
  have h1 : (radius * 2 + 1).toNat - 1 - r < (radius * 2 + 1).toNat := by omega
  have h2 : (radius * 2 + 1).toNat - 1 - c < (radius * 2 + 1).toNat := by omega
  have hiff : (Option.map opposite_sector (patch_sector ops a1 a2 radius c r) = some i) ↔
      (patch_sector ops a1 a2 radius c r = some (opposite_sector i)) := by
    cases patch_sector ops a1 a2 radius c r with
    | none => simp
    | some j =>
      simp only [Option.map_some', Option.some.injEq]
      constructor
      · intro h; rw [← h, opposite_sector_invol]
      · intro h; rw [h, opposite_sector_invol]
  simp only [h1, h2, hr, hc, true_and, hiff]

/-- The indicator of a sector and the indicator of the opposite sector have the same sum. -/
theorem patch_indicator_sum (ops : ImgOps) (a1 a2 : ℚ) (radius : Int) (i : Nat) :
    (patch_indicator ops a1 a2 radius (opposite_sector i)).sum
      = (patch_indicator ops a1 a2 radius i).sum := by
  rw [← Mat.sum_flip (patch_indicator ops a1 a2 radius i)]
  symm
  apply Mat.sum_congr
  · rfl
  · rfl
  · intro r c hr hc
    exact patch_indicator_flip ops a1 a2 radius i r c hr hc

/-- Inside the kernel, flipping kernel `i` gives the kernel of the opposite sector. -/
theorem patch_kernel_flip (ops : ImgOps) (a1 a2 : ℚ) (radius : Int) (i r c : Nat)
    (hr : r < (radius * 2 + 1).toNat) (hc : c < (radius * 2 + 1).toNat) :
    (flip_both (patch_normalize (patch_indicator ops a1 a2 radius i))).data r c
      = (patch_normalize (patch_indicator ops a1 a2 radius (opposite_sector i))).data r c := by
  have hs := patch_indicator_sum ops a1 a2 radius i
  have hf := patch_indicator_flip ops a1 a2 radius i r c hr hc
  unfold flip_both Mat.withData at hf ⊢
  simp only at hf ⊢
  unfold patch_normalize
  simp only [hs]
  split
  · simp only [Mat.map, Mat.withData]
    rw [← hf]
  · rw [← hf]

/-- The response formula is symmetric under swapping `r0` with `r1` and `r2` with `r3`. -/
theorem corner_response_swap (r0 r1 r2 r3 : ℚ) :
    corner_response r1 r0 r3 r2 = corner_response r0 r1 r2 r3 := by
  unfold corner_response
  have hmu : (r1 + r0 + r3 + r2) / 4 = (r0 + r1 + r2 + r3) / 4 := by ring
  simp only [hmu]
  rw [min_comm (r1 - (r0 + r1 + r2 + r3) / 4) (r0 - (r0 + r1 + r2 + r3) / 4),
    min_comm ((r0 + r1 + r2 + r3) / 4 - r1) ((r0 + r1 + r2 + r3) / 4 - r0),
    min_right_comm _ ((r0 + r1 + r2 + r3) / 4 - r3) ((r0 + r1 + r2 + r3) / 4 - r2),
    min_right_comm _ (r3 - (r0 + r1 + r2 + r3) / 4) (r2 - (r0 + r1 + r2 + r3) / 4)]

/-- C24: for every angle pair, radius and field, the map that
`detect_corners_from_templates_custom` computes with the kernels flipped around both axes
equals the map computed with the unflipped kernels; inside the kernel window the flipped kernel
`i` is the kernel of the opposite sector (0 and 1 are opposite, 2 and 3 are opposite); and the
response formula is symmetric under swapping `r0` with `r1` and `r2` with `r3`. -/
theorem flip_immaterial (ops : ImgOps) (angle1_rad angle2_rad : ℚ) (radius : Int) (gray : Mat) :
    detect_corners_from_templates_custom gray
        (create_correlation_patch_custom ops angle1_rad angle2_rad radius)
      = spec_response_unflipped gray
        (create_correlation_patch_custom ops angle1_rad angle2_rad radius) ∧
    (∀ i r c, r < (radius * 2 + 1).toNat → c < (radius * 2 + 1).toNat →
      (flip_both (patch_normalize (patch_indicator ops angle1_rad angle2_rad radius i))).data r c
        = (patch_normalize (patch_indicator ops angle1_rad angle2_rad radius
            (opposite_sector i))).data r c) ∧
    opposite_sector 0 = 1 ∧ opposite_sector 1 = 0 ∧ opposite_sector 2 = 3 ∧
    opposite_sector 3 = 2 ∧
    (∀ r0 r1 r2 r3, corner_response r1 r0 r3 r2 = corner_response r0 r1 r2 r3) := by
  refine ⟨?_, fun i r c hr hc => patch_kernel_flip ops angle1_rad angle2_rad radius i r c hr hc,
    rfl, rfl, rfl, rfl, corner_response_swap⟩
  rw [create_correlation_patch_eq]
  have hk : ∀ i, filter2D gray (flip_both (patch_normalize
      (patch_indicator ops angle1_rad angle2_rad radius i)))
      = filter2D gray (patch_normalize
        (patch_indicator ops angle1_rad angle2_rad radius (opposite_sector i))) := by
    intro i
    apply filter2D_congr
    · show (patch_normalize _).rows = (patch_normalize _).rows
      rw [patch_normalize_rows, patch_normalize_rows]; rfl
    · show (patch_normalize _).cols = (patch_normalize _).cols
      rw [patch_normalize_cols, patch_normalize_cols]; rfl
    · intro r c hr hc
      have hr2 : r < (radius * 2 + 1).toNat := by
        have : (flip_both (patch_normalize
          (patch_indicator ops angle1_rad angle2_rad radius i))).rows
            = (radius * 2 + 1).toNat := by
          show (patch_normalize _).rows = _
          rw [patch_normalize_rows]; rfl
        rw [this] at hr; exact hr
      have hc2 : c < (radius * 2 + 1).toNat := by
        have : (flip_both (patch_normalize
          (patch_indicator ops angle1_rad angle2_rad radius i))).cols
            = (radius * 2 + 1).toNat := by
          show (patch_normalize _).cols = _
          rw [patch_normalize_cols]; rfl
        rw [this] at hc; exact hc
      exact patch_kernel_flip ops angle1_rad angle2_rad radius i r c hr2 hc2
  unfold detect_corners_from_templates_custom spec_response_unflipped
  simp only
  rw [hk 0, hk 1, hk 2, hk 3]
  simp only [opposite_sector, filter2D, Mat.withData]
  congr 1
  funext r c
  exact corner_response_swap _ _ _ _

/-- A clamped index lies inside a non-empty range. -/
theorem clampIdx_lt (n : Nat) (i : Int) (hn : 0 < n) : clampIdx n i < n := by
  unfold clampIdx
  split
  · exact hn
  · split
    · omega
    · omega

/-- A weighted sum of the values `1 - f p` is the sum of the weights minus the weighted sum of
the values `f p`. -/
theorem sum_mul_one_sub {α : Type} (k f : α → ℚ) (l : List α) :
    (l.map (fun p => k p * (1 - f p))).sum
      = (l.map k).sum - (l.map (fun p => k p * f p)).sum := by
  induction l with
  | nil => simp
  | cons a l ih =>
    simp only [List.map_cons, List.sum_cons, ih]
    ring

/-- Filtering the inverted field with a kernel of sum 1 inverts the filter response. -/
theorem filter2D_invert (src kernel : Mat) (hk : kernel.sum = 1) (y x : Nat) :
    (filter2D (src.map (fun v => 1 - v)) kernel).data y x = 1 - (filter2D src kernel).data y x := by
  unfold filter2D Mat.map Mat.withData
  simp only
  unfold Mat.sum at hk
  rw [sum_mul_one_sub, hk]

/-- Filtering a constant non-empty field with a kernel of sum 1 gives the constant. -/
theorem filter2D_const (src kernel : Mat) (v : ℚ) (hk : kernel.sum = 1)
    (hne : src.empty = false) (hv : src.isConst v) (y x : Nat) :
    (filter2D src kernel).data y x = v := by
  obtain ⟨hr, hc⟩ := (src.empty_eq_false).mp hne
  unfold filter2D Mat.withData
  simp only
  have : (kernel.positions.map (fun p => kernel.data p.1 p.2 *
      src.data (clampIdx src.rows ((y : Int) + (p.1 : Int) - ((kernel.rows / 2 : Nat) : Int)))
        (clampIdx src.cols ((x : Int) + (p.2 : Int) - ((kernel.cols / 2 : Nat) : Int)))))
      = kernel.positions.map (fun p => kernel.data p.1 p.2 * v) := by
    apply List.map_congr_left
    intro p _
    rw [hv _ _ (clampIdx_lt _ _ hr) (clampIdx_lt _ _ hc)]
  rw [this, List.sum_map_mul_right]
  unfold Mat.sum at hk
  rw [hk, one_mul]

/-- Inverting the four filter responses swaps the two polarity terms of the response
formula. -/
theorem corner_response_invert (r0 r1 r2 r3 : ℚ) :
    corner_response (1 - r0) (1 - r1) (1 - r2) (1 - r3) = corner_response r0 r1 r2 r3 := by
  unfold corner_response
  have hmu : (1 - r0 + (1 - r1) + (1 - r2) + (1 - r3)) / 4 = 1 - (r0 + r1 + r2 + r3) / 4 := by
    ring
  simp only [hmu]
  have e0 : 1 - r0 - (1 - (r0 + r1 + r2 + r3) / 4) = (r0 + r1 + r2 + r3) / 4 - r0 := by ring
  have e1 : 1 - r1 - (1 - (r0 + r1 + r2 + r3) / 4) = (r0 + r1 + r2 + r3) / 4 - r1 := by ring
  have e2 : 1 - (r0 + r1 + r2 + r3) / 4 - (1 - r2) = r2 - (r0 + r1 + r2 + r3) / 4 := by ring
  have e3 : 1 - (r0 + r1 + r2 + r3) / 4 - (1 - r3) = r3 - (r0 + r1 + r2 + r3) / 4 := by ring
  have f0 : 1 - (r0 + r1 + r2 + r3) / 4 - (1 - r0) = r0 - (r0 + r1 + r2 + r3) / 4 := by ring
  have f1 : 1 - (r0 + r1 + r2 + r3) / 4 - (1 - r1) = r1 - (r0 + r1 + r2 + r3) / 4 := by ring
  have f2 : 1 - r2 - (1 - (r0 + r1 + r2 + r3) / 4) = (r0 + r1 + r2 + r3) / 4 - r2 := by ring
  have f3 : 1 - r3 - (1 - (r0 + r1 + r2 + r3) / 4) = (r0 + r1 + r2 + r3) / 4 - r3 := by ring
  rw [e0, e1, e2, e3, f0, f1, f2, f3]
  exact max_comm _ _

/-- On four equal filter responses the response formula gives 0. -/
theorem corner_response_const (v : ℚ) : corner_response v v v v = 0 := by
  unfold corner_response
  have hmu : (v + v + v + v) / 4 = v := by ring
  simp only [hmu, sub_self, min_self, max_self]

/-- C25: for four kernels that each sum to 1 and every field, the response of
`detect_corners_from_templates_custom` on the inverted field `1 - f` equals its response on `f`
at every pixel; inverting the four filter responses leaves the response formula unchanged (its
two polarity terms swap); and on a non-empty constant field the response is 0 at every
pixel. -/
theorem polarity_invariance (gray : Mat) (templates : List Mat)
    (hlen : templates.length = 4) (hsum : ∀ t ∈ templates, t.sum = 1) :
    (∀ r c, (detect_corners_from_templates_custom (gray.map (fun v => 1 - v)) templates).data r c
      = (detect_corners_from_templates_custom gray templates).data r c) ∧
    (∀ r0 r1 r2 r3 : ℚ,
      corner_response (1 - r0) (1 - r1) (1 - r2) (1 - r3) = corner_response r0 r1 r2 r3) ∧
    (∀ v, gray.empty = false → gray.isConst v →
      ∀ r c, (detect_corners_from_templates_custom gray templates).data r c = 0) := by
  match templates, hlen, hsum with
  | [t0, t1, t2, t3], _, hsum =>
    have h0 : (flip_both t0).sum = 1 := by rw [Mat.sum_flip]; exact hsum t0 (by simp)
    have h1 : (flip_both t1).sum = 1 := by rw [Mat.sum_flip]; exact hsum t1 (by simp)
    have h2 : (flip_both t2).sum = 1 := by rw [Mat.sum_flip]; exact hsum t2 (by simp)
    have h3 : (flip_both t3).sum = 1 := by rw [Mat.sum_flip]; exact hsum t3 (by simp)
    refine ⟨?_, corner_response_invert, ?_⟩
    · intro r c
      unfold detect_corners_from_templates_custom
      simp only [Mat.withData]
      rw [filter2D_invert gray _ h0, filter2D_invert gray _ h1, filter2D_invert gray _ h2,
        filter2D_invert gray _ h3]
      exact corner_response_invert _ _ _ _
    · intro v hne hv r c
      unfold detect_corners_from_templates_custom
      simp only [Mat.withData]
      rw [filter2D_const gray _ v h0 hne hv, filter2D_const gray _ v h1 hne hv,
        filter2D_const gray _ v h2 hne hv, filter2D_const gray _ v h3 hne hv]
      exact corner_response_const v

/-! ## Claims on boards without interior triples and on duplicate snaps -/

/-- A board of width at most 2 has no interior column, so the row loop visits no triple. -/
theorem row_triples_small (corners_vec : List Point2f) (board_size : Size)
    (hw : board_size.width ≤ 2) : row_triples corners_vec board_size = [] := by
  unfold row_triples
  have h0 : (board_size.width - 2).toNat = 0 := by omega
  rw [h0]
  simp

/-- A board of height at most 2 has no interior row, so the column loop visits no triple. -/
theorem col_triples_small (corners_vec : List Point2f) (board_size : Size)
    (hh : board_size.height ≤ 2) : col_triples corners_vec board_size = [] := by
  unfold col_triples
  have h0 : (board_size.height - 2).toNat = 0 := by omega
  rw [h0]
  simp

/-- C27: for every board with width at most 2 and height at most 2 and every list whose
length equals `width * height` (as `size_t`), there is no interior triple,
`checkerboard_score_custom` returns 0, and the final score test of the detector accepts the
list: it returns score 0 with the points shifted by the crop offset, whatever their
geometry. -/
theorem score_small_board (sqrt : ℚ → ℚ) (corners_vec : List Point2f) (board_size : Size)
    (hw : board_size.width ≤ 2) (hh : board_size.height ≤ 2)
    (hlen : corners_vec.length = to_size_t (board_size.width * board_size.height)) :
    score_triples corners_vec board_size = [] ∧
    checkerboard_score_custom sqrt corners_vec board_size = 0 ∧
    ∀ (out_corners : List Point2f) (crop_offset : Point),
      detect_finish sqrt out_corners corners_vec board_size crop_offset
        = ⟨0, corners_vec.map
            (fun p => p.add ⟨(crop_offset.x : ℚ), (crop_offset.y : ℚ)⟩)⟩ := by
  have hrow := row_triples_small corners_vec board_size hw
  have hcol := col_triples_small corners_vec board_size hh
  have hscore : checkerboard_score_custom sqrt corners_vec board_size = 0 := by
    unfold checkerboard_score_custom
    rw [if_neg (by simpa using hlen), hrow, hcol]
    rfl
  refine ⟨by unfold score_triples; rw [hrow, hcol]; rfl, hscore, ?_⟩
  intro out_corners crop_offset
  unfold detect_finish
  simp only [hscore]
  rw [if_neg (by norm_num)]

/-- The scoring loop either leaves through `return 1.0`, or it ends with a maximum that is at
least the starting value and at least the defect of every triple visited, none of which is
degenerate. -/
theorem score_scan_bound (sqrt : ℚ → ℚ) :
    ∀ (ts : List (Point2f × Point2f × Point2f)) (m : ℚ),
      score_scan sqrt ts m = ScoreScan.degenerate ∨
      ∃ m', score_scan sqrt ts m = ScoreScan.running m' ∧ m ≤ m' ∧
        ∀ t ∈ ts, triple_degenerate sqrt t = false ∧ triple_defect sqrt t ≤ m' := by
  intro ts
  induction ts with
  | nil => intro m; exact Or.inr ⟨m, rfl, le_refl _, fun _ h => by simp at h⟩
  | cons a ts ih =>
    intro m
    rw [score_scan_cons, score_triple_eq]
    by_cases ha : triple_degenerate sqrt a = true
    · rw [if_pos ha]; exact Or.inl rfl
    · rw [if_neg ha]
      simp only
      rcases ih (max m (triple_defect sqrt a)) with h | ⟨m', h, hle, hall⟩
      · exact Or.inl h
      · refine Or.inr ⟨m', h, le_trans (le_max_left _ _) hle, ?_⟩
        intro t ht
        rcases List.mem_cons.mp ht with rfl | ht
        · exact ⟨by simpa using ha, le_trans (le_max_right _ _) hle⟩
        · exact hall t ht

/-- A triple with two coinciding points is degenerate or has defect exactly 1, when the
square root of 0 is (near) 0. -/
theorem coinciding_defect (sqrt : ℚ → ℚ) (hsqrt : c_abs (sqrt 0) < 1/1000000000)
    (t : Point2f × Point2f × Point2f)
    (hdup : t.1 = t.2.1 ∨ t.2.1 = t.2.2 ∨ t.1 = t.2.2) :
    triple_degenerate sqrt t = true ∨ triple_defect sqrt t = 1 := by
  obtain ⟨p, c, n⟩ := t
  simp only at hdup
  by_cases hd : triple_degenerate sqrt (p, c, n) = true
  · exact Or.inl hd
  · right
    have hbot : norm2f sqrt (n.sub p) ≠ 0 := by
      intro h0
      apply hd
      unfold triple_degenerate
      simp only [decide_eq_true_eq]
      rw [h0]
      unfold c_abs
      norm_num
    rcases hdup with h | h | h
    · subst h
      unfold triple_defect
      simp only
      have : norm2f sqrt ((n.add p).sub (Point2f.smul 2 p)) = norm2f sqrt (n.sub p) := by
        unfold norm2f Point2f.sub Point2f.add Point2f.smul
        simp only
        congr 1
        ring
      rw [this]
      exact div_self hbot
    · subst h
      unfold triple_defect
      simp only
      have : norm2f sqrt ((c.add p).sub (Point2f.smul 2 c)) = norm2f sqrt (c.sub p) := by
        unfold norm2f Point2f.sub Point2f.add Point2f.smul
        simp only
        congr 1
        ring
      rw [this]
      exact div_self hbot
    · subst h
      exfalso
      apply hd
      unfold triple_degenerate norm2f Point2f.sub
      simp only [sub_self, mul_zero, add_zero, decide_eq_true_eq]
      exact hsqrt

/-- A list with a triple of two coinciding points scores at least 1. -/
theorem score_coinciding (sqrt : ℚ → ℚ) (hsqrt : c_abs (sqrt 0) < 1/1000000000)
    (corners_vec : List Point2f) (board_size : Size) (t : Point2f × Point2f × Point2f)
    (ht : t ∈ score_triples corners_vec board_size)
    (hdup : t.1 = t.2.1 ∨ t.2.1 = t.2.2 ∨ t.1 = t.2.2) :
    1 ≤ checkerboard_score_custom sqrt corners_vec board_size := by
  unfold checkerboard_score_custom
  split
  · exact le_refl _
  · rcases score_scan_bound sqrt (row_triples corners_vec board_size) 0 with h1 | ⟨m1, h1, _, hall1⟩
    · rw [h1]
    · rw [h1]
      simp only
      rcases score_scan_bound sqrt (col_triples corners_vec board_size) m1 with
        h2 | ⟨m2, h2, hle, hall2⟩
      · rw [h2]
      · rw [h2]
        simp only
        have hmem := List.mem_append.mp ht
        have hboth : triple_degenerate sqrt t = false ∧ triple_defect sqrt t ≤ m2 := by
          rcases hmem with hm | hm
          · exact ⟨(hall1 t hm).1, le_trans (hall1 t hm).2 hle⟩
          · exact hall2 t hm
        rcases coinciding_defect sqrt hsqrt t hdup with hd | hd
        · rw [hboth.1] at hd; exact absurd hd (by decide)
        · rw [← hd]; exact hboth.2

/-- C28: when the square root of 0 is (near) 0, every list in which some interior row or
column triple `(prev, curr, next)` has two coinciding points gets a score of at least 1.0 from
`checkerboard_score_custom`; and whenever `detect_checkerboard_custom` returns corners, they
are a grid shifted by the crop offset, the returned score is the score of that grid, and no
interior triple of that grid has two coinciding points. -/
theorem duplicate_snaps_rejected (ops : ImgOps) (gops : GridOps)
    (hsqrt : c_abs (ops.sqrt 0) < 1/1000000000) (board_size : Size) :
    (∀ (corners_vec : List Point2f) (t : Point2f × Point2f × Point2f),
      t ∈ score_triples corners_vec board_size →
      (t.1 = t.2.1 ∨ t.2.1 = t.2.2 ∨ t.1 = t.2.2) →
      1 ≤ checkerboard_score_custom ops.sqrt corners_vec board_size) ∧
    (∀ (fuel : Nat) (gray_image : Mat) (winsize : Int) (trim : Bool) (prev : List Point2f)
        (res : DetectionResult),
      detect_checkerboard_custom ops gops fuel gray_image board_size prev winsize trim
        = some res →
      res.corners ≠ [] →
      ∃ grid : List Point2f,
        res.score = checkerboard_score_custom ops.sqrt grid board_size ∧
        res.corners = grid.map (fun p =>
          p.add ⟨((detect_current_gray ops gray_image trim).2.x : ℚ),
                 ((detect_current_gray ops gray_image trim).2.y : ℚ)⟩) ∧
        ∀ t ∈ score_triples grid board_size, t.1 ≠ t.2.1 ∧ t.2.1 ≠ t.2.2 ∧ t.1 ≠ t.2.2) := by
  refine ⟨fun corners_vec t ht hdup =>
    score_coinciding ops.sqrt hsqrt corners_vec board_size t ht hdup, ?_⟩
  intro fuel gray_image winsize trim prev res h hne
  rcases detect_cases ops gops fuel gray_image board_size winsize trim prev res h with
    hres | ⟨cands, r, _, _, _, hres⟩
  · rw [hres] at hne; exact absurd rfl hne
  · unfold detect_finish at hres
    simp only at hres
    split at hres
    · rw [hres] at hne; exact absurd rfl hne
    · rename_i hgt
      refine ⟨r.ordered_corners, by rw [hres], by rw [hres], ?_⟩
      intro t ht
      have hno : ¬ (t.1 = t.2.1 ∨ t.2.1 = t.2.2 ∨ t.1 = t.2.2) := by
        intro hdup
        have := score_coinciding ops.sqrt hsqrt r.ordered_corners board_size t ht hdup
        apply hgt
        linarith
      exact ⟨fun e => hno (Or.inl e), fun e => hno (Or.inr (Or.inl e)),
        fun e => hno (Or.inr (Or.inr e))⟩

/-! ## Claims on the processing of one image -/

/-- Whenever the image loads, the returned struct is the one built by
`find_corners_in_image`, whose `image_path` is the empty string. -/
theorem process_single_image_path (ops : ImgOps) (gops : GridOps) (bops : BoardOps)
    (fuel : Nat) (imread : String → Mat) (board : CalibBoard) (image_path : String)
    (res : ImageCornersResult) (hload : (imread image_path).empty = false)
    (h : board.process_single_image_for_corners ops gops bops fuel imread image_path = some res) :
    res.image_path = "" := by
  unfold CalibBoard.process_single_image_for_corners at h
  simp only [hload, Bool.false_eq_true, if_false] at h
  unfold CalibBoard.find_corners_in_image at h
  simp only [hload, Bool.false_eq_true, if_false] at h
  split at h
  · split at h
    · simp at h
    · simp only [Option.some.injEq] at h
      rw [← h]
      unfold find_corners_custom
      simp only
      split <;> rfl
  · simp only [Option.some.injEq] at h
    rw [← h]
    unfold find_corners_default
    simp only
    split
    · split <;> rfl
    · split
      · split
        · split <;> rfl
        · rfl
      · rfl

/-- When the image fails to load, the returned struct carries the path. -/
theorem process_single_image_unloaded (ops : ImgOps) (gops : GridOps) (bops : BoardOps)
    (fuel : Nat) (imread : String → Mat) (board : CalibBoard) (image_path : String)
    (hload : (imread image_path).empty = true) :
    board.process_single_image_for_corners ops gops bops fuel imread image_path
      = some ⟨image_path, false, [], [], CalibErrType.CAL_CORNER_DET_ERR⟩ := by
  unfold CalibBoard.process_single_image_for_corners
  simp only [hload, if_true]

/-- With the custom detector selected on a chessboard, a non-empty image is handed to
`detect_checkerboard_custom`, and the struct is built from its outcome. -/
theorem find_corners_in_image_custom (ops : ImgOps) (gops : GridOps) (bops : BoardOps)
    (fuel : Nat) (board : CalibBoard) (image : Mat) (det : DetectionResult)
    (himg : image.empty = false)
    (hb : board.use_custom_detector_ = true ∧ board.pattern_type_ = CalibPatternType.CHESSBOARD)
    (hdet : detect_checkerboard_custom ops gops fuel (find_corners_gray ops image)
      ⟨board.board_rows_, board.board_cols_⟩ [] 9 false = some det) :
    board.find_corners_in_image ops gops bops fuel image
      = some (find_corners_custom board ⟨"", false, [], [], CalibErrType.CAL_CORNER_DET_ERR⟩
          det.score det.corners) := by
  unfold CalibBoard.find_corners_in_image
  simp only [himg, Bool.false_eq_true, if_false]
  rw [if_pos hb, hdet]

/-- When the image loads, the struct built by `find_corners_in_image` is returned as it is. -/
theorem process_single_image_loaded (ops : ImgOps) (gops : GridOps) (bops : BoardOps)
    (fuel : Nat) (imread : String → Mat) (board : CalibBoard) (image_path : String)
    (hload : (imread image_path).empty = false) :
    board.process_single_image_for_corners ops gops bops fuel imread image_path
      = board.find_corners_in_image ops gops bops fuel (imread image_path) := by
  unfold CalibBoard.process_single_image_for_corners
  simp only [hload, Bool.false_eq_true, if_false]

/-- C30: evaluation at a failing input. For the path `img.png` that loads as a blank 3 x 3
colour image, on a board whose detector finds the corners, the returned struct has
`found = true` and the empty string as `image_path`, so that `mono_calibrate` lists the empty
string under `successfully_calibrated_images`; on the board with the custom detector, which
rejects the blank image, the returned struct again has the empty `image_path`; only when the
image fails to load does the struct carry the path. -/
theorem process_single_image_drops_path :
    board33.process_single_image_for_corners sampleImgOps sampleGridOps foundBoardOps 10
        (fun _ => color3) "img.png"
      = some ⟨"", true, grid9, [], CalibErrType.CAL_OK⟩ ∧
    mono_calibrate_image_lists [⟨"", true, grid9, [], CalibErrType.CAL_OK⟩] = ([""], []) ∧
    board32.process_single_image_for_corners sampleImgOps sampleGridOps sampleBoardOps 10
        (fun _ => color3) "img.png"
      = some ⟨"", false, [], [], CalibErrType.CAL_CORNER_DET_ERR⟩ ∧
    mono_calibrate_image_lists [⟨"", false, [], [], CalibErrType.CAL_CORNER_DET_ERR⟩]
      = ([], [""]) ∧
    board32.process_single_image_for_corners sampleImgOps sampleGridOps sampleBoardOps 10
        (fun _ => Mat.none) "img.png"
      = some ⟨"img.png", false, [], [], CalibErrType.CAL_CORNER_DET_ERR⟩ := by
  refine ⟨by decide!, by decide!, ?_, by decide!, by decide!⟩
  have hdet : detect_checkerboard_custom sampleImgOps sampleGridOps 10
      (find_corners_gray sampleImgOps color3) ⟨board32.board_rows_, board32.board_cols_⟩ [] 9 false
        = some ⟨1, []⟩ :=
    (detect_uniform_run sampleImgOps sampleGridOps sampleImgOps_keepsFlat
      (find_corners_gray sampleImgOps color3) 0 ⟨3, 2⟩ 9 false [] 10 rfl (fun _ _ _ _ => rfl)
      (by decide) ⟨by decide, by decide⟩).2.2.2
  rw [process_single_image_loaded sampleImgOps sampleGridOps sampleBoardOps 10 (fun _ => color3)
    board32 "img.png" rfl]
  rw [find_corners_in_image_custom sampleImgOps sampleGridOps sampleBoardOps 10 board32 color3
    ⟨1, []⟩ rfl ⟨rfl, rfl⟩ hdet]
  decide!

/-! ## Concrete runs -/

theorem blank3_run (board : Size) (winsize : Int) (prev : List Point2f) (hw : 0 ≤ winsize) :
    detect_candidates sampleImgOps 10
      (normalize_image_custom sampleImgOps (detect_current_gray sampleImgOps blank3 false).1)
      winsize = some [] ∧
    detect_checkerboard_custom sampleImgOps sampleGridOps 10 blank3 board prev winsize false
      = some ⟨1, []⟩ :=
  (detect_uniform_run sampleImgOps sampleGridOps sampleImgOps_keepsFlat blank3 0 board winsize
    false prev 10 rfl (fun _ _ _ _ => rfl) hw ⟨by decide, by decide⟩).2.2

/-- A complete successful run: on the blank 11 x 11 image with the peak response map, window
size 1 and a 3 x 3 board, nine candidates are extracted, refined and ordered, and the detector
returns score 0 with the nine grid points in row-major order. -/
theorem peak_run :
    detect_checkerboard_custom peakImgOps sampleGridOps 12 blank11 ⟨3, 3⟩ [] 1 false
      = some ⟨0, grid9⟩ := by
  decide!

/-- Witness for C1: the successful run returns exactly 3 * 3 corners. -/
theorem detect_corners_empty_or_full_witness :
    detect_checkerboard_custom peakImgOps sampleGridOps 12 blank11 ⟨3, 3⟩ [] 1 false
      = some ⟨0, grid9⟩ ∧
    (grid9 = [] ∨ ((grid9.length : Nat) : Int) = (⟨3, 3⟩ : Size).width * (⟨3, 3⟩ : Size).height) ∧
    detect_checkerboard_custom peakImgOps sampleGridOps 12 blank11 ⟨3, 3⟩ [⟨7, 7⟩] 1 false
      = some ⟨0, grid9⟩ :=
  ⟨peak_run,
   (detect_corners_empty_or_full peakImgOps sampleGridOps 12 blank11 ⟨3, 3⟩ 1 false []
     ⟨0, grid9⟩ peak_run).1,
   (detect_corners_empty_or_full peakImgOps sampleGridOps 12 blank11 ⟨3, 3⟩ 1 false []
     ⟨0, grid9⟩ peak_run).2 [⟨7, 7⟩]⟩

/-- Witness for C2: the successful run returns non-empty corners with score 0, which does not
exceed 0.3. -/
theorem detect_score_above_threshold_witness :
    detect_checkerboard_custom peakImgOps sampleGridOps 12 blank11 ⟨3, 3⟩ [] 1 false
      = some ⟨0, grid9⟩ ∧
    ((⟨0, grid9⟩ : DetectionResult).corners ≠ [] → (⟨0, grid9⟩ : DetectionResult).score ≤ 3/10) :=
  ⟨peak_run,
   (detect_score_above_threshold peakImgOps sampleGridOps 12 blank11 ⟨3, 3⟩ 1 false []
     ⟨0, grid9⟩ peak_run).2⟩

/-- Witness for C3: no candidate is extracted from the blank 3 x 3 image, fewer than the 6
corners of a 3 x 2 board. -/
theorem detect_insufficient_candidates_witness :
    (⟨3, 2⟩ : Size).width * (⟨3, 2⟩ : Size).height < 2 ^ 31 ∧
    detect_candidates sampleImgOps 10
      (normalize_image_custom sampleImgOps (detect_current_gray sampleImgOps blank3 false).1)
      9 = some [] ∧
    detect_checkerboard_custom sampleImgOps sampleGridOps 10 blank3 ⟨3, 2⟩ [] 9 false
      = some ⟨1, []⟩ :=
  ⟨by decide, (blank3_run ⟨3, 2⟩ 9 [] (by decide)).1,
   detect_insufficient_candidates sampleImgOps sampleGridOps 10 blank3 ⟨3, 2⟩ 9 false [] []
     (by decide) (blank3_run ⟨3, 2⟩ 9 [] (by decide)).1 (Or.inl (by decide))⟩

/-- The uniform-image run on the blank 3 x 3 image with the default window size. -/
theorem detect_uniform_image_witness :
    blank3.empty = false ∧ blank3.isConst 0 ∧ (0 : Int) ≤ 9 ∧
    ∃ fuel0, ∀ fuel, fuel0 ≤ fuel →
      detect_checkerboard_custom sampleImgOps sampleGridOps fuel blank3 ⟨7, 5⟩ [] 9 true
        = some ⟨1, []⟩ :=
  ⟨rfl, fun _ _ _ _ => rfl, by decide,
   (detect_uniform_image sampleImgOps sampleGridOps sampleImgOps_keepsFlat blank3 0 ⟨7, 5⟩ 9 true
     [] rfl (fun _ _ _ _ => rfl) (by decide)).2.2.imp (fun _ h fuel hf => (h fuel hf).2)⟩

/-- Witness for C6: four candidates on the unit lattice, a 2 x 2 board, exhaustive
nearest-neighbour search. -/
theorem reorder_lattice_row_major_witness :
    ∃ res, reorder_checkerboard_custom sqrt6 sampleGridOps lattice4 blank3 ⟨2, 2⟩ = some res ∧
      res.ok = true ∧ res.out_max_reorder_dist = some 0 ∧
      ∀ r c : Nat, (r : Int) < (⟨2, 2⟩ : Size).height → (c : Int) < (⟨2, 2⟩ : Size).width →
        res.ordered_corners[r * (⟨2, 2⟩ : Size).width.toNat + c]?
          = some (lattice_point ⟨0, 0⟩ ⟨1, 0⟩ ⟨0, 1⟩ r c) :=
  reorder_lattice_row_major sqrt6 sampleGridOps lattice4 blank3 ⟨2, 2⟩ ⟨0, 0⟩ ⟨1, 0⟩ ⟨0, 1⟩
    (by decide) (by decide) (by decide) ⟨rfl, rfl⟩
    (List.Perm.of_eq (by decide!)) (by decide!) (by decide!)
    (exact_knn_exact _ (by decide))

/-- Witness for C8: of three candidates on a line, the one next to the strongest is
suppressed and the two survivors are 4 apart (squared distance 16, bound 4). -/
theorem nms_min_spacing_witness :
    (non_maximum_suppression_custom insertionSortDesc
      [⟨⟨0, 0⟩, 1/10⟩, ⟨⟨1, 0⟩, 5/10⟩, ⟨⟨5, 0⟩, 3/10⟩] 4)[0]? = some ⟨⟨1, 0⟩, 5/10⟩ ∧
    (non_maximum_suppression_custom insertionSortDesc
      [⟨⟨0, 0⟩, 1/10⟩, ⟨⟨1, 0⟩, 5/10⟩, ⟨⟨5, 0⟩, 3/10⟩] 4)[1]? = some ⟨⟨5, 0⟩, 3/10⟩ ∧
    (4 : ℚ) ≤ dist_sq (⟨1, 0⟩ : Point2f) ⟨5, 0⟩ :=
  ⟨by decide!, by decide!,
   nms_min_spacing insertionSortDesc [⟨⟨0, 0⟩, 1/10⟩, ⟨⟨1, 0⟩, 5/10⟩, ⟨⟨5, 0⟩, 3/10⟩] 4 0 1
     ⟨⟨1, 0⟩, 5/10⟩ ⟨⟨5, 0⟩, 3/10⟩ (by decide!) (by decide!) (by decide)⟩

/-- Witness for C9: the angle pair `(0, π/2)` at radius 1. -/
theorem create_correlation_patch_kernels_witness :
    (0 : Int) ≤ 1 ∧
    (create_correlation_patch_custom sampleImgOps 0 (CV_PI / 2) 1).length = 4 ∧
    ∀ i, i < 4 → ∃ t,
      (create_correlation_patch_custom sampleImgOps 0 (CV_PI / 2) 1)[i]? = some t ∧
      (t.rows : Int) = 2 * 1 + 1 ∧ (t.cols : Int) = 2 * 1 + 1 ∧
      (∀ v u, 0 ≤ t.data v u) ∧
      ((∃ v u, v < t.rows ∧ u < t.cols ∧
          patch_sector sampleImgOps 0 (CV_PI / 2) 1 u v = some i) → t.sum = 1) ∧
      ((¬ ∃ v u, v < t.rows ∧ u < t.cols ∧
          patch_sector sampleImgOps 0 (CV_PI / 2) 1 u v = some i) →
        ∀ v u, t.data v u = 0) :=
  ⟨by decide, create_correlation_patch_kernels sampleImgOps 0 (CV_PI / 2) 1 (by decide)⟩

/-- Witness for C10: the step-edge field with radius list `[2]` at pixel (2, 2). -/
theorem response_map_clamped_max_witness :
    edge_field.empty = false ∧
    0 ≤ (detect_all_corner_responses_custom sampleImgOps edge_field [2]).data 2 2 :=
  ⟨rfl, (response_map_clamped_max sampleImgOps edge_field [2] rfl 2 2).1⟩

/-- Witness for C7: three candidates on the blank 11 x 11 image are refined in place; the
refined list corresponds to the whole input, and the list handed on is sorted. -/
theorem nms_refine_order_witness :
    refine_corners_custom sampleGridOps three_candidates flat11 3 false = some three_candidates ∧
    refine_corners_custom sampleGridOps (detect_nms sampleImgOps three_candidates 1) flat11
      (1 + 2) false = some three_candidates ∧
    (∃ kept, List.Sublist kept three_candidates ∧
      List.Forall₂ (fun r k : CornerCandidate => r.score = k.score) three_candidates kept) ∧
    List.Sorted (fun a b : CornerCandidate => b.score ≤ a.score)
      (candidates_for_reorder three_candidates 3 9 10) :=
  ⟨by decide!, by decide!,
   (nms_refine_order sampleImgOps sampleGridOps three_candidates 1 flat11 3 false 3 9 10).2.1
     three_candidates (by decide!),
   (nms_refine_order sampleImgOps sampleGridOps three_candidates 1 flat11 1 false 3 9 10).2.2
     three_candidates (by decide!)⟩

/-- Counterexample for C11: a straight, evenly spaced 3 x 1 grid with the non-zero pitch
`u = (1e-10, 0)`; the span of its only triple is `2e-10 < 1e-9`, and the score is 1.0, not 0. -/
theorem checkerboard_score_tiny_pitch :
    (⟨1/10000000000, 0⟩ : Point2f) ≠ ⟨0, 0⟩ ∧ (⟨0, 1⟩ : Point2f) ≠ ⟨0, 0⟩ ∧
    norm2f sqrt_frac (Point2f.smul 2 ⟨1/10000000000, 0⟩) = 2/10000000000 ∧
    checkerboard_score_custom sqrt_frac
      (grid_queries ⟨3, 1⟩ ⟨0, 0⟩ ⟨1/10000000000, 0⟩ ⟨0, 1⟩) ⟨3, 1⟩ = 1 := by
  decide!

/-- Witness for C11: the 3 x 3 grid of pitch 3 scores 0. -/
theorem checkerboard_score_lattice_witness :
    sqrt6 0 = 0 ∧
    grid_queries ⟨3, 3⟩ ⟨2, 2⟩ ⟨3, 0⟩ ⟨0, 3⟩ = grid9 ∧
    checkerboard_score_custom sqrt6 (grid_queries ⟨3, 3⟩ ⟨2, 2⟩ ⟨3, 0⟩ ⟨0, 3⟩) ⟨3, 3⟩ = 0 :=
  ⟨by decide!, by decide!,
   checkerboard_score_lattice sqrt6 ⟨3, 3⟩ ⟨2, 2⟩ ⟨3, 0⟩ ⟨0, 3⟩ (by decide) (by decide)
     (by decide) (by decide!) (fun _ => by decide!) (fun _ => by decide!)⟩

/-- Counterexample for C12: four points in a row whose first triple has defect 19 and whose
second triple is degenerate; the maximum of the local defects (1.0 for the degenerate triple)
is 19, the function returns 1.0. -/
theorem checkerboard_score_not_max :
    bent4.length = to_size_t ((⟨4, 1⟩ : Size).width * (⟨4, 1⟩ : Size).height) ∧
    checkerboard_score_custom sqrt6 bent4 ⟨4, 1⟩ = 1 ∧
    max_of ((score_triples bent4 ⟨4, 1⟩).map (spec_local_defect sqrt6)) = 19 := by
  decide!

/-- Witness for C12: the degenerate triple of `bent4` gives 1.0; the 3 x 3 grid of pitch 3
has no degenerate triple and scores the maximum of its local defects. -/
theorem checkerboard_score_max_witness :
    checkerboard_score_custom sqrt6 bent4 ⟨4, 1⟩ = 1 ∧
    checkerboard_score_custom sqrt6 grid9 ⟨3, 3⟩ =
      max_of ((score_triples grid9 ⟨3, 3⟩).map (spec_local_defect sqrt6)) :=
  ⟨(checkerboard_score_max sqrt6 bent4 ⟨4, 1⟩ (by decide)).1
     ⟨(⟨10, 0⟩, ⟨1, 0⟩, ⟨10, 0⟩), by decide!, by decide!⟩,
   ((checkerboard_score_max sqrt6 grid9 ⟨3, 3⟩ (by decide)).2 (by decide!)).1⟩

/-- A complete successful run with trimming: the 14 x 13 image is cropped to the 11 x 11
image starting at column 2 and row 3, and the nine grid points are returned shifted by
`(2, 3)`. -/
theorem crop_run :
    detect_checkerboard_custom cropImgOps sampleGridOps 12 blank14 ⟨3, 3⟩ [] 1 true
      = some ⟨0, grid9.map (fun p => p.add ⟨2, 3⟩)⟩ := by
  decide!

/-- Witness for C13: the run with trimming returns the grid shifted by the crop offset
`(2, 3)`. -/
theorem detect_corners_shifted_witness :
    detect_checkerboard_custom cropImgOps sampleGridOps 12 blank14 ⟨3, 3⟩ [] 1 true
      = some ⟨0, grid9.map (fun p => p.add ⟨2, 3⟩)⟩ ∧
    (detect_current_gray cropImgOps blank14 true).2 = ⟨2, 3⟩ ∧
    ∃ cands r,
      detect_candidates cropImgOps 12
        (normalize_image_custom cropImgOps (detect_current_gray cropImgOps blank14 true).1) 1
          = some cands ∧
      detect_reorder cropImgOps sampleGridOps (detect_nms cropImgOps cands 1)
        (normalize_image_custom cropImgOps (detect_current_gray cropImgOps blank14 true).1)
        ⟨3, 3⟩ 1 = some r ∧
      (grid9.map (fun p => p.add ⟨2, 3⟩)).length = r.ordered_corners.length := by
  obtain ⟨cands, r, h1, h2, _, h4, _⟩ :=
    detect_corners_shifted cropImgOps sampleGridOps 12 blank14 ⟨3, 3⟩ 1 true []
      ⟨0, grid9.map (fun p => p.add ⟨2, 3⟩)⟩ crop_run (by decide!)
  exact ⟨crop_run, by decide!, cands, r, h1, h2, h4⟩

/-- Witness for C16: three candidates cannot fill a 2 x 2 board. -/
theorem reorder_insufficient_witness :
    ∃ res, reorder_checkerboard_custom sqrt6 sampleGridOps (lattice4.take 3) blank3 ⟨2, 2⟩
        = some res ∧ res.ok = false ∧ res.ordered_corners = [] :=
  reorder_insufficient sqrt6 sampleGridOps (lattice4.take 3) blank3 ⟨2, 2⟩ (by decide) (by decide)

/-- Witness for C14: on the blank 3 x 3 image the detector rejects, and the board reports
`found = false` with `CAL_CORNER_DET_ERR`. -/
theorem find_corners_custom_found_witness :
    detect_checkerboard_custom sampleImgOps sampleGridOps 10 (find_corners_gray sampleImgOps blank3)
      ⟨board32.board_rows_, board32.board_cols_⟩ [] 9 false = some ⟨1, []⟩ ∧
    ∃ result, board32.find_corners_in_image sampleImgOps sampleGridOps sampleBoardOps 10 blank3
        = some result ∧
      result.found = false ∧ result.error_code = CalibErrType.CAL_CORNER_DET_ERR := by
  have hdet : detect_checkerboard_custom sampleImgOps sampleGridOps 10
      (find_corners_gray sampleImgOps blank3) ⟨board32.board_rows_, board32.board_cols_⟩ [] 9 false
        = some ⟨1, []⟩ := (blank3_run ⟨3, 2⟩ 9 [] (by decide)).2
  obtain ⟨result, h1, _, _, h4⟩ :=
    (find_corners_custom_found sampleImgOps sampleGridOps sampleBoardOps 10 board32 blank3
      rfl rfl (by decide)).2 (by decide) ⟨1, []⟩ hdet
  exact ⟨hdet, result, h1, h4 (by decide!)⟩

/-- C15: evaluation at a failing input. On a 3 x 3 image with window size 4 (half-size 1) the
candidate at `(1, 1)` passes the bounds test of `refine_corners_custom`, but its 4 x 4 window
anchored at `(0, 0)` does not lie inside the 3 x 3 gradient image: the extraction of the
patch fails its assertion and the function returns no list. -/
theorem refine_even_window_overrun :
    refine_bounds_ok (refine_sobel sampleGridOps blank3 1 0) (Int.tdiv (4 - 1) 2) 1 1 = true ∧
    (refine_sobel sampleGridOps blank3 1 0).roi_inside
      (refine_window 4 (Int.tdiv (4 - 1) 2) 1 1) = false ∧
    refine_corners_custom sampleGridOps [⟨⟨1, 1⟩, 1⟩] blank3 4 false = none := by
  decide!

/-- Counterexample for C17: with window size 1 the candidate at `(100, 100)`, whose window is
outside the 3 x 3 image, is returned unchanged. -/
theorem refine_keeps_unrefinable :
    refine_corners_custom sampleGridOps [⟨⟨100, 100⟩, 1⟩] blank3 1 false
      = some [⟨⟨100, 100⟩, 1⟩] ∧
    refine_bounds_ok (refine_sobel sampleGridOps blank3 1 0) (Int.tdiv (1 - 1) 2) 100 100
      = false := by
  decide!

/-- Witness for C17: with window size 1 the input is returned unchanged; with window size 3
on the blank 11 x 11 image every returned candidate is a successful refinement. -/
theorem refine_output_refined_witness :
    refine_corners_custom sampleGridOps [⟨⟨100, 100⟩, 1⟩] blank3 1 false
      = some [⟨⟨100, 100⟩, 1⟩] ∧
    ∃ out, refine_corners_custom sampleGridOps three_candidates flat11 3 false = some out ∧
      ∀ r ∈ out, ∃ cand ∈ three_candidates,
        refined_from (refine_sobel sampleGridOps flat11 1 0) (refine_sobel sampleGridOps flat11 0 1)
          3 (Int.tdiv (3 - 1) 2) false cand r := by
  have h := (refine_output_refined sampleGridOps three_candidates flat11 3 false).2 rfl rfl
    (by decide)
  obtain ⟨out, hout⟩ := h.1 (by decide)
  exact ⟨(refine_output_refined sampleGridOps [⟨⟨100, 100⟩, 1⟩] blank3 1 false).1
      (Or.inr (Or.inr (by decide))), out, hout, h.2 out hout⟩

theorem perm3_rotation : perm3.IsRotation := by
  refine ⟨rfl, rfl, ?_, ?_, ?_, ?_, ?_, ?_, ?_⟩ <;> decide!

theorem perm3_sqrt : ∀ x ∈ sqrt_arguments perm3, 0 ≤ x → 0 ≤ sqrt6 x ∧ sqrt6 x * sqrt6 x = x := by
  intro x hx _
  have : x = 1 := by
    simp only [sqrt_arguments, List.mem_cons, List.mem_singleton, List.not_mem_nil, or_false] at hx
    rcases hx with h | h | h | h | h <;> rw [h] <;> decide!
  rw [this]
  decide!

/-- Witness for C18: the rotation by 120 degrees about `(1, 1, 1)` has the quaternion
`(1/2, 1/2, 1/2, 1/2)`, of norm 1, which is mapped back to the matrix. -/
theorem quaternion_roundtrip_witness :
    perm3.IsRotation ∧
    rotation_matrix_to_quaternion sqrt6 perm3 = ⟨1/2, 1/2, 1/2, 1/2⟩ ∧
    (rotation_matrix_to_quaternion sqrt6 perm3).norm sqrt6 = 1 ∧
    ∀ r c : Nat, r < 3 → c < 3 →
      (quaternion_to_rotation_matrix sqrt6 (rotation_matrix_to_quaternion sqrt6 perm3)).data r c
        = perm3.data r c :=
  ⟨perm3_rotation, by decide!,
   (quaternion_roundtrip sqrt6 perm3 perm3_sqrt perm3_rotation).2.1,
   (quaternion_roundtrip sqrt6 perm3 perm3_sqrt perm3_rotation).2.2.2.2⟩

/-- Witness for C19: `numDisparities = -20` and `blockSize = 4` become 16 and 5. -/
theorem sgbm_validate_valid_witness :
    (⟨0, -20, 4, 1, 128, 1, 15, 5, 50, 8, 1⟩ : SgbmParams).validate
      = some ⟨0, 16, 5, 1, 128, 1, 15, 5, 50, 8, 1⟩ ∧
    ∃ p', (⟨0, -20, 4, 1, 128, 1, 15, 5, 50, 8, 1⟩ : SgbmParams).validate = some p' ∧
      p'.valid ∧ p'.validate = some p' := by
  obtain ⟨p', h1, h2, _, _, h5⟩ :=
    sgbm_validate_valid ⟨0, -20, 4, 1, 128, 1, 15, 5, 50, 8, 1⟩ (by decide) (by decide)
  exact ⟨by decide, p', h1, h2, h5⟩

/-- Witness for C20: on the unit lattice with `min_dist_sq = 2` the candidates at `(0, 0)` and
`(1, 1)` are kept; the candidate at `(1, 0)` is in the output or close to a kept candidate of
at least its score. -/
theorem nms_complete_witness :
    non_maximum_suppression_custom insertionSortDesc lattice4 2
      = [⟨⟨0, 0⟩, 4/10⟩, ⟨⟨1, 1⟩, 1/10⟩] ∧
    ((⟨⟨1, 0⟩, 3/10⟩ : CornerCandidate) ∈ non_maximum_suppression_custom insertionSortDesc lattice4 2 ∨
      ∃ a ∈ non_maximum_suppression_custom insertionSortDesc lattice4 2,
        dist_sq a.point (⟨⟨1, 0⟩, 3/10⟩ : CornerCandidate).point < 2 ∧
        (⟨⟨1, 0⟩, 3/10⟩ : CornerCandidate).score ≤ a.score) :=
  ⟨by decide!, (nms_complete insertionSortDesc lattice4 2).1 ⟨⟨1, 0⟩, 3/10⟩ (by decide!)⟩

/-- Witness for C21: on the 5 x 5 map `peak_map` with `step = 3` and threshold 1/4 the scan
returns the two candidates at `(0, 0)` and `(3, 2)`. -/
theorem corner_candidates_valid_witness :
    (2 : Int) ≤ 3 ∧
    get_corner_candidates_custom 6 peak_map 3 (1/4) = some [⟨⟨0, 0⟩, 1/2⟩, ⟨⟨3, 2⟩, 1⟩] ∧
    ∃ cands, get_corner_candidates_custom 6 peak_map 3 (1/4) = some cands ∧
      (∀ cand ∈ cands, ∃ x y : Nat, x < peak_map.cols ∧ y < peak_map.rows ∧
        cand.point = ⟨(x : ℚ), (y : ℚ)⟩ ∧ cand.score = peak_map.data y x ∧
        cand.score > 1/4) ∧
      List.Pairwise (fun a b : CornerCandidate => a.point ≠ b.point) cands :=
  ⟨by decide, by decide!,
   corner_candidates_valid 6 peak_map 3 (1/4) (by decide) ⟨by decide, by decide⟩⟩

/-- Witness for C26: the maximum of `peak_map` is 1, above the threshold `1 * 0.2`, and the
scan with `step = 3` returns a candidate of score 1 at a pixel of value 1. -/
theorem strongest_response_found_witness :
    (minMaxLoc peak_map).max_val = 1 ∧
    get_corner_candidates_custom 6 peak_map 3 (2/10) = some [⟨⟨0, 0⟩, 1/2⟩, ⟨⟨3, 2⟩, 1⟩] ∧
    ((∀ r c, r < peak_map.rows → c < peak_map.cols →
      peak_map.data r c ≤ (minMaxLoc peak_map).max_val) ∧
    ∃ cands, get_corner_candidates_custom 6 peak_map 3 (2/10) = some cands ∧
      ∃ cand ∈ cands, cand.score = (minMaxLoc peak_map).max_val ∧
        ∃ x y : Nat, x < peak_map.cols ∧ y < peak_map.rows ∧
          cand.point = ⟨(x : ℚ), (y : ℚ)⟩ ∧
          peak_map.data y x = (minMaxLoc peak_map).max_val) :=
  ⟨by decide!, by decide!,
   strongest_response_found 6 peak_map 3 (2/10) rfl rfl (by decide) ⟨by decide, by decide⟩
     (Or.inr ⟨by decide!, by decide!⟩)⟩

/-- Witness for C22: on the 3 x 4 swirl patches the accumulated matrix has determinant 144
and the gradients are orthogonal to the offsets from row 1, column 2; the function returns
the point `(x, y) = (2, 1)`. -/
theorem solve_patch_corner_solution_witness :
    structure_tensor_det swirl_dx swirl_dy = 144 ∧
    solve_patch_corner_custom swirl_dx swirl_dy = ⟨2, 1⟩ ∧
    (patch_sums swirl_dx swirl_dy).solves (solve_patch_corner_custom swirl_dx swirl_dy).y
      (solve_patch_corner_custom swirl_dx swirl_dy).x :=
  ⟨by decide!,
   (solve_patch_corner_solution swirl_dx swirl_dy ⟨rfl, rfl⟩ ⟨rfl, rfl⟩
     (by decide!)).2.2 1 2
     (fun r c hr hc => by
       have hr3 : r < 3 := hr
       have hc4 : c < 4 := hc
       interval_cases r <;> interval_cases c <;> norm_num [swirl_dx, swirl_dy]),
   (solve_patch_corner_solution swirl_dx swirl_dy ⟨rfl, rfl⟩ ⟨rfl, rfl⟩
     (by decide!)).1⟩

/-- Witness for C23: on the four candidates of the unit lattice and a 2 x 2 board the
reconstruction succeeds with maximum snap distance 0. -/
theorem reorder_minimal_hypothesis_witness :
    reorder_checkerboard_custom sqrt6 sampleGridOps lattice4 blank3 ⟨2, 2⟩
      = some ⟨true, [⟨0, 0⟩, ⟨1, 0⟩, ⟨0, 1⟩, ⟨1, 1⟩], some 0⟩ ∧
    ∃ ax1 ax2,
      reorder_axes sqrt6 sampleGridOps (lattice4.map (fun cand => cand.point)) blank3
        = some (some (ax1, ax2)) ∧
      (grid_hypotheses_list (lattice4.map (fun cand => cand.point)) ax1 ax2).length
        = 2 * min 2 lattice4.length ∧
      (∃ hsel ∈ grid_hypotheses_list (lattice4.map (fun cand => cand.point)) ax1 ax2, ∃ d,
        grid_hypothesis sampleGridOps (lattice4.map (fun cand => cand.point)) ⟨2, 2⟩
          hsel.1 hsel.2.1 hsel.2.2
            = some (d, (⟨true, [⟨0, 0⟩, ⟨1, 0⟩, ⟨0, 1⟩, ⟨1, 1⟩], some 0⟩ : ReorderResult).ordered_corners) ∧
        (⟨true, [⟨0, 0⟩, ⟨1, 0⟩, ⟨0, 1⟩, ⟨1, 1⟩], some 0⟩ : ReorderResult).out_max_reorder_dist
          = some d ∧
        ∀ h' ∈ grid_hypotheses_list (lattice4.map (fun cand => cand.point)) ax1 ax2,
          ∃ hyp', grid_hypothesis sampleGridOps (lattice4.map (fun cand => cand.point)) ⟨2, 2⟩
            h'.1 h'.2.1 h'.2.2 = some hyp' ∧ d ≤ hyp'.1) ∧
      ∀ p ∈ (⟨true, [⟨0, 0⟩, ⟨1, 0⟩, ⟨0, 1⟩, ⟨1, 1⟩], some 0⟩ : ReorderResult).ordered_corners,
        ∃ cand ∈ lattice4, cand.point = p :=
  ⟨by decide!,
   reorder_minimal_hypothesis sqrt6 sampleGridOps lattice4 blank3 ⟨2, 2⟩
     ⟨true, [⟨0, 0⟩, ⟨1, 0⟩, ⟨0, 1⟩, ⟨1, 1⟩], some 0⟩ (by decide!) rfl⟩

/-- Witness for C24: for the angle pair `(0, π/2)` at radius 2, kernel 0 flipped has at row 3,
column 1 the value 1 of kernel 1, and on the step-edge field the response at pixel (2, 2) is
`-1/2` with flipped and with unflipped kernels. -/
theorem flip_immaterial_witness :
    (spec_response_unflipped edge_field
      (create_correlation_patch_custom sampleImgOps 0 (CV_PI / 2) 2)).data 2 2 = -1/2 ∧
    (patch_normalize (patch_indicator sampleImgOps 0 (CV_PI / 2) 2 1)).data 3 1 = 1 ∧
    (flip_both (patch_normalize (patch_indicator sampleImgOps 0 (CV_PI / 2) 2 0))).data 3 1
      = (patch_normalize (patch_indicator sampleImgOps 0 (CV_PI / 2) 2
          (opposite_sector 0))).data 3 1 ∧
    detect_corners_from_templates_custom edge_field
        (create_correlation_patch_custom sampleImgOps 0 (CV_PI / 2) 2)
      = spec_response_unflipped edge_field
        (create_correlation_patch_custom sampleImgOps 0 (CV_PI / 2) 2) :=
  ⟨by decide!, by decide!,
   (flip_immaterial sampleImgOps 0 (CV_PI / 2) 2 edge_field).2.1 0 3 1 (by decide) (by decide),
   (flip_immaterial sampleImgOps 0 (CV_PI / 2) 2 edge_field).1⟩

/-- Witness for C25: the four kernels of the angle pair `(0, π/2)` at radius 2 each sum to 1;
on the step-edge field and on its inversion the response at pixel (2, 2) is `-1/2`, and on the
blank 3 x 3 field the response at pixel (1, 1) is 0. -/
theorem polarity_invariance_witness :
    (create_correlation_patch_custom sampleImgOps 0 (CV_PI / 2) 2).length = 4 ∧
    (detect_corners_from_templates_custom edge_field
      (create_correlation_patch_custom sampleImgOps 0 (CV_PI / 2) 2)).data 2 2 = -1/2 ∧
    (detect_corners_from_templates_custom (edge_field.map (fun v => 1 - v))
      (create_correlation_patch_custom sampleImgOps 0 (CV_PI / 2) 2)).data 2 2
      = (detect_corners_from_templates_custom edge_field
        (create_correlation_patch_custom sampleImgOps 0 (CV_PI / 2) 2)).data 2 2 ∧
    (detect_corners_from_templates_custom blank3
      (create_correlation_patch_custom sampleImgOps 0 (CV_PI / 2) 2)).data 1 1 = 0 :=
  ⟨rfl, by decide!,
   (polarity_invariance edge_field (create_correlation_patch_custom sampleImgOps 0 (CV_PI / 2) 2)
     rfl (by decide!)).1 2 2,
   (polarity_invariance blank3 (create_correlation_patch_custom sampleImgOps 0 (CV_PI / 2) 2)
     rfl (by decide!)).2.2 0 rfl (fun _ _ _ _ => rfl) 1 1⟩

/-- Witness for C27: on a 2 x 2 board the four points of `bent4`, two of which coincide, score
0 and are accepted. -/
theorem score_small_board_witness :
    (⟨2, 2⟩ : Size).width ≤ 2 ∧ (⟨2, 2⟩ : Size).height ≤ 2 ∧
    bent4.length = to_size_t ((⟨2, 2⟩ : Size).width * (⟨2, 2⟩ : Size).height) ∧
    checkerboard_score_custom sqrt6 bent4 ⟨2, 2⟩ = 0 ∧
    detect_finish sqrt6 [] bent4 ⟨2, 2⟩ ⟨0, 0⟩
      = ⟨0, bent4.map (fun p => p.add ⟨(((⟨0, 0⟩ : Point).x : Int) : ℚ),
          (((⟨0, 0⟩ : Point).y : Int) : ℚ)⟩)⟩ :=
  ⟨by decide, by decide, by decide,
   (score_small_board sqrt6 bent4 ⟨2, 2⟩ (by decide) (by decide) (by decide)).2.1,
   (score_small_board sqrt6 bent4 ⟨2, 2⟩ (by decide) (by decide) (by decide)).2.2 [] ⟨0, 0⟩⟩

/-- Witness for C28: on a 3 x 1 board the list `(0,0), (0,0), (1,0)` has the triple
`((0,0), (0,0), (1,0))` and scores 1; the successful run on the 3 x 3 board returns a grid none
of whose triples has coinciding points. -/
theorem duplicate_snaps_rejected_witness :
    c_abs (peakImgOps.sqrt 0) < 1/1000000000 ∧
    checkerboard_score_custom peakImgOps.sqrt [⟨0, 0⟩, ⟨0, 0⟩, ⟨1, 0⟩] ⟨3, 1⟩ = 1 ∧
    1 ≤ checkerboard_score_custom peakImgOps.sqrt [⟨0, 0⟩, ⟨0, 0⟩, ⟨1, 0⟩] ⟨3, 1⟩ ∧
    detect_checkerboard_custom peakImgOps sampleGridOps 12 blank11 ⟨3, 3⟩ [] 1 false
      = some ⟨0, grid9⟩ ∧
    ∃ grid : List Point2f,
      (⟨0, grid9⟩ : DetectionResult).score = checkerboard_score_custom peakImgOps.sqrt grid ⟨3, 3⟩ ∧
      (⟨0, grid9⟩ : DetectionResult).corners = grid.map (fun p =>
        p.add ⟨((detect_current_gray peakImgOps blank11 false).2.x : ℚ),
               ((detect_current_gray peakImgOps blank11 false).2.y : ℚ)⟩) ∧
      ∀ t ∈ score_triples grid ⟨3, 3⟩, t.1 ≠ t.2.1 ∧ t.2.1 ≠ t.2.2 ∧ t.1 ≠ t.2.2 :=
  ⟨by decide!, by decide!,
   (duplicate_snaps_rejected peakImgOps sampleGridOps (by decide!) ⟨3, 1⟩).1
     [⟨0, 0⟩, ⟨0, 0⟩, ⟨1, 0⟩] (⟨0, 0⟩, ⟨0, 0⟩, ⟨1, 0⟩) (by decide!) (Or.inl rfl),
   by decide!,
   (duplicate_snaps_rejected peakImgOps sampleGridOps (by decide!) ⟨3, 3⟩).2
     12 blank11 1 false [] ⟨0, grid9⟩ (by decide!) (by decide)⟩
